import Mathlib

/-!
# Report merge / unmerge (`deepfence_agent/tools/apache/scope/report/report.go`)

A shallow embedding of the `Report` aggregate, its sidecar containers
(`TopologyAdjacency`, `TopologySets`, `Parents`), the field selectors, the
paired walks, `MakeReport` / `Copy` / `UnsafeMerge` / `UnsafeUnMerge`, and the
`Sampling` helper.

Modelling conventions.

* A Go `map[string]V` is a `GoMap V`: `none` is the nil map, `some m` an
  allocated map whose entries are an association list with pairwise distinct
  keys.  Reading or ranging over a nil map is allowed, assigning into it is a
  run-time panic.
* A call that mutates its receiver through a pointer yields an
  `Except (Report c) (Report c)`: `ok r` is a normal return that leaves the
  receiver in state `r`, `error r` is a run-time panic that leaves it in
  state `r`.
* `time.Time` is an instant in one of the two forms Go stores: the wall clock
  alone, or the wall clock with a monotonic clock reading, which `Before`
  compares when both operands carry one.  `time.Duration` is a 64-bit signed
  integer, kept as an `Int` and wrapped explicitly.
* `Topology`, `DNSRecords`, `IDList` and `Sets` are declared in other files of
  the package; they are taken as parameters (`Collab`).
* In `Report`, operands are read at the value they have when the call starts
  and each sidecar field is the content of a map of its own.  In `heap.Report`
  a sidecar field is a reference into a memory of map objects, so that fields
  may hold the same object; the claims on the sidecars after a merge are
  stated there.
-/

namespace report

/-! ## Go primitives -/

/-- A Go `map[string]V`; `none` is the nil map. -/
def GoMap (V : Type) : Type := Option (AList (fun _ : String => V))

namespace GoMap

variable {V : Type}

/-- The map produced by `make(map[string]V)`. -/
def make : GoMap V := some ∅

/-- The expression `m[k]` in its two-result form; a nil map has no entry. -/
def lookup (m : GoMap V) (k : String) : Option V :=
  match m with
  | none => none
  | some a => a.lookup k

/-- The entries visited by `for k, v := range m`; none for a nil map. -/
def range (m : GoMap V) : List (String × V) :=
  match m with
  | none => []
  | some a => a.entries.map (fun e => (e.1, e.2))

/-- The statement `m[k] = v`; `none` is the panic of assigning into a nil map. -/
def assign (m : GoMap V) (k : String) (v : V) : Option (GoMap V) :=
  match m with
  | none => none
  | some a => some (some (a.insert k v))

/-- The keys of the map. -/
def keys (m : GoMap V) : List String :=
  match m with
  | none => []
  | some a => a.keys

/-- Whether the map is a nil map. -/
def isNil (m : GoMap V) : Bool :=
  match m with
  | none => true
  | some _ => false

end GoMap

/-- The two's-complement result of a 64-bit signed operation whose exact value is `x`. -/
def wrap64 (x : Int) : Int := (x + 2 ^ 63) % 2 ^ 64 - 2 ^ 63

/-- The values of a 64-bit signed integer. -/
def isInt64 (x : Int) : Prop := -(2 : Int) ^ 63 ≤ x ∧ x < 2 ^ 63

instance (x : Int) : Decidable (isInt64 x) := by
  unfold isInt64; exact inferInstance

/-- An instant of `time.Time`, in the two forms Go stores.  A time without a monotonic clock
reading (a decoded time, a time built from a date, the zero time) holds its seconds since
January 1, year 1.  A time with a monotonic clock reading (what `time.Now` returns) holds its
wall seconds since January 1, 1885, and the reading.  The location is not part of it. -/
inductive Time where
  | wall (sec : Int) (nsec : Nat)
  | mono (since1885 : Nat) (nsec : Nat) (reading : Int)
  deriving DecidableEq, Repr

namespace Time

/-- The constant `wallToInternal`: the seconds from January 1, year 1 to January 1, 1885. -/
def wallToInternal : Int := (1884 * 365 + 1884 / 4 - 1884 / 100 + 1884 / 400) * 86400

/-- The seconds since January 1, year 1 (`sec()`). -/
def sec (t : Time) : Int :=
  match t with
  | .wall s _ => s
  | .mono w _ _ => wallToInternal + w

/-- The nanoseconds within the second (`nsec()`). -/
def nsec (t : Time) : Nat :=
  match t with
  | .wall _ n => n
  | .mono _ n _ => n

/-- The zero value `time.Time{}`. -/
def zero : Time := .wall 0 0

/-- The method `IsZero`. -/
def IsZero (t : Time) : Bool := t.sec == 0 && t.nsec == 0

/-- The method `Before`: two times that both carry a monotonic clock reading are compared by
their readings, every other pair by the wall clock. -/
def Before (t u : Time) : Bool :=
  match t, u with
  | .mono _ _ r1, .mono _ _ r2 => decide (r1 < r2)
  | _, _ => decide (t.sec < u.sec) || (t.sec == u.sec && decide (t.nsec < u.nsec))

/-- Whether `Before` orders the instants of a list linearly: it is transitive on them, and of
two different instants of the list one is before the other.  It does on every list of times
without a monotonic clock reading. -/
def linearlyOrdered (ts : List Time) : Prop :=
  (∀ a ∈ ts, ∀ b ∈ ts, ∀ d ∈ ts, a.Before b = true → b.Before d = true → a.Before d = true) ∧
  (∀ a ∈ ts, ∀ b ∈ ts, a ≠ b → a.Before b = true ∨ b.Before a = true)

instance (ts : List Time) : Decidable (linearlyOrdered ts) := by
  unfold linearlyOrdered; exact inferInstance

end Time

/-! ## Names of the topologies -/

def Endpoint : String := "endpoint"
def Process : String := "process"
def Container : String := "container"
def Pod : String := "pod"
def Service : String := "service"
def Namespace : String := "namespace"
def ContainerImage : String := "container_image"
def CloudProvider : String := "cloud_provider"
def CloudRegion : String := "cloud_region"
def Host : String := "host"
def Overlay : String := "overlay"
def KubernetesCluster : String := "kubernetes_cluster"

/-- The names of all report topologies. -/
def topologyNames : List String :=
  [Endpoint, Process, Container, ContainerImage, CloudProvider, CloudRegion,
   KubernetesCluster, Pod, Service, Namespace, Host, Overlay]

def topologyAdjacencyNames : List String := [Endpoint]

def topologyParentNames : List String :=
  [Endpoint, Process, Container, ContainerImage, CloudRegion, KubernetesCluster,
   Pod, Service, Namespace, Host, Overlay]

def topologySetNames : List String := [Container, Overlay]

/-! ## Collaborators and sidecar containers -/

/-- The types and operations the package declares outside `report.go`. -/
structure Collab where
  Topology : Type
  DNSRecords : Type
  IDList : Type
  Sets : Type
  /-- The zero value `Topology{}`. -/
  topologyZero : Topology
  /-- The function `MakeTopology`. -/
  MakeTopology : Topology
  /-- The method `Topology.UnsafeMerge`: the receiver after absorbing the argument. -/
  topologyUnsafeMerge : Topology → Topology → Topology
  /-- The method `Topology.UnsafeUnMerge`: the receiver after retracting the argument. -/
  topologyUnsafeUnMerge : Topology → Topology → Topology
  /-- The method `Topology.Copy`. -/
  topologyCopy : Topology → Topology
  /-- The zero value of `DNSRecords`. -/
  dnsZero : DNSRecords
  /-- The literal `DNSRecords{}`. -/
  dnsEmpty : DNSRecords
  /-- The method `DNSRecords.Merge`. -/
  dnsMerge : DNSRecords → DNSRecords → DNSRecords
  /-- The method `DNSRecords.Copy`. -/
  dnsCopy : DNSRecords → DNSRecords
  /-- Whether a `DNSRecords` value is empty, as the `omitempty` option of a field tag
  tests it. -/
  dnsIsEmpty : DNSRecords → Bool
  /-- The function `MakeIDList`, on one identifier. -/
  MakeIDList : String → IDList
  /-- The method `IDList.Add`, on one identifier: the list it returns. -/
  idListAdd : IDList → String → IDList

/-- The ancestor chain of one node. -/
structure Parent where
  CloudProvider : String
  CloudRegion : String
  KubernetesCluster : String
  Host : String
  Container : String
  ContainerImage : String
  Namespace : String
  Pod : String
  deriving DecidableEq, Repr

abbrev TopologyAdjacency (c : Collab) : Type := GoMap c.IDList
abbrev TopologySets (c : Collab) : Type := GoMap c.Sets
abbrev Parents : Type := GoMap Parent

def MakeTopologyAdjacency (c : Collab) : TopologyAdjacency c := GoMap.make
def MakeTopologySets (c : Collab) : TopologySets c := GoMap.make
def MakeParents : Parents := GoMap.make

/-- The body `for k, v := range o { t[k] = v }`; `none` is a panic. -/
def TopologyAdjacency.UnsafeMerge {c : Collab} (t o : TopologyAdjacency c) :
    Option (TopologyAdjacency c) :=
  o.range.foldlM (fun t kv => GoMap.assign t kv.1 kv.2) t

/-- The empty body of `TopologyAdjacency.UnsafeUnMerge`. -/
def TopologyAdjacency.UnsafeUnMerge {c : Collab} (t _o : TopologyAdjacency c) :
    TopologyAdjacency c := t

/-- The body `for k, v := range o { t[k] = v }`; `none` is a panic. -/
def TopologySets.UnsafeMerge {c : Collab} (t o : TopologySets c) : Option (TopologySets c) :=
  o.range.foldlM (fun t kv => GoMap.assign t kv.1 kv.2) t

/-- The empty body of `TopologySets.UnsafeUnMerge`. -/
def TopologySets.UnsafeUnMerge {c : Collab} (t _o : TopologySets c) : TopologySets c := t

/-- The body `for k, v := range o { t[k] = v }`; `none` is a panic. -/
def Parents.UnsafeMerge (t o : Parents) : Option Parents :=
  o.range.foldlM (fun t kv => GoMap.assign t kv.1 kv.2) t

/-- The empty body of `Parents.UnsafeUnMerge`. -/
def Parents.UnsafeUnMerge (t _o : Parents) : Parents := t

/-- The method `TopologyAdjacency.Copy`: a map made by `MakeTopologyAdjacency` into which
every entry of `t` is assigned, the list value as it is. -/
def TopologyAdjacency.Copy {c : Collab} (t : TopologyAdjacency c) :
    Option (TopologyAdjacency c) :=
  t.range.foldlM (fun n kv => GoMap.assign n kv.1 kv.2) (MakeTopologyAdjacency c)

/-- The method `TopologySets.Copy`. -/
def TopologySets.Copy {c : Collab} (t : TopologySets c) : Option (TopologySets c) :=
  t.range.foldlM (fun n kv => GoMap.assign n kv.1 kv.2) (MakeTopologySets c)

/-- The method `Parents.Copy`. -/
def Parents.Copy (t : Parents) : Option Parents :=
  t.range.foldlM (fun n kv => GoMap.assign n kv.1 kv.2) MakeParents

/-! ## The report -/

/-- The core data type: one topology per layer, the sidecars, and the cross-cutting fields. -/
structure Report (c : Collab) where
  TS : Time
  Endpoint : c.Topology
  EndpointAdjacency : TopologyAdjacency c
  EndpointParents : Parents
  Process : c.Topology
  ProcessParents : Parents
  Container : c.Topology
  ContainerParents : Parents
  ContainerSets : TopologySets c
  CloudProvider : c.Topology
  CloudRegion : c.Topology
  CloudRegionParents : Parents
  KubernetesCluster : c.Topology
  KubernetesClusterParents : Parents
  Pod : c.Topology
  PodParents : Parents
  Service : c.Topology
  ServiceParents : Parents
  Namespace : c.Topology
  NamespaceParents : Parents
  ContainerImage : c.Topology
  ContainerImageParents : Parents
  Host : c.Topology
  HostParents : Parents
  Overlay : c.Topology
  OverlayParents : Parents
  OverlaySets : TopologySets c
  DNS : c.DNSRecords
  BugDNS : c.DNSRecords
  Window : Int
  Shortcut : Bool
  ID : String

/-- A non-nil `*Topology` into a report: the field it points to. -/
inductive TopologyRef where
  | Endpoint | Process | Container | ContainerImage | CloudProvider | CloudRegion
  | KubernetesCluster | Pod | Service | Namespace | Host | Overlay
  deriving DecidableEq, Repr

/-- A non-nil `*TopologyAdjacency` into a report. -/
inductive AdjacencyRef where
  | EndpointAdjacency
  deriving DecidableEq, Repr

/-- A non-nil `*Parents` into a report. -/
inductive ParentsRef where
  | EndpointParents | ProcessParents | ContainerParents | ContainerImageParents
  | CloudRegionParents | KubernetesClusterParents | PodParents | ServiceParents
  | NamespaceParents | HostParents | OverlayParents
  deriving DecidableEq, Repr

/-- A non-nil `*TopologySets` into a report. -/
inductive SetsRef where
  | ContainerSets | OverlaySets
  deriving DecidableEq, Repr

/-- Reading through a `*Topology`. -/
def TopologyRef.get {c : Collab} (p : TopologyRef) (r : Report c) : c.Topology :=
  match p with
  | .Endpoint => r.Endpoint
  | .Process => r.Process
  | .Container => r.Container
  | .ContainerImage => r.ContainerImage
  | .CloudProvider => r.CloudProvider
  | .CloudRegion => r.CloudRegion
  | .KubernetesCluster => r.KubernetesCluster
  | .Pod => r.Pod
  | .Service => r.Service
  | .Namespace => r.Namespace
  | .Host => r.Host
  | .Overlay => r.Overlay

/-- Writing through a `*Topology`. -/
def TopologyRef.set {c : Collab} (p : TopologyRef) (r : Report c) (v : c.Topology) : Report c :=
  match p with
  | .Endpoint => { r with Endpoint := v }
  | .Process => { r with Process := v }
  | .Container => { r with Container := v }
  | .ContainerImage => { r with ContainerImage := v }
  | .CloudProvider => { r with CloudProvider := v }
  | .CloudRegion => { r with CloudRegion := v }
  | .KubernetesCluster => { r with KubernetesCluster := v }
  | .Pod => { r with Pod := v }
  | .Service => { r with Service := v }
  | .Namespace => { r with Namespace := v }
  | .Host => { r with Host := v }
  | .Overlay => { r with Overlay := v }

/-- Reading through a `*TopologyAdjacency`. -/
def AdjacencyRef.get {c : Collab} (p : AdjacencyRef) (r : Report c) : TopologyAdjacency c :=
  match p with
  | .EndpointAdjacency => r.EndpointAdjacency

/-- Writing through a `*TopologyAdjacency`. -/
def AdjacencyRef.set {c : Collab} (p : AdjacencyRef) (r : Report c) (v : TopologyAdjacency c) :
    Report c :=
  match p with
  | .EndpointAdjacency => { r with EndpointAdjacency := v }

/-- Reading through a `*Parents`. -/
def ParentsRef.get {c : Collab} (p : ParentsRef) (r : Report c) : Parents :=
  match p with
  | .EndpointParents => r.EndpointParents
  | .ProcessParents => r.ProcessParents
  | .ContainerParents => r.ContainerParents
  | .ContainerImageParents => r.ContainerImageParents
  | .CloudRegionParents => r.CloudRegionParents
  | .KubernetesClusterParents => r.KubernetesClusterParents
  | .PodParents => r.PodParents
  | .ServiceParents => r.ServiceParents
  | .NamespaceParents => r.NamespaceParents
  | .HostParents => r.HostParents
  | .OverlayParents => r.OverlayParents

/-- Writing through a `*Parents`. -/
def ParentsRef.set {c : Collab} (p : ParentsRef) (r : Report c) (v : Parents) : Report c :=
  match p with
  | .EndpointParents => { r with EndpointParents := v }
  | .ProcessParents => { r with ProcessParents := v }
  | .ContainerParents => { r with ContainerParents := v }
  | .ContainerImageParents => { r with ContainerImageParents := v }
  | .CloudRegionParents => { r with CloudRegionParents := v }
  | .KubernetesClusterParents => { r with KubernetesClusterParents := v }
  | .PodParents => { r with PodParents := v }
  | .ServiceParents => { r with ServiceParents := v }
  | .NamespaceParents => { r with NamespaceParents := v }
  | .HostParents => { r with HostParents := v }
  | .OverlayParents => { r with OverlayParents := v }

/-- Reading through a `*TopologySets`. -/
def SetsRef.get {c : Collab} (p : SetsRef) (r : Report c) : TopologySets c :=
  match p with
  | .ContainerSets => r.ContainerSets
  | .OverlaySets => r.OverlaySets

/-- Writing through a `*TopologySets`. -/
def SetsRef.set {c : Collab} (p : SetsRef) (r : Report c) (v : TopologySets c) : Report c :=
  match p with
  | .ContainerSets => { r with ContainerSets := v }
  | .OverlaySets => { r with OverlaySets := v }

/-! ## Field selectors (`none` is the nil pointer) -/

/-- The selector `topology`: a reference to one of the report's topologies, by name. -/
def topology (name : String) : Option TopologyRef :=
  if name = Endpoint then some .Endpoint
  else if name = Process then some .Process
  else if name = Container then some .Container
  else if name = ContainerImage then some .ContainerImage
  else if name = CloudProvider then some .CloudProvider
  else if name = CloudRegion then some .CloudRegion
  else if name = KubernetesCluster then some .KubernetesCluster
  else if name = Pod then some .Pod
  else if name = Service then some .Service
  else if name = Namespace then some .Namespace
  else if name = Host then some .Host
  else if name = Overlay then some .Overlay
  else none

/-- The selector `topologyAdjacency`. -/
def topologyAdjacency (name : String) : Option AdjacencyRef :=
  if name = Endpoint then some .EndpointAdjacency
  else none

/-- The selector `topologyParent`. -/
def topologyParent (name : String) : Option ParentsRef :=
  if name = Endpoint then some .EndpointParents
  else if name = Process then some .ProcessParents
  else if name = Container then some .ContainerParents
  else if name = ContainerImage then some .ContainerImageParents
  else if name = CloudRegion then some .CloudRegionParents
  else if name = KubernetesCluster then some .KubernetesClusterParents
  else if name = Pod then some .PodParents
  else if name = Service then some .ServiceParents
  else if name = Namespace then some .NamespaceParents
  else if name = Host then some .HostParents
  else if name = Overlay then some .OverlayParents
  else none

/-- The selector `topologySet`. -/
def topologySet (name : String) : Option SetsRef :=
  if name = Container then some .ContainerSets
  else if name = Overlay then some .OverlaySets
  else none

/-! ## Paired walks

The operation `f` receives the pointer the selector returns into the receiver, the pointer
it returns into the other report (the same field, since a selector depends on the name
only), and the current state of the receiver; the other report is read by `f` itself. -/

/-- The state a call leaves the receiver in, whether it returned or panicked. -/
def state {c : Collab} (x : Except (Report c) (Report c)) : Report c :=
  match x with
  | .ok r => r
  | .error r => r

def WalkPairedTopologies {c : Collab} (r : Report c)
    (f : Option TopologyRef → Option TopologyRef → Report c → Except (Report c) (Report c)) :
    Except (Report c) (Report c) :=
  topologyNames.foldlM (fun acc name => f (topology name) (topology name) acc) r

def WalkPairedAdjacencies {c : Collab} (r : Report c)
    (f : Option AdjacencyRef → Option AdjacencyRef → Report c → Except (Report c) (Report c)) :
    Except (Report c) (Report c) :=
  topologyAdjacencyNames.foldlM
    (fun acc name => f (topologyAdjacency name) (topologyAdjacency name) acc) r

def WalkPairedParents {c : Collab} (r : Report c)
    (f : Option ParentsRef → Option ParentsRef → Report c → Except (Report c) (Report c)) :
    Except (Report c) (Report c) :=
  topologyParentNames.foldlM (fun acc name => f (topologyParent name) (topologyParent name) acc) r

def WalkPairedSets {c : Collab} (r : Report c)
    (f : Option SetsRef → Option SetsRef → Report c → Except (Report c) (Report c)) :
    Except (Report c) (Report c) :=
  topologySetNames.foldlM (fun acc name => f (topologySet name) (topologySet name) acc) r

/-! ## MakeReport, UnsafeMerge, UnsafeUnMerge -/

/-- The clean report of `MakeReport`; `id` is the random identifier drawn for it. -/
def MakeReport (c : Collab) (id : String) : Report c where
  TS := Time.zero
  Endpoint := c.MakeTopology
  EndpointAdjacency := MakeTopologyAdjacency c
  EndpointParents := MakeParents
  Process := c.MakeTopology
  ProcessParents := MakeParents
  Container := c.MakeTopology
  ContainerParents := MakeParents
  ContainerSets := MakeTopologySets c
  CloudProvider := c.MakeTopology
  CloudRegion := c.MakeTopology
  CloudRegionParents := MakeParents
  KubernetesCluster := c.MakeTopology
  KubernetesClusterParents := MakeParents
  Pod := c.MakeTopology
  PodParents := MakeParents
  Service := c.MakeTopology
  ServiceParents := MakeParents
  Namespace := c.MakeTopology
  NamespaceParents := MakeParents
  ContainerImage := c.MakeTopology
  ContainerImageParents := MakeParents
  Host := c.MakeTopology
  HostParents := MakeParents
  Overlay := c.MakeTopology
  OverlayParents := MakeParents
  OverlaySets := MakeTopologySets c
  DNS := c.dnsEmpty
  BugDNS := c.dnsZero
  Window := 0
  Shortcut := false
  ID := id

/-- The closure `ourTopology.UnsafeMerge(*theirTopology)`. -/
def mergeTopology {c : Collab} (other : Report c) (ours theirs : Option TopologyRef)
    (acc : Report c) : Except (Report c) (Report c) :=
  match ours, theirs with
  | some p, some q => .ok (p.set acc (c.topologyUnsafeMerge (p.get acc) (q.get other)))
  | _, _ => .error acc

/-- The closure `ourAdjacency.UnsafeMerge(*theirAdjacency)`. -/
def mergeAdjacency {c : Collab} (other : Report c) (ours theirs : Option AdjacencyRef)
    (acc : Report c) : Except (Report c) (Report c) :=
  match ours, theirs with
  | some p, some q =>
    match TopologyAdjacency.UnsafeMerge (p.get acc) (q.get other) with
    | some m => .ok (p.set acc m)
    | none => .error acc
  | _, _ => .error acc

/-- The closure `ourParents.UnsafeMerge(*theirParents)`. -/
def mergeParents {c : Collab} (other : Report c) (ours theirs : Option ParentsRef)
    (acc : Report c) : Except (Report c) (Report c) :=
  match ours, theirs with
  | some p, some q =>
    match Parents.UnsafeMerge (p.get acc) (q.get other) with
    | some m => .ok (p.set acc m)
    | none => .error acc
  | _, _ => .error acc

/-- The closure `ourSets.UnsafeMerge(*theirSets)`. -/
def mergeSets {c : Collab} (other : Report c) (ours theirs : Option SetsRef)
    (acc : Report c) : Except (Report c) (Report c) :=
  match ours, theirs with
  | some p, some q =>
    match TopologySets.UnsafeMerge (p.get acc) (q.get other) with
    | some m => .ok (p.set acc m)
    | none => .error acc
  | _, _ => .error acc

/-- The method `UnsafeMerge`: merges another report into the receiver `r`. -/
def UnsafeMerge {c : Collab} (r other : Report c) : Except (Report c) (Report c) :=
  let r1 : Report c :=
    if !other.TS.IsZero && (r.TS.IsZero || other.TS.Before r.TS) then { r with TS := other.TS }
    else r
  let r2 : Report c := { r1 with DNS := c.dnsMerge r1.DNS other.DNS }
  let r3 : Report c := { r2 with Window := wrap64 (r2.Window + other.Window) }
  WalkPairedTopologies r3 (mergeTopology other) >>= fun r4 =>
  WalkPairedAdjacencies r4 (mergeAdjacency other) >>= fun r5 =>
  WalkPairedParents r5 (mergeParents other) >>= fun r6 =>
  WalkPairedSets r6 (mergeSets other)

/-- The closure `ourTopology.UnsafeUnMerge(*theirTopology)`. -/
def unmergeTopology {c : Collab} (other : Report c) (ours theirs : Option TopologyRef)
    (acc : Report c) : Except (Report c) (Report c) :=
  match ours, theirs with
  | some p, some q => .ok (p.set acc (c.topologyUnsafeUnMerge (p.get acc) (q.get other)))
  | _, _ => .error acc

/-- The closure `ourAdjacency.UnsafeUnMerge(*theirAdjacency)`. -/
def unmergeAdjacency {c : Collab} (other : Report c) (ours theirs : Option AdjacencyRef)
    (acc : Report c) : Except (Report c) (Report c) :=
  match ours, theirs with
  | some p, some q => .ok (p.set acc (TopologyAdjacency.UnsafeUnMerge (p.get acc) (q.get other)))
  | _, _ => .error acc

/-- The closure `ourParents.UnsafeUnMerge(*theirParents)`. -/
def unmergeParents {c : Collab} (other : Report c) (ours theirs : Option ParentsRef)
    (acc : Report c) : Except (Report c) (Report c) :=
  match ours, theirs with
  | some p, some q => .ok (p.set acc (Parents.UnsafeUnMerge (p.get acc) (q.get other)))
  | _, _ => .error acc

/-- The closure `ourSets.UnsafeUnMerge(*theirSets)`. -/
def unmergeSets {c : Collab} (other : Report c) (ours theirs : Option SetsRef)
    (acc : Report c) : Except (Report c) (Report c) :=
  match ours, theirs with
  | some p, some q => .ok (p.set acc (TopologySets.UnsafeUnMerge (p.get acc) (q.get other)))
  | _, _ => .error acc

/-- The method `UnsafeUnMerge`: removes from the receiver `r` what merging `other` added. -/
def UnsafeUnMerge {c : Collab} (r other : Report c) : Except (Report c) (Report c) :=
  let r1 : Report c := { r with Window := wrap64 (r.Window - other.Window) }
  WalkPairedTopologies r1 (unmergeTopology other) >>= fun r2 =>
  WalkPairedAdjacencies r2 (unmergeAdjacency other) >>= fun r3 =>
  WalkPairedParents r3 (unmergeParents other) >>= fun r4 =>
  WalkPairedSets r4 (unmergeSets other)


/-- The receiver after the three assignments that open `UnsafeMerge` (timestamp, DNS table,
window), before the walks. -/
def mergeScalars {c : Collab} (r other : Report c) : Report c :=
  { (if !other.TS.IsZero && (r.TS.IsZero || other.TS.Before r.TS)
      then { r with TS := other.TS } else r) with
    DNS := c.dnsMerge r.DNS other.DNS
    Window := wrap64 (r.Window + other.Window) }

/-! ## Copy and Topology -/

/-- The zero value `Report{}`: zero time, zero-valued topologies, nil maps. -/
def zeroValue (c : Collab) : Report c where
  TS := Time.zero
  Endpoint := c.topologyZero
  EndpointAdjacency := none
  EndpointParents := none
  Process := c.topologyZero
  ProcessParents := none
  Container := c.topologyZero
  ContainerParents := none
  ContainerSets := none
  CloudProvider := c.topologyZero
  CloudRegion := c.topologyZero
  CloudRegionParents := none
  KubernetesCluster := c.topologyZero
  KubernetesClusterParents := none
  Pod := c.topologyZero
  PodParents := none
  Service := c.topologyZero
  ServiceParents := none
  Namespace := c.topologyZero
  NamespaceParents := none
  ContainerImage := c.topologyZero
  ContainerImageParents := none
  Host := c.topologyZero
  HostParents := none
  Overlay := c.topologyZero
  OverlayParents := none
  OverlaySets := none
  DNS := c.dnsZero
  BugDNS := c.dnsZero
  Window := 0
  Shortcut := false
  ID := ""

/-- The closure `*newTopology = oldTopology.Copy()`. -/
def copyTopology {c : Collab} (old : Report c) (ours theirs : Option TopologyRef)
    (acc : Report c) : Except (Report c) (Report c) :=
  match ours, theirs with
  | some p, some q => .ok (p.set acc (c.topologyCopy (q.get old)))
  | _, _ => .error acc

/-- The closure `*newAdjacency = oldAdjacency.Copy()`. -/
def copyAdjacency {c : Collab} (old : Report c) (ours theirs : Option AdjacencyRef)
    (acc : Report c) : Except (Report c) (Report c) :=
  match ours, theirs with
  | some p, some q =>
    match TopologyAdjacency.Copy (q.get old) with
    | some m => .ok (p.set acc m)
    | none => .error acc
  | _, _ => .error acc

/-- The closure `*newParents = oldParents.Copy()`. -/
def copyParents {c : Collab} (old : Report c) (ours theirs : Option ParentsRef)
    (acc : Report c) : Except (Report c) (Report c) :=
  match ours, theirs with
  | some p, some q =>
    match Parents.Copy (q.get old) with
    | some m => .ok (p.set acc m)
    | none => .error acc
  | _, _ => .error acc

/-- The closure `*newSets = oldSets.Copy()`. -/
def copySets {c : Collab} (old : Report c) (ours theirs : Option SetsRef)
    (acc : Report c) : Except (Report c) (Report c) :=
  match ours, theirs with
  | some p, some q =>
    match TopologySets.Copy (q.get old) with
    | some m => .ok (p.set acc m)
    | none => .error acc
  | _, _ => .error acc

/-- The composite literal that opens `Copy`: the fields it names are set, every other field
has its zero value; `id` is the random identifier drawn for the copy. -/
def copyLiteral {c : Collab} (r : Report c) (id : String) : Report c :=
  { zeroValue c with
    TS := r.TS
    DNS := c.dnsCopy r.DNS
    Window := r.Window
    Shortcut := r.Shortcut
    ID := id }

/-- The method `Copy`: a value copy of the report `r`. -/
def Report.Copy {c : Collab} (r : Report c) (id : String) : Except (Report c) (Report c) :=
  let newReport : Report c := copyLiteral r id
  WalkPairedTopologies newReport (copyTopology r) >>= fun n1 =>
  WalkPairedAdjacencies n1 (copyAdjacency r) >>= fun n2 =>
  WalkPairedParents n2 (copyParents r) >>= fun n3 =>
  WalkPairedSets n3 (copySets r)

/-- The method `Topology`: one of the topologies of the report, selected by name. -/
def Report.Topology {c : Collab} (r : Report c) (name : String) : c.Topology × Bool :=
  match topology name with
  | some t => (t.get r, true)
  | none => (c.topologyZero, false)

/-! ## Sampling -/

/-- How the packet data sources were sampled; both counters are `uint64`. -/
structure Sampling where
  Count : Nat
  Total : Nat
  deriving DecidableEq, Repr

/-- The values of a 64-bit unsigned integer. -/
def isUInt64 (x : Nat) : Prop := x < 2 ^ 64

/-- The `float64` operations `Rate` uses: the constant `1.0`, the conversion of a `uint64`
and the division. -/
structure Float64Ops where
  F : Type
  one : F
  ofUInt64 : Nat → F
  div : F → F → F

/-- The method `Rate`: the effective sampling rate. -/
def Sampling.Rate (fl : Float64Ops) (s : Sampling) : fl.F :=
  if s.Total ≤ 0 then fl.one
  else fl.div (fl.ofUInt64 s.Count) (fl.ofUInt64 s.Total)

/-- The method `Merge`: the two sampling structures added, each sum a `uint64` sum. -/
def Sampling.Merge (s other : Sampling) : Sampling :=
  { Count := (s.Count + other.Count) % 2 ^ 64
    Total := (s.Total + other.Total) % 2 ^ 64 }

/-! ## AddAdjacency -/

/-- The method `AddAdjacency`.  With no entry for `nodeId` the map is assigned the list of
`MakeIDList`, which panics (`none`) on a nil map.  With an entry, `t[nodeId].Add(id)` is an
expression statement: the list that `Add` returns is dropped and the map is not assigned, so
the map holds the list value it held; a write that `Add` may make through storage that the
list value refers to is outside this model. -/
def TopologyAdjacency.AddAdjacency {c : Collab} (t : TopologyAdjacency c)
    (nodeId id : String) : Option (TopologyAdjacency c) :=
  match t.lookup nodeId with
  | none => t.assign nodeId (c.MakeIDList id)
  | some l =>
    let _dropped := c.idListAdd l id
    some t

/-! ## Single-report walks -/

/-- The method `WalkTopologies`. -/
def WalkTopologies {c : Collab} (r : Report c)
    (f : Option TopologyRef → Report c → Except (Report c) (Report c)) :
    Except (Report c) (Report c) :=
  topologyNames.foldlM (fun acc name => f (topology name) acc) r

/-- The method `WalkNamedTopologies`. -/
def WalkNamedTopologies {c : Collab} (r : Report c)
    (f : String → Option TopologyRef → Report c → Except (Report c) (Report c)) :
    Except (Report c) (Report c) :=
  topologyNames.foldlM (fun acc name => f name (topology name) acc) r

/-! ## Sequences of calls -/

/-- An incoming call on a running report: a merge or an unmerge of an operand. -/
inductive Call (c : Collab) where
  | merge (other : Report c)
  | unmerge (other : Report c)

/-- The state one call leaves the running report in, whether it returned or panicked. -/
def applyCall {c : Collab} (r : Report c) (call : Call c) : Report c :=
  match call with
  | .merge other => state (UnsafeMerge r other)
  | .unmerge other => state (UnsafeUnMerge r other)

/-- The state a sequence of calls, applied one after another, leaves the report in. -/
def applyCalls {c : Collab} (r : Report c) (calls : List (Call c)) : Report c :=
  calls.foldl applyCall r

/-- The reports of a list merged one after another, in order, into the receiver. -/
def mergeAll {c : Collab} (r : Report c) (others : List (Report c)) :
    Except (Report c) (Report c) :=
  others.foldlM (fun acc other => UnsafeMerge acc other) r

/-- The instant `UnsafeMerge` keeps of the receiver's timestamp `a` and the other's `b`. -/
def earliest (a b : Time) : Time :=
  if !b.IsZero && (a.IsZero || b.Before a) then b else a

/-! ## Encoding

The names under which `encoding/json` emits the fields of a `Report`, as the field tags
determine them: a field without a `json` tag is emitted under its Go name, always; a field
tagged `omitempty` is emitted under the tag's name unless its value is empty. -/

/-- The field names the JSON encoding of the report emits, in field order. -/
def jsonFieldNames {c : Collab} (r : Report c) : List String :=
  ["TS", "Endpoint", "EndpointAdjacency", "EndpointParents", "Process", "ProcessParents",
   "Container", "ContainerParents", "ContainerSets", "CloudProvider", "CloudRegion",
   "CloudRegionParents", "KubernetesCluster", "KubernetesClusterParents", "Pod", "PodParents",
   "Service", "ServiceParents", "Namespace", "NamespaceParents", "ContainerImage",
   "ContainerImageParents", "Host", "HostParents", "Overlay", "OverlayParents", "OverlaySets"]
  ++ (if c.dnsIsEmpty r.DNS then [] else ["DNS"])
  ++ (if c.dnsIsEmpty r.BugDNS then [] else ["nodes"])
  ++ ["Window", "Shortcut", "ID"]

/-! ## Reports that may share map objects

A Go map value is a reference to a map object, or nil.  The definitions above take each
sidecar field as the content of its map, which is what the methods do to a report none of
whose map objects is held by two fields.  The definitions of this section keep the map
objects in a memory and the references in the report, so that two fields, of one report or
of two, may hold the same map object. -/

namespace heap

/-- The map objects of one value type, by address. -/
abbrev Heap (V : Type) : Type := Nat → AList (fun _ : String => V)

namespace Heap

variable {V : Type}

/-- What a map value holds: the nil map, or the content of the object it refers to. -/
def read (h : Heap V) (p : Option Nat) : GoMap V :=
  match p with
  | none => (none : Option (AList (fun _ : String => V)))
  | some a => some (h a)

/-- The statement `t[k] = v` through the map value `t`; `none` is the panic of assigning
into the nil map. -/
def assign (h : Heap V) (t : Option Nat) (k : String) (v : V) : Option (Heap V) :=
  match t with
  | none => none
  | some a => some (Function.update h a ((h a).insert k v))

/-- The loop `for k, v := range o { t[k] = v }`, the body of `TopologyAdjacency.UnsafeMerge`,
`TopologySets.UnsafeMerge` and `Parents.UnsafeMerge`, on the map values `t` and `o`.  The
entries ranged over are the entries `o` holds when the loop starts: an assignment of the
loop reaches them only when `t` and `o` are the same object, and then it writes the value of
an entry back to it. -/
def UnsafeMerge (h : Heap V) (t o : Option Nat) : Option (Heap V) :=
  (read h o).range.foldlM (fun h kv => assign h t kv.1 kv.2) h

end Heap

/-- The map objects of the three sidecar types. -/
structure Memory (c : Collab) where
  adjacency : Heap c.IDList
  parents : Heap Parent
  sets : Heap c.Sets

/-- The struct `Report` as Go holds it.  The per-layer fields are grouped by kind and indexed
by the reference of the field (one constructor of `TopologyRef`, `AdjacencyRef`, `ParentsRef`,
`SetsRef` per field of the struct); a sidecar field holds a map value: the address of a map
object, or `none` for the nil map. -/
structure Report (c : Collab) where
  TS : Time
  topologies : TopologyRef → c.Topology
  adjacencies : AdjacencyRef → Option Nat
  parents : ParentsRef → Option Nat
  sets : SetsRef → Option Nat
  DNS : c.DNSRecords
  BugDNS : c.DNSRecords
  Window : Int
  Shortcut : Bool
  ID : String

/-- The memory and the receiver, which a call changes. -/
abbrev State (c : Collab) : Type := Memory c × Report c

/-- The state a call leaves, whether it returned or panicked. -/
def state {c : Collab} (x : Except (State c) (State c)) : State c :=
  match x with
  | .ok s => s
  | .error s => s

/-- Whether a call returned. -/
def returned {c : Collab} (x : Except (State c) (State c)) : Bool :=
  match x with
  | .ok _ => true
  | .error _ => false

def WalkPairedTopologies {c : Collab} (s : State c)
    (f : Option TopologyRef → Option TopologyRef → State c → Except (State c) (State c)) :
    Except (State c) (State c) :=
  topologyNames.foldlM (fun acc name => f (topology name) (topology name) acc) s

def WalkPairedAdjacencies {c : Collab} (s : State c)
    (f : Option AdjacencyRef → Option AdjacencyRef → State c → Except (State c) (State c)) :
    Except (State c) (State c) :=
  topologyAdjacencyNames.foldlM
    (fun acc name => f (topologyAdjacency name) (topologyAdjacency name) acc) s

def WalkPairedParents {c : Collab} (s : State c)
    (f : Option ParentsRef → Option ParentsRef → State c → Except (State c) (State c)) :
    Except (State c) (State c) :=
  topologyParentNames.foldlM (fun acc name => f (topologyParent name) (topologyParent name) acc) s

def WalkPairedSets {c : Collab} (s : State c)
    (f : Option SetsRef → Option SetsRef → State c → Except (State c) (State c)) :
    Except (State c) (State c) :=
  topologySetNames.foldlM (fun acc name => f (topologySet name) (topologySet name) acc) s

/-- The closure `ourTopology.UnsafeMerge(*theirTopology)`. -/
def mergeTopology {c : Collab} (other : Report c) (ours theirs : Option TopologyRef)
    (acc : State c) : Except (State c) (State c) :=
  match ours, theirs with
  | some p, some q =>
    .ok (acc.1, { acc.2 with
      topologies := Function.update acc.2.topologies p
        (c.topologyUnsafeMerge (acc.2.topologies p) (other.topologies q)) })
  | _, _ => .error acc

/-- The closure `ourAdjacency.UnsafeMerge(*theirAdjacency)`. -/
def mergeAdjacency {c : Collab} (other : Report c) (ours theirs : Option AdjacencyRef)
    (acc : State c) : Except (State c) (State c) :=
  match ours, theirs with
  | some p, some q =>
    match Heap.UnsafeMerge acc.1.adjacency (acc.2.adjacencies p) (other.adjacencies q) with
    | some h => .ok ({ acc.1 with adjacency := h }, acc.2)
    | none => .error acc
  | _, _ => .error acc

/-- The closure `ourParents.UnsafeMerge(*theirParents)`. -/
def mergeParents {c : Collab} (other : Report c) (ours theirs : Option ParentsRef)
    (acc : State c) : Except (State c) (State c) :=
  match ours, theirs with
  | some p, some q =>
    match Heap.UnsafeMerge acc.1.parents (acc.2.parents p) (other.parents q) with
    | some h => .ok ({ acc.1 with parents := h }, acc.2)
    | none => .error acc
  | _, _ => .error acc

/-- The closure `ourSets.UnsafeMerge(*theirSets)`. -/
def mergeSets {c : Collab} (other : Report c) (ours theirs : Option SetsRef)
    (acc : State c) : Except (State c) (State c) :=
  match ours, theirs with
  | some p, some q =>
    match Heap.UnsafeMerge acc.1.sets (acc.2.sets p) (other.sets q) with
    | some h => .ok ({ acc.1 with sets := h }, acc.2)
    | none => .error acc
  | _, _ => .error acc

/-- The receiver after the three assignments that open `UnsafeMerge`. -/
def mergeScalars {c : Collab} (r other : Report c) : Report c :=
  { (if !other.TS.IsZero && (r.TS.IsZero || other.TS.Before r.TS)
      then { r with TS := other.TS } else r) with
    DNS := c.dnsMerge r.DNS other.DNS
    Window := wrap64 (r.Window + other.Window) }

/-- The method `UnsafeMerge` in the memory `m`: merges another report into the receiver `r`.
The other report is passed by value: its fields are read as they were at the call, its map
objects as they are in the memory when they are ranged over. -/
def UnsafeMerge {c : Collab} (m : Memory c) (r other : Report c) :
    Except (State c) (State c) :=
  WalkPairedTopologies (m, mergeScalars r other) (mergeTopology other) >>= fun s4 =>
  WalkPairedAdjacencies s4 (mergeAdjacency other) >>= fun s5 =>
  WalkPairedParents s5 (mergeParents other) >>= fun s6 =>
  WalkPairedSets s6 (mergeSets other)

end heap

/-! ## Enumerations of the references, in registry order -/

/-- The references `topology` returns on `topologyNames`, in order. -/
def topologyRefs : List TopologyRef :=
  [.Endpoint, .Process, .Container, .ContainerImage, .CloudProvider, .CloudRegion,
   .KubernetesCluster, .Pod, .Service, .Namespace, .Host, .Overlay]

/-- The references `topologyAdjacency` returns on `topologyAdjacencyNames`, in order. -/
def adjacencyRefs : List AdjacencyRef := [.EndpointAdjacency]

/-- The references `topologyParent` returns on `topologyParentNames`, in order. -/
def parentsRefs : List ParentsRef :=
  [.EndpointParents, .ProcessParents, .ContainerParents, .ContainerImageParents,
   .CloudRegionParents, .KubernetesClusterParents, .PodParents, .ServiceParents,
   .NamespaceParents, .HostParents, .OverlayParents]

/-- The references `topologySet` returns on `topologySetNames`, in order. -/
def setsRefs : List SetsRef := [.ContainerSets, .OverlaySets]

/-! ## A concrete collaborator and concrete reports, to evaluate the definitions on -/

/-- A small collaborator: a topology is its list of node identifiers. -/
def demo : Collab where
  Topology := List String
  DNSRecords := List String
  IDList := List String
  Sets := List String
  topologyZero := []
  MakeTopology := []
  topologyUnsafeMerge := fun a b => a ++ b
  topologyUnsafeUnMerge := fun a b => a.filter (fun x => !b.contains x)
  topologyCopy := fun a => a
  dnsZero := []
  dnsEmpty := []
  dnsMerge := fun a b => a ++ b
  dnsCopy := fun a => a
  dnsIsEmpty := fun a => a.isEmpty
  MakeIDList := fun id => [id]
  idListAdd := fun a id => if a.contains id then a else a ++ [id]

def aws : Parent := ⟨"aws", "", "", "", "", "", "", ""⟩
def gcp : Parent := ⟨"gcp", "", "", "", "", "", "", ""⟩

/-- A report whose host parents hold `h1 -> aws` and `h0 -> aws`. -/
def hostAws : Report demo :=
  { MakeReport demo "1" with
    TS := .wall 100 0
    Window := 10
    Host := ["h1"]
    HostParents := some ((AList.singleton "h1" aws).insert "h0" aws)
    EndpointAdjacency := some (AList.singleton "e1" ["e2"])
    ContainerSets := some (AList.singleton "c1" ["a"]) }

/-- A report whose host parents hold `h1 -> gcp`. -/
def hostGcp : Report demo :=
  { MakeReport demo "2" with
    TS := .wall 200 0
    Window := 10
    Host := ["h2"]
    HostParents := some (AList.singleton "h1" gcp)
    EndpointAdjacency := some (AList.singleton "e1" ["e3"])
    ContainerSets := some (AList.singleton "c1" ["b"]) }

/-- A clean report to which only the host parent `h1 -> gcp` was added. -/
def hostGcpOnly : Report demo :=
  { MakeReport demo "3" with HostParents := some (AList.singleton "h1" gcp) }

/-- A clean report to which only the adjacency `e1 -> [e3]` was added. -/
def adjacencyOnly : Report demo :=
  { MakeReport demo "4" with EndpointAdjacency := some (AList.singleton "e1" ["e3"]) }

/-- A report decoded from old data: its legacy DNS field holds a record. -/
def legacyReport : Report demo :=
  { hostAws with BugDNS := ["legacy.example"] }

/-- The zero-valued report `Report{}` of the demo collaborator: every map is nil. -/
def zeroReport : Report demo where
  TS := Time.zero
  Endpoint := []
  EndpointAdjacency := none
  EndpointParents := none
  Process := []
  ProcessParents := none
  Container := []
  ContainerParents := none
  ContainerSets := none
  CloudProvider := []
  CloudRegion := []
  CloudRegionParents := none
  KubernetesCluster := []
  KubernetesClusterParents := none
  Pod := []
  PodParents := none
  Service := []
  ServiceParents := none
  Namespace := []
  NamespaceParents := none
  ContainerImage := []
  ContainerImageParents := none
  Host := []
  HostParents := none
  Overlay := []
  OverlayParents := none
  OverlaySets := none
  DNS := []
  BugDNS := []
  Window := 0
  Shortcut := false
  ID := ""

/-! ## Reports that share no map object -/

namespace heap

/-- No map object is held by two sidecar fields of the reports of the list, whether two
fields of one report or fields of two reports. -/
def separate {c : Collab} (rs : List (Report c)) : Prop :=
  (rs.flatMap (fun r => adjacencyRefs.filterMap r.adjacencies)).Nodup ∧
  (rs.flatMap (fun r => parentsRefs.filterMap r.parents)).Nodup ∧
  (rs.flatMap (fun r => setsRefs.filterMap r.sets)).Nodup

instance {c : Collab} (rs : List (Report c)) : Decidable (separate rs) := by
  unfold separate; exact inferInstance

/-- The state that `A.UnsafeMerge(B)` and then `A.UnsafeMerge(C)` leave, from memory `m`. -/
def mergeLeft {c : Collab} (m : Memory c) (A B C : Report c) : State c :=
  state (UnsafeMerge (state (UnsafeMerge m A B)).1 (state (UnsafeMerge m A B)).2 C)

/-- The state that `B.UnsafeMerge(C)` and then `A.UnsafeMerge(B)` leave, from memory `m`. -/
def mergeRight {c : Collab} (m : Memory c) (A B C : Report c) : State c :=
  state (UnsafeMerge (state (UnsafeMerge m B C)).1 A (state (UnsafeMerge m B C)).2)

end heap

/-! ## A concrete memory and reports that refer to it -/

namespace heap

/-- A memory of the demo collaborator.  Parents objects: `0` holds `h1 -> aws`, `h0 -> aws`;
`1` holds `h1 -> gcp`; `3` holds `h2 -> gcp`.  Adjacency objects: `0` holds `e1 -> [e2]`, `1`
holds `e1 -> [e3]`.  Sets objects: `0` holds `c1 -> [a]`, `1` holds `c1 -> [b]`.  Every other
object is empty. -/
def demoMemory : Memory demo where
  adjacency := fun a =>
    if a = 0 then AList.singleton "e1" ["e2"]
    else if a = 1 then AList.singleton "e1" ["e3"] else ∅
  parents := fun a =>
    if a = 0 then (AList.singleton "h1" aws).insert "h0" aws
    else if a = 1 then AList.singleton "h1" gcp
    else if a = 3 then AList.singleton "h2" gcp else ∅
  sets := fun a =>
    if a = 0 then AList.singleton "c1" ["a"]
    else if a = 1 then AList.singleton "c1" ["b"] else ∅

/-- The zero-valued report `Report{}`: every map field is nil. -/
def zeroReport : Report demo where
  TS := Time.zero
  topologies := fun _ => []
  adjacencies := fun _ => none
  parents := fun _ => none
  sets := fun _ => none
  DNS := []
  BugDNS := []
  Window := 0
  Shortcut := false
  ID := ""

/-- A report whose host parents, adjacency and container sets are the objects `0`. -/
def hostAws : Report demo :=
  { zeroReport with
    TS := .wall 100 0
    Window := 10
    adjacencies := fun _ => some 0
    parents := fun p => if p = .HostParents then some 0 else none
    sets := fun p => if p = .ContainerSets then some 0 else none }

/-- A report whose host parents, adjacency and container sets are the objects `1`. -/
def hostGcp : Report demo :=
  { zeroReport with
    TS := .wall 200 0
    Window := 10
    adjacencies := fun _ => some 1
    parents := fun p => if p = .HostParents then some 1 else none
    sets := fun p => if p = .ContainerSets then some 1 else none }

/-- A report whose host parents are the object `3`. -/
def hostOther : Report demo :=
  { zeroReport with
    Window := 10
    parents := fun p => if p = .HostParents then some 3 else none }

/-- A report whose `HostParents` and `OverlayParents` hold one map object, the empty object
`2`, and whose `ContainerSets` and `OverlaySets` hold one map object, the empty object `2`. -/
def shared : Report demo :=
  { zeroReport with
    adjacencies := fun _ => some 2
    parents := fun p => if p = .HostParents ∨ p = .OverlayParents then some 2 else none
    sets := fun _ => some 2 }

/-- A report whose host parents, adjacency and container sets are the empty objects `2`. -/
def hostEmpty : Report demo :=
  { zeroReport with
    adjacencies := fun _ => some 2
    parents := fun p => if p = .HostParents then some 2 else none
    sets := fun p => if p = .ContainerSets then some 2 else none }

/-- A second report whose host parents are the object `0`, which `hostAws` holds too. -/
def hostAlias : Report demo :=
  { zeroReport with
    parents := fun p => if p = .HostParents then some 0 else none }

/-- A report whose host parents and container sets are the empty objects `2`, and whose
overlay parents and overlay sets are the empty objects `4`. -/
def crossOurs : Report demo :=
  { zeroReport with
    parents := fun p =>
      if p = .HostParents then some 2 else if p = .OverlayParents then some 4 else none
    sets := fun p => if p = .ContainerSets then some 2 else some 4 }

/-- A report whose host parents and container sets are the objects `1`, and whose overlay
parents and overlay sets are the objects `2`, which `crossOurs` holds under the other name. -/
def crossTheirs : Report demo :=
  { zeroReport with
    parents := fun p =>
      if p = .HostParents then some 1 else if p = .OverlayParents then some 2 else none
    sets := fun p => if p = .ContainerSets then some 1 else some 2 }

/-- The zero-valued report with a timestamp. -/
def stamped (t : Time) : Report demo := { zeroReport with TS := t }

end heap

/-- Three instants on which `Before` is not transitive: the first two carry monotonic clock
readings that order them against their wall clocks, the third carries none. -/
def t1 : Time := .mono 100 0 5
def t2 : Time := .mono 90 0 7
def t3 : Time := .wall (Time.wallToInternal + 95) 0

/-- A clean report with a timestamp and a window of ten. -/
def stamped (t : Time) : Report demo := { MakeReport demo "t" with TS := t, Window := 10 }

end report

/-!
# Actions of a Kubernetes cluster (`deepfence_server/controls/kubernetes_cluster.go`)

The graph database and the functions of the package that live in other files are an
environment `Env` over a world `σ`, threaded through every call.  An extraction returns
its actions and its error (`none` is the nil error).
-/

namespace controls

/-- What `kubernetes_cluster.go` uses and does not declare. -/
structure Env (σ Action Err : Type) where
  /-- The package-level `maxWork`. -/
  maxWork : Int
  /-- The package-level `ErrMissingNodeID`. -/
  ErrMissingNodeID : Err
  /-- The function `ExtractAgentDiagnosticLogRequests`, called for the node type
  `controls.KubernetesCluster`, with a node identifier and a limit. -/
  ExtractAgentDiagnosticLogRequests : σ → String → Int → (List Action × Option Err) × σ
  /-- The body of `ExtractStartingKubernetesClusterScans` after its guard: the client, the
  session and the transaction are requested, the query is run with the limit, the records
  are decoded and the transaction is committed. -/
  startingScansQuery : σ → String → Int → (List Action × Option Err) × σ
  /-- The body of `ExtractPendingKubernetesClusterUpgrade` after its guard, likewise. -/
  pendingUpgradeQuery : σ → String → Int → (List Action × Option Err) × σ

variable {σ Action Err : Type}

/-- The function `ExtractStartingKubernetesClusterScans`. -/
def ExtractStartingKubernetesClusterScans (env : Env σ Action Err) (w : σ) (nodeID : String)
    (maxWork : Int) : (List Action × Option Err) × σ :=
  if nodeID.length = 0 then (([], some env.ErrMissingNodeID), w)
  else env.startingScansQuery w nodeID maxWork

/-- The function `ExtractPendingKubernetesClusterUpgrade`. -/
def ExtractPendingKubernetesClusterUpgrade (env : Env σ Action Err) (w : σ) (nodeID : String)
    (maxWork : Int) : (List Action × Option Err) × σ :=
  if nodeID.length = 0 then (([], some env.ErrMissingNodeID), w)
  else env.pendingUpgradeQuery w nodeID maxWork

/-- An extraction that was invoked, with the limit it was given. -/
inductive Extraction where
  | diagnosticLogs (limit : Int)
  | pendingUpgrade (limit : Int)
  | startingScans (limit : Int)
  deriving DecidableEq, Repr

/-- What `GetKubernetesClusterActions` returns, the extractions it invoked, in order, and
the world it leaves. -/
structure Outcome (σ Action Err : Type) where
  actions : List Action
  errors : List (Option Err)
  invoked : List Extraction
  world : σ

/-- The function `GetKubernetesClusterActions`; `workNumToExtract` is a 64-bit `int`. -/
def GetKubernetesClusterActions (env : Env σ Action Err) (w : σ) (nodeID : String)
    (workNumToExtract : Int) : Outcome σ Action Err :=
  let diag := env.ExtractAgentDiagnosticLogRequests w nodeID env.maxWork
  let actions0 : List Action := if diag.1.2.isNone then diag.1.1 else []
  if workNumToExtract = 0 then
    { actions := actions0
      errors := [diag.1.2]
      invoked := [.diagnosticLogs env.maxWork]
      world := diag.2 }
  else
    let upgrade := ExtractPendingKubernetesClusterUpgrade env diag.2 nodeID workNumToExtract
    let work1 : Int := report.wrap64 (workNumToExtract - upgrade.1.1.length)
    let actions1 : List Action := if upgrade.1.2.isNone then actions0 ++ upgrade.1.1 else actions0
    let scans := ExtractStartingKubernetesClusterScans env upgrade.2 nodeID work1
    let actions2 : List Action := if scans.1.2.isNone then actions1 ++ scans.1.1 else actions1
    { actions := actions2
      errors := [scans.1.2, upgrade.1.2, diag.1.2]
      invoked := [.diagnosticLogs env.maxWork, .pendingUpgrade workNumToExtract,
        .startingScans work1]
      world := scans.2 }

/-- A small environment: the world counts the database requests; the diagnostic-log
extraction fails, the upgrade extraction finds one action, the scan extraction finds as many
actions as its limit allows, at most two. -/
def demoEnv : Env Nat String String where
  maxWork := 5
  ErrMissingNodeID := "missing node id"
  ExtractAgentDiagnosticLogRequests := fun w _ _ => ((["logs"], some "no session"), w + 1)
  startingScansQuery := fun w _ limit => ((List.replicate (min limit.toNat 2) "scan", none), w + 1)
  pendingUpgradeQuery := fun w _ limit => ((List.replicate (min limit.toNat 1) "upgrade", none), w + 1)

end controls

namespace report

/-! ## Lemmas on Go maps -/

theorem assignAll_nil {V : Type} (es : List (String × V)) (m : GoMap V)
    (h : List.foldlM (fun t kv => GoMap.assign t kv.1 kv.2) (none : GoMap V) es = some m) :
    es = [] ∧ m = none := by
  cases es with
  | nil =>
    simp only [List.foldlM, pure] at h
    exact ⟨rfl, (Option.some.inj h).symm⟩
  | cons e es => cases h

theorem assignAll_entries {V : Type} :
    ∀ (es : List (Sigma (fun _ : String => V))), es.NodupKeys →
    ∀ a : AList (fun _ : String => V),
    ∃ a2 : AList (fun _ : String => V),
      List.foldlM (fun t kv => GoMap.assign t kv.1 kv.2) (some a : GoMap V)
          (es.map (fun e => (e.1, e.2))) = some (some a2) ∧
      ∀ k, a2.lookup k = (match es.dlookup k with
        | some v => some v
        | none => a.lookup k) := by
  intro es
  induction es with
  | nil =>
    intro _ a
    exact ⟨a, rfl, fun k => rfl⟩
  | cons e es ih =>
    intro hnd a
    obtain ⟨k0, v0⟩ := e
    rw [List.nodupKeys_cons] at hnd
    obtain ⟨a2, h1, h2⟩ := ih hnd.2 (a.insert k0 v0)
    refine ⟨a2, ?_, ?_⟩
    · simpa [List.foldlM, GoMap.assign] using h1
    · intro k
      rw [h2 k]
      by_cases hk : k = k0
      · subst hk
        have hnone : List.dlookup k es = none := List.dlookup_eq_none.mpr hnd.1
        rw [hnone, List.dlookup_cons_eq, AList.lookup_insert]
      · rw [List.dlookup_cons_ne _ _ hk, AList.lookup_insert_ne hk]

/-- The loop that assigns every entry of `o` into `t`, when it completes, is a per-key overwrite. -/
theorem assignAll_lookup {V : Type} (t o m : GoMap V)
    (h : List.foldlM (fun t kv => GoMap.assign t kv.1 kv.2) t o.range = some m) (k : String) :
    m.lookup k = (match o.lookup k with
      | some v => some v
      | none => t.lookup k) := by
  cases o with
  | none =>
    simp only [GoMap.range, List.foldlM, pure] at h
    cases h
    rfl
  | some b =>
    cases t with
    | none =>
      obtain ⟨hnil, hm⟩ := assignAll_nil _ _ h
      subst hm
      have hb : b.entries = [] := by simpa [GoMap.range] using hnil
      have : b.lookup k = none := by
        rw [AList.lookup, hb]; rfl
      simp [GoMap.lookup, this]
    | some a =>
      obtain ⟨a2, h1, h2⟩ := assignAll_entries b.entries b.nodupKeys a
      have : m = some a2 := by
        have := h.symm.trans h1
        exact Option.some.inj this
      subst this
      exact h2 k


/-- The loop over an allocated receiver always completes and leaves it allocated. -/
theorem assignAll_allocated {V : Type} (a : AList (fun _ : String => V)) (o : GoMap V) :
    ∃ a2 : AList (fun _ : String => V),
      List.foldlM (fun t kv => GoMap.assign t kv.1 kv.2) (some a : GoMap V) o.range
        = some (some a2) := by
  cases o with
  | none => exact ⟨a, rfl⟩
  | some b =>
    obtain ⟨a2, h1, _⟩ := assignAll_entries b.entries b.nodupKeys a
    exact ⟨a2, h1⟩

/-! ## Lemmas on folds that may panic -/

theorem state_bind {c : Collab} {β : Type} (g : Report c → β)
    (x : Except (Report c) (Report c)) (f : Report c → Except (Report c) (Report c))
    (hf : ∀ r, g (state (f r)) = g r) : g (state (x >>= f)) = g (state x) := by
  cases x with
  | error e => rfl
  | ok r => exact hf r

theorem foldlM_state {c : Collab} {ι β : Type} (g : Report c → β)
    (step : Report c → ι → Except (Report c) (Report c))
    (h : ∀ acc x, g (state (step acc x)) = g acc) :
    ∀ (l : List ι) (acc : Report c), g (state (l.foldlM step acc)) = g acc := by
  intro l
  induction l with
  | nil => intro acc; rfl
  | cons x l ih =>
    intro acc
    rw [List.foldlM_cons]
    rw [state_bind g _ _ (fun r => ih r)]
    exact h acc x

/-- A walk whose step rewrites one field per reference: when it returns, every visited
field holds its update and every other field of the family is as before. -/
theorem foldlM_fields {c : Collab} {ι β : Type}
    (get : ι → Report c → β) (set : ι → Report c → β → Report c)
    (upd : ι → β → Option β) (step : Report c → ι → Except (Report c) (Report c))
    (hget : ∀ p r v, get p (set p r v) = v)
    (hne : ∀ p q r v, p ≠ q → get p (set q r v) = get p r)
    (hstep : ∀ acc p, step acc p = (match upd p (get p acc) with
      | some m => Except.ok (set p acc m)
      | none => Except.error acc)) :
    ∀ (l : List ι), l.Nodup → ∀ (acc res : Report c), l.foldlM step acc = .ok res →
      (∀ p ∈ l, upd p (get p acc) = some (get p res)) ∧ (∀ p, p ∉ l → get p res = get p acc) := by
  intro l
  induction l with
  | nil =>
    intro _ acc res h
    simp only [List.foldlM, pure, Except.pure] at h
    cases h
    exact ⟨fun p hp => absurd hp (List.not_mem_nil p), fun _ _ => rfl⟩
  | cons p0 l ih =>
    intro hnd acc res h
    rw [List.nodup_cons] at hnd
    rw [List.foldlM_cons, hstep] at h
    cases hu : upd p0 (get p0 acc) with
    | none => rw [hu] at h; cases h
    | some m =>
      rw [hu] at h
      obtain ⟨h1, h2⟩ := ih hnd.2 (set p0 acc m) res h
      constructor
      · intro p hp
        rcases List.mem_cons.mp hp with rfl | hp
        · rw [hu, h2 p hnd.1, hget]
        · have hpne : p ≠ p0 := fun e => hnd.1 (e ▸ hp)
          rw [← h1 p hp, hne p p0 acc m hpne]
      · intro p hp
        have hpne : p ≠ p0 := fun e => hp (e ▸ List.mem_cons_self _ _)
        have hpl : p ∉ l := fun e => hp (List.mem_cons_of_mem _ e)
        rw [h2 p hpl, hne p p0 acc m hpne]

/-- A walk whose every update succeeds returns. -/
theorem foldlM_fields_ok {c : Collab} {ι β : Type}
    (get : ι → Report c → β) (set : ι → Report c → β → Report c)
    (upd : ι → β → Option β) (step : Report c → ι → Except (Report c) (Report c))
    (hne : ∀ p q r v, p ≠ q → get p (set q r v) = get p r)
    (hstep : ∀ acc p, step acc p = (match upd p (get p acc) with
      | some m => Except.ok (set p acc m)
      | none => Except.error acc)) :
    ∀ (l : List ι), l.Nodup → ∀ (acc : Report c),
      (∀ p ∈ l, ∃ m, upd p (get p acc) = some m) → ∃ res, l.foldlM step acc = .ok res := by
  intro l
  induction l with
  | nil => intro _ acc _; exact ⟨acc, rfl⟩
  | cons p0 l ih =>
    intro hnd acc hall
    rw [List.nodup_cons] at hnd
    obtain ⟨m, hm⟩ := hall p0 (List.mem_cons_self _ _)
    rw [List.foldlM_cons, hstep, hm]
    apply ih hnd.2
    intro p hp
    have hpne : p ≠ p0 := fun e => hnd.1 (e ▸ hp)
    rw [hne p p0 acc m hpne]
    exact hall p (List.mem_cons_of_mem _ hp)


theorem WalkPairedTopologies_refs {c : Collab} (r : Report c)
    (f : Option TopologyRef → Option TopologyRef → Report c → Except (Report c) (Report c)) :
    WalkPairedTopologies r f = topologyRefs.foldlM (fun acc p => f (some p) (some p) acc) r := rfl

theorem WalkPairedAdjacencies_refs {c : Collab} (r : Report c)
    (f : Option AdjacencyRef → Option AdjacencyRef → Report c → Except (Report c) (Report c)) :
    WalkPairedAdjacencies r f = adjacencyRefs.foldlM (fun acc p => f (some p) (some p) acc) r := rfl

theorem WalkPairedParents_refs {c : Collab} (r : Report c)
    (f : Option ParentsRef → Option ParentsRef → Report c → Except (Report c) (Report c)) :
    WalkPairedParents r f = parentsRefs.foldlM (fun acc p => f (some p) (some p) acc) r := rfl

theorem WalkPairedSets_refs {c : Collab} (r : Report c)
    (f : Option SetsRef → Option SetsRef → Report c → Except (Report c) (Report c)) :
    WalkPairedSets r f = setsRefs.foldlM (fun acc p => f (some p) (some p) acc) r := rfl

theorem parentsRefs_nodup : parentsRefs.Nodup := by decide
theorem parentsRefs_mem (p : ParentsRef) : p ∈ parentsRefs := by cases p <;> decide
theorem setsRefs_nodup : setsRefs.Nodup := by decide
theorem setsRefs_mem (p : SetsRef) : p ∈ setsRefs := by cases p <;> decide
theorem adjacencyRefs_nodup : adjacencyRefs.Nodup := by decide
theorem adjacencyRefs_mem (p : AdjacencyRef) : p ∈ adjacencyRefs := by cases p; decide

theorem parentsRef_get_set {c : Collab} (p : ParentsRef) (r : Report c) (v : Parents) :
    p.get (p.set r v) = v := by cases p <;> rfl
theorem parentsRef_get_set_ne {c : Collab} (p q : ParentsRef) (r : Report c) (v : Parents)
    (h : p ≠ q) : p.get (q.set r v) = p.get r := by
  cases p <;> cases q <;> first | rfl | exact absurd rfl h


theorem topologyRef_set_get {c : Collab} (p : TopologyRef) (r : Report c) :
    p.set r (p.get r) = r := by cases p <;> rfl
theorem adjacencyRef_set_get {c : Collab} (p : AdjacencyRef) (r : Report c) :
    p.set r (p.get r) = r := by cases p; rfl
theorem parentsRef_set_get {c : Collab} (p : ParentsRef) (r : Report c) :
    p.set r (p.get r) = r := by cases p <;> rfl
theorem setsRef_set_get {c : Collab} (p : SetsRef) (r : Report c) :
    p.set r (p.get r) = r := by cases p <;> rfl

theorem adjacencyRef_get_set {c : Collab} (p : AdjacencyRef) (r : Report c)
    (v : TopologyAdjacency c) : p.get (p.set r v) = v := by cases p; rfl
theorem adjacencyRef_get_set_ne {c : Collab} (p q : AdjacencyRef) (r : Report c)
    (v : TopologyAdjacency c) (h : p ≠ q) : p.get (q.set r v) = p.get r := by
  cases p; cases q; exact absurd rfl h
theorem setsRef_get_set {c : Collab} (p : SetsRef) (r : Report c) (v : TopologySets c) :
    p.get (p.set r v) = v := by cases p <;> rfl
theorem setsRef_get_set_ne {c : Collab} (p q : SetsRef) (r : Report c) (v : TopologySets c)
    (h : p ≠ q) : p.get (q.set r v) = p.get r := by
  cases p <;> cases q <;> first | rfl | exact absurd rfl h

theorem bind_ok {c : Collab} (x : Except (Report c) (Report c))
    (f : Report c → Except (Report c) (Report c)) (res : Report c)
    (h : (x >>= f) = .ok res) : ∃ r, x = .ok r ∧ f r = .ok res := by
  cases x with
  | error e => cases h
  | ok r => exact ⟨r, rfl, h⟩

theorem foldlM_id {c : Collab} {ι : Type} (step : Report c → ι → Except (Report c) (Report c))
    (h : ∀ acc x, step acc x = .ok acc) :
    ∀ (l : List ι) (acc : Report c), l.foldlM step acc = .ok acc := by
  intro l
  induction l with
  | nil => intro acc; rfl
  | cons x l ih =>
    intro acc
    rw [List.foldlM_cons, h]
    exact ih acc

theorem foldlM_returns {c : Collab} {ι : Type}
    (step : Report c → ι → Except (Report c) (Report c))
    (h : ∀ acc x, ∃ r, step acc x = .ok r) :
    ∀ (l : List ι) (acc : Report c), ∃ res, l.foldlM step acc = .ok res := by
  intro l
  induction l with
  | nil => intro acc; exact ⟨acc, rfl⟩
  | cons x l ih =>
    intro acc
    obtain ⟨r, hr⟩ := h acc x
    rw [List.foldlM_cons, hr]
    exact ih r

/-! ## Frame lemmas: what a call leaves alone -/

theorem mergeTopology_state {c : Collab} {β : Type} (g : Report c → β)
    (hg : ∀ (p : TopologyRef) (r : Report c) v, g (p.set r v) = g r)
    (other : Report c) (a b : Option TopologyRef) (acc : Report c) :
    g (state (mergeTopology other a b acc)) = g acc := by
  cases a <;> cases b <;> first | rfl | exact hg _ _ _

theorem unmergeTopology_state {c : Collab} {β : Type} (g : Report c → β)
    (hg : ∀ (p : TopologyRef) (r : Report c) v, g (p.set r v) = g r)
    (other : Report c) (a b : Option TopologyRef) (acc : Report c) :
    g (state (unmergeTopology other a b acc)) = g acc := by
  cases a <;> cases b <;> first | rfl | exact hg _ _ _

theorem mergeAdjacency_some {c : Collab} (other : Report c) (p q : AdjacencyRef) (acc : Report c) :
    mergeAdjacency other (some p) (some q) acc =
      (match TopologyAdjacency.UnsafeMerge (p.get acc) (q.get other) with
        | some m => Except.ok (p.set acc m)
        | none => Except.error acc) := rfl

theorem mergeAdjacency_state {c : Collab} {β : Type} (g : Report c → β)
    (hg : ∀ (p : AdjacencyRef) (r : Report c) v, g (p.set r v) = g r)
    (other : Report c) (a b : Option AdjacencyRef) (acc : Report c) :
    g (state (mergeAdjacency other a b acc)) = g acc := by
  cases a <;> cases b <;> try rfl
  rename_i p q
  rw [mergeAdjacency_some]
  generalize TopologyAdjacency.UnsafeMerge (p.get acc) (q.get other) = u
  cases u with
  | none => rfl
  | some m => exact hg p acc m

theorem mergeParents_some {c : Collab} (other : Report c) (p q : ParentsRef) (acc : Report c) :
    mergeParents other (some p) (some q) acc =
      (match Parents.UnsafeMerge (p.get acc) (q.get other) with
        | some m => Except.ok (p.set acc m)
        | none => Except.error acc) := rfl

theorem mergeParents_state {c : Collab} {β : Type} (g : Report c → β)
    (hg : ∀ (p : ParentsRef) (r : Report c) v, g (p.set r v) = g r)
    (other : Report c) (a b : Option ParentsRef) (acc : Report c) :
    g (state (mergeParents other a b acc)) = g acc := by
  cases a <;> cases b <;> try rfl
  rename_i p q
  rw [mergeParents_some]
  generalize Parents.UnsafeMerge (p.get acc) (q.get other) = u
  cases u with
  | none => rfl
  | some m => exact hg p acc m

theorem mergeSets_some {c : Collab} (other : Report c) (p q : SetsRef) (acc : Report c) :
    mergeSets other (some p) (some q) acc =
      (match TopologySets.UnsafeMerge (p.get acc) (q.get other) with
        | some m => Except.ok (p.set acc m)
        | none => Except.error acc) := rfl

theorem mergeSets_state {c : Collab} {β : Type} (g : Report c → β)
    (hg : ∀ (p : SetsRef) (r : Report c) v, g (p.set r v) = g r)
    (other : Report c) (a b : Option SetsRef) (acc : Report c) :
    g (state (mergeSets other a b acc)) = g acc := by
  cases a <;> cases b <;> try rfl
  rename_i p q
  rw [mergeSets_some]
  generalize TopologySets.UnsafeMerge (p.get acc) (q.get other) = u
  cases u with
  | none => rfl
  | some m => exact hg p acc m

theorem UnsafeMerge_walks {c : Collab} (r other : Report c) :
    UnsafeMerge r other =
      (WalkPairedTopologies (mergeScalars r other) (mergeTopology other) >>= fun r4 =>
       WalkPairedAdjacencies r4 (mergeAdjacency other) >>= fun r5 =>
       WalkPairedParents r5 (mergeParents other) >>= fun r6 =>
       WalkPairedSets r6 (mergeSets other)) := by
  unfold UnsafeMerge mergeScalars
  split <;> rfl

/-- Whatever reads no per-layer field sees, after `UnsafeMerge`, the receiver with only its
timestamp, DNS table and window updated, whether the call returned or panicked. -/
theorem UnsafeMerge_frame {c : Collab} {β : Type} (g : Report c → β)
    (hT : ∀ (p : TopologyRef) (r : Report c) v, g (p.set r v) = g r)
    (hA : ∀ (p : AdjacencyRef) (r : Report c) v, g (p.set r v) = g r)
    (hP : ∀ (p : ParentsRef) (r : Report c) v, g (p.set r v) = g r)
    (hS : ∀ (p : SetsRef) (r : Report c) v, g (p.set r v) = g r)
    (r other : Report c) :
    g (state (UnsafeMerge r other)) = g (mergeScalars r other) := by
  rw [UnsafeMerge_walks]
  rw [state_bind g]
  · unfold WalkPairedTopologies
    exact foldlM_state g _ (fun acc x => mergeTopology_state g hT other _ _ acc) _ _
  · intro r4
    rw [state_bind g]
    · unfold WalkPairedAdjacencies
      exact foldlM_state g _ (fun acc x => mergeAdjacency_state g hA other _ _ acc) _ _
    · intro r5
      rw [state_bind g]
      · unfold WalkPairedParents
        exact foldlM_state g _ (fun acc x => mergeParents_state g hP other _ _ acc) _ _
      · intro r6
        unfold WalkPairedSets
        exact foldlM_state g _ (fun acc x => mergeSets_state g hS other _ _ acc) _ _

theorem foldlM_ok_state {c : Collab} {ι β : Type} (g : Report c → β)
    (step : Report c → ι → Except (Report c) (Report c))
    (h : ∀ acc x, g (state (step acc x)) = g acc)
    (l : List ι) (acc res : Report c) (hres : l.foldlM step acc = .ok res) : g res = g acc := by
  have := foldlM_state g step h l acc
  rw [hres] at this
  exact this

theorem mergeScalars_TS {c : Collab} (r other : Report c) :
    (mergeScalars r other).TS =
      if !other.TS.IsZero && (r.TS.IsZero || other.TS.Before r.TS) then other.TS else r.TS := by
  unfold mergeScalars
  split <;> rfl

theorem mergeScalars_Window {c : Collab} (r other : Report c) :
    (mergeScalars r other).Window = wrap64 (r.Window + other.Window) := rfl

theorem mergeScalars_DNS {c : Collab} (r other : Report c) :
    (mergeScalars r other).DNS = c.dnsMerge r.DNS other.DNS := rfl

theorem mergeScalars_other {c : Collab} {β : Type} (g : Report c → β)
    (hTS : ∀ (r : Report c) t, g { r with TS := t } = g r)
    (hDW : ∀ (r : Report c) d w, g { r with DNS := d, Window := w } = g r)
    (r other : Report c) : g (mergeScalars r other) = g r := by
  unfold mergeScalars
  rw [hDW]
  split
  · exact hTS _ _
  · rfl

/-- The timestamp the receiver is left with by `UnsafeMerge`. -/
theorem UnsafeMerge_TS {c : Collab} (r other : Report c) :
    (state (UnsafeMerge r other)).TS =
      if !other.TS.IsZero && (r.TS.IsZero || other.TS.Before r.TS) then other.TS else r.TS := by
  rw [UnsafeMerge_frame (fun x => x.TS) (fun p r v => by cases p <;> rfl)
    (fun p r v => by cases p; rfl) (fun p r v => by cases p <;> rfl)
    (fun p r v => by cases p <;> rfl)]
  exact mergeScalars_TS r other

/-- The window the receiver is left with by `UnsafeMerge`. -/
theorem UnsafeMerge_Window {c : Collab} (r other : Report c) :
    (state (UnsafeMerge r other)).Window = wrap64 (r.Window + other.Window) := by
  rw [UnsafeMerge_frame (fun x => x.Window) (fun p r v => by cases p <;> rfl)
    (fun p r v => by cases p; rfl) (fun p r v => by cases p <;> rfl)
    (fun p r v => by cases p <;> rfl)]
  rfl

/-! ## Lemmas on 64-bit wrapping -/

theorem wrap64_isInt64 (x : Int) : isInt64 (wrap64 x) := by
  unfold isInt64 wrap64
  omega

theorem wrap64_of_isInt64 (x : Int) (h : isInt64 x) : wrap64 x = x := by
  unfold isInt64 at h
  unfold wrap64
  omega

theorem wrap64_add_sub (a b : Int) (h : isInt64 a) : wrap64 (wrap64 (a + b) - b) = a := by
  unfold isInt64 at h
  unfold wrap64
  omega

/-! ## Lemmas on instants -/

theorem Time.wallToInternal_pos : (0 : Int) < Time.wallToInternal := by decide

theorem Time.isZero_iff (t : Time) : t.IsZero = true ↔ t = Time.zero := by
  have hp := Time.wallToInternal_pos
  cases t with
  | wall s n => simp [Time.IsZero, Time.zero, Time.sec, Time.nsec]
  | mono w n r =>
    simp only [Time.IsZero, Time.zero, Time.sec, Time.nsec, Bool.and_eq_true, beq_iff_eq,
      reduceCtorEq, iff_false, not_and]
    intro h
    omega

theorem Time.before_irrefl (t : Time) : t.Before t = false := by
  cases t <;> simp [Time.Before]

theorem Time.before_asymm (t u : Time) (h : t.Before u = true) : u.Before t = false := by
  cases t <;> cases u <;>
    simp only [Time.Before, Bool.or_eq_true, Bool.and_eq_true, decide_eq_true_eq, beq_iff_eq,
      Bool.or_eq_false_iff, Bool.and_eq_false_iff, decide_eq_false_iff_not,
      beq_eq_false_iff_ne] at h ⊢ <;> omega

/-! ## C3 - C6: timestamp and window -/

/-- C3. After `A.UnsafeMerge(B)` the timestamp of `A` is the timestamp of `B` when that one
is non-zero and the old timestamp of `A` is zero or strictly later, and is the old
timestamp of `A` in every other case: among those, when the timestamp of `B` is zero,
when the two are equal, and when that of `B` is later than a non-zero one of `A`. -/
theorem C3_merge_timestamp {c : Collab} (A B : Report c) :
    ((state (UnsafeMerge A B)).TS =
      if B.TS.IsZero = false ∧ (A.TS.IsZero = true ∨ B.TS.Before A.TS = true)
      then B.TS else A.TS) ∧
    (B.TS.IsZero = true → (state (UnsafeMerge A B)).TS = A.TS) ∧
    (B.TS = A.TS → (state (UnsafeMerge A B)).TS = A.TS) ∧
    (A.TS.IsZero = false → A.TS.Before B.TS = true → (state (UnsafeMerge A B)).TS = A.TS) := by
  rw [UnsafeMerge_TS]
  refine ⟨?_, ?_, ?_, ?_⟩
  · by_cases hb : B.TS.IsZero = true <;> by_cases ha : A.TS.IsZero = true <;>
      by_cases hlt : B.TS.Before A.TS = true <;> simp [hb, ha, hlt]
  · intro hb
    simp [hb]
  · intro he
    split
    · exact he
    · rfl
  · intro ha hlt
    have := Time.before_asymm _ _ hlt
    simp [ha, this]

/-- C4. After `A.UnsafeMerge(B)` the timestamp of `A` is the earliest non-zero timestamp among
the two inputs: zero when both are zero; otherwise non-zero, one of the two inputs, and not
after any non-zero input; so with a non-zero timestamp of `A` before that of `B` it is the
one of `A`. -/
theorem C4_merge_timestamp_earliest {c : Collab} (A B : Report c) :
    (A.TS.IsZero = true → B.TS.IsZero = true → (state (UnsafeMerge A B)).TS.IsZero = true) ∧
    (A.TS.IsZero = false → B.TS.IsZero = true → (state (UnsafeMerge A B)).TS = A.TS) ∧
    (A.TS.IsZero = true → B.TS.IsZero = false → (state (UnsafeMerge A B)).TS = B.TS) ∧
    (¬ (A.TS.IsZero = true ∧ B.TS.IsZero = true) →
      (state (UnsafeMerge A B)).TS.IsZero = false ∧
      ((state (UnsafeMerge A B)).TS = A.TS ∨ (state (UnsafeMerge A B)).TS = B.TS) ∧
      (A.TS.IsZero = false → A.TS.Before (state (UnsafeMerge A B)).TS = false) ∧
      (B.TS.IsZero = false → B.TS.Before (state (UnsafeMerge A B)).TS = false)) ∧
    (A.TS.IsZero = false → A.TS.Before B.TS = true → (state (UnsafeMerge A B)).TS = A.TS) := by
  rw [UnsafeMerge_TS]
  refine ⟨?_, ?_, ?_, ?_, ?_⟩
  · intro ha hb
    simp [ha, hb]
  · intro ha hb
    simp [hb]
  · intro ha hb
    simp [ha, hb]
  · intro hnz
    by_cases hb : B.TS.IsZero = true
    · have ha : A.TS.IsZero = false := by
        cases h : A.TS.IsZero
        · rfl
        · exact absurd ⟨h, hb⟩ hnz
      simp [hb, ha, Time.before_irrefl]
    · have hb2 : B.TS.IsZero = false := by simpa using hb
      by_cases ha : A.TS.IsZero = true
      · simp [hb2, ha, Time.before_irrefl]
      · have ha2 : A.TS.IsZero = false := by simpa using ha
        by_cases hlt : B.TS.Before A.TS = true
        · have := Time.before_asymm _ _ hlt
          simp [hb2, ha2, hlt, this, Time.before_irrefl]
        · have hlt2 : B.TS.Before A.TS = false := by simpa using hlt
          simp [hb2, ha2, hlt2, Time.before_irrefl]
  · intro ha hlt
    have := Time.before_asymm _ _ hlt
    simp [ha, this]

/-- C5. After `A.UnsafeMerge(B)` the window of `A` is the 64-bit signed sum of the old window
of `A` and the window of `B`: a 64-bit value congruent to the exact sum modulo 2^64, which
is the exact sum whenever that one fits in 64 bits; nothing clamps it. -/
theorem C5_merge_window {c : Collab} (A B : Report c) :
    (state (UnsafeMerge A B)).Window = wrap64 (A.Window + B.Window) ∧
    isInt64 (state (UnsafeMerge A B)).Window ∧
    ((state (UnsafeMerge A B)).Window - (A.Window + B.Window)) % 2 ^ 64 = 0 ∧
    (isInt64 (A.Window + B.Window) → (state (UnsafeMerge A B)).Window = A.Window + B.Window) := by
  rw [UnsafeMerge_Window]
  refine ⟨rfl, wrap64_isInt64 _, ?_, fun h => wrap64_of_isInt64 _ h⟩
  unfold wrap64
  omega

/-! ## Lemmas on `UnsafeUnMerge` -/

theorem WalkPairedAdjacencies_unmerge {c : Collab} (r other : Report c) :
    WalkPairedAdjacencies r (unmergeAdjacency other) = .ok r := by
  rw [WalkPairedAdjacencies_refs]
  exact foldlM_id _ (fun acc p => congrArg Except.ok (adjacencyRef_set_get p acc)) _ _

theorem WalkPairedParents_unmerge {c : Collab} (r other : Report c) :
    WalkPairedParents r (unmergeParents other) = .ok r := by
  rw [WalkPairedParents_refs]
  exact foldlM_id _ (fun acc p => congrArg Except.ok (parentsRef_set_get p acc)) _ _

theorem WalkPairedSets_unmerge {c : Collab} (r other : Report c) :
    WalkPairedSets r (unmergeSets other) = .ok r := by
  rw [WalkPairedSets_refs]
  exact foldlM_id _ (fun acc p => congrArg Except.ok (setsRef_set_get p acc)) _ _

/-- The sidecar walks of `UnsafeUnMerge` do nothing: the call is its window assignment
followed by the walk over the topologies. -/
theorem UnsafeUnMerge_walk {c : Collab} (r other : Report c) :
    UnsafeUnMerge r other =
      WalkPairedTopologies { r with Window := wrap64 (r.Window - other.Window) }
        (unmergeTopology other) := by
  unfold UnsafeUnMerge
  simp only [WalkPairedAdjacencies_unmerge, WalkPairedParents_unmerge, WalkPairedSets_unmerge]
  cases WalkPairedTopologies { r with Window := wrap64 (r.Window - other.Window) }
      (unmergeTopology other) with
  | error e => rfl
  | ok x => rfl

/-- The call `UnsafeUnMerge` always returns. -/
theorem UnsafeUnMerge_returns {c : Collab} (r other : Report c) :
    ∃ res, UnsafeUnMerge r other = .ok res := by
  rw [UnsafeUnMerge_walk, WalkPairedTopologies_refs]
  exact foldlM_returns _ (fun acc p => ⟨_, rfl⟩) _ _

/-- Whatever reads no topology field sees, after `UnsafeUnMerge`, the receiver with only its
window updated. -/
theorem UnsafeUnMerge_frame {c : Collab} {β : Type} (g : Report c → β)
    (hT : ∀ (p : TopologyRef) (r : Report c) v, g (p.set r v) = g r)
    (r other : Report c) :
    g (state (UnsafeUnMerge r other)) =
      g { r with Window := wrap64 (r.Window - other.Window) } := by
  rw [UnsafeUnMerge_walk]
  unfold WalkPairedTopologies
  exact foldlM_state g _ (fun acc x => unmergeTopology_state g hT other _ _ acc) _ _

/-- The window the receiver is left with by `UnsafeUnMerge`. -/
theorem UnsafeUnMerge_Window {c : Collab} (r other : Report c) :
    (state (UnsafeUnMerge r other)).Window = wrap64 (r.Window - other.Window) :=
  UnsafeUnMerge_frame (fun x => x.Window) (fun p r v => by cases p <;> rfl) r other

/-! ## C6 - C8: unmerge -/

/-- C6. Merging `B` into `A` and then retracting `B` restores the window of `A` exactly,
for every 64-bit window of `A` and whatever the window of `B`, also when the intermediate
sum wraps around; the window after the unmerge is the 64-bit difference of the two. -/
theorem C6_merge_unmerge_window {c : Collab} (A B : Report c) (hA : isInt64 A.Window) :
    (state (UnsafeUnMerge (state (UnsafeMerge A B)) B)).Window
        = wrap64 ((state (UnsafeMerge A B)).Window - B.Window) ∧
    (state (UnsafeUnMerge (state (UnsafeMerge A B)) B)).Window = A.Window := by
  rw [UnsafeUnMerge_Window, UnsafeMerge_Window]
  exact ⟨rfl, wrap64_add_sub _ _ hA⟩

/-- Witness of C6: windows whose sum wraps around. -/
theorem C6_merge_unmerge_window_witness :
    isInt64 ({ hostAws with Window := 2 ^ 63 - 1 } : Report demo).Window ∧
    (state (UnsafeMerge ({ hostAws with Window := 2 ^ 63 - 1 } : Report demo) hostGcp)).Window
        = -(2 : Int) ^ 63 + 9 ∧
    (state (UnsafeUnMerge
        (state (UnsafeMerge ({ hostAws with Window := 2 ^ 63 - 1 } : Report demo) hostGcp))
        hostGcp)).Window = 2 ^ 63 - 1 :=
  ⟨by decide, by decide,
   (C6_merge_unmerge_window ({ hostAws with Window := 2 ^ 63 - 1 } : Report demo) hostGcp
      (by decide)).2⟩

/-- What `UnsafeUnMerge` returns agrees with the receiver on whatever reads no topology
field and not the window. -/
theorem UnsafeUnMerge_ok_frame {c : Collab} {β : Type} (g : Report c → β)
    (hT : ∀ (p : TopologyRef) (r : Report c) v, g (p.set r v) = g r)
    (hW : ∀ (r : Report c) w, g { r with Window := w } = g r)
    (r other res : Report c) (h : UnsafeUnMerge r other = .ok res) : g res = g r := by
  have := UnsafeUnMerge_frame g hT r other
  rw [h] at this
  exact this.trans (hW r _)

/-- C7. The call `A.UnsafeUnMerge(B)` returns, and the adjacency sidecar, the eleven parents
sidecars and the two sets sidecars of `A` are then the very maps they were before the call,
whatever `B` contains. -/
theorem C7_unmerge_sidecars_unchanged {c : Collab} (A B : Report c) :
    ∃ res, UnsafeUnMerge A B = .ok res ∧
    res.EndpointAdjacency = A.EndpointAdjacency ∧
    res.EndpointParents = A.EndpointParents ∧
    res.ProcessParents = A.ProcessParents ∧
    res.ContainerParents = A.ContainerParents ∧
    res.ContainerImageParents = A.ContainerImageParents ∧
    res.CloudRegionParents = A.CloudRegionParents ∧
    res.KubernetesClusterParents = A.KubernetesClusterParents ∧
    res.PodParents = A.PodParents ∧
    res.ServiceParents = A.ServiceParents ∧
    res.NamespaceParents = A.NamespaceParents ∧
    res.HostParents = A.HostParents ∧
    res.OverlayParents = A.OverlayParents ∧
    res.ContainerSets = A.ContainerSets ∧
    res.OverlaySets = A.OverlaySets := by
  obtain ⟨res, h⟩ := UnsafeUnMerge_returns A B
  have key : ∀ {β : Type} (g : Report c → β),
      (∀ (p : TopologyRef) (r : Report c) v, g (p.set r v) = g r) →
      (∀ (r : Report c) w, g { r with Window := w } = g r) → g res = g A :=
    fun g hT hW => UnsafeUnMerge_ok_frame g hT hW A B res h
  exact ⟨res, h,
      key (fun x => x.EndpointAdjacency) (fun p r v => by cases p <;> rfl) (fun r w => rfl),
      key (fun x => x.EndpointParents) (fun p r v => by cases p <;> rfl) (fun r w => rfl),
      key (fun x => x.ProcessParents) (fun p r v => by cases p <;> rfl) (fun r w => rfl),
      key (fun x => x.ContainerParents) (fun p r v => by cases p <;> rfl) (fun r w => rfl),
      key (fun x => x.ContainerImageParents) (fun p r v => by cases p <;> rfl) (fun r w => rfl),
      key (fun x => x.CloudRegionParents) (fun p r v => by cases p <;> rfl) (fun r w => rfl),
      key (fun x => x.KubernetesClusterParents) (fun p r v => by cases p <;> rfl) (fun r w => rfl),
      key (fun x => x.PodParents) (fun p r v => by cases p <;> rfl) (fun r w => rfl),
      key (fun x => x.ServiceParents) (fun p r v => by cases p <;> rfl) (fun r w => rfl),
      key (fun x => x.NamespaceParents) (fun p r v => by cases p <;> rfl) (fun r w => rfl),
      key (fun x => x.HostParents) (fun p r v => by cases p <;> rfl) (fun r w => rfl),
      key (fun x => x.OverlayParents) (fun p r v => by cases p <;> rfl) (fun r w => rfl),
      key (fun x => x.ContainerSets) (fun p r v => by cases p <;> rfl) (fun r w => rfl),
      key (fun x => x.OverlaySets) (fun p r v => by cases p <;> rfl) (fun r w => rfl)⟩

/-- The DNS table the receiver is left with by `UnsafeMerge`. -/
theorem UnsafeMerge_DNS {c : Collab} (r other : Report c) :
    (state (UnsafeMerge r other)).DNS = c.dnsMerge r.DNS other.DNS := by
  rw [UnsafeMerge_frame (fun x => x.DNS) (fun p r v => by cases p <;> rfl)
    (fun p r v => by cases p; rfl) (fun p r v => by cases p <;> rfl)
    (fun p r v => by cases p <;> rfl)]
  rfl

/-- C8. The call `A.UnsafeUnMerge(B)` returns and changes only the window and the twelve
topology fields of `A`: the timestamp, the DNS table, the legacy DNS field, the shortcut
flag, the identifier and every sidecar are as before, and the window is the 64-bit
difference.  So after merging `B` and then unmerging `B`, the timestamp and the DNS table
are still those the merge produced. -/
theorem C8_unmerge_frame {c : Collab} (A B : Report c) :
    (∃ res, UnsafeUnMerge A B = .ok res ∧
    res.Window = wrap64 (A.Window - B.Window) ∧
    res.TS = A.TS ∧
    res.DNS = A.DNS ∧
    res.BugDNS = A.BugDNS ∧
    res.Shortcut = A.Shortcut ∧
    res.ID = A.ID ∧
    res.EndpointAdjacency = A.EndpointAdjacency ∧
    res.EndpointParents = A.EndpointParents ∧
    res.ProcessParents = A.ProcessParents ∧
    res.ContainerParents = A.ContainerParents ∧
    res.ContainerImageParents = A.ContainerImageParents ∧
    res.CloudRegionParents = A.CloudRegionParents ∧
    res.KubernetesClusterParents = A.KubernetesClusterParents ∧
    res.PodParents = A.PodParents ∧
    res.ServiceParents = A.ServiceParents ∧
    res.NamespaceParents = A.NamespaceParents ∧
    res.HostParents = A.HostParents ∧
    res.OverlayParents = A.OverlayParents ∧
    res.ContainerSets = A.ContainerSets ∧
    res.OverlaySets = A.OverlaySets) ∧
    (state (UnsafeUnMerge (state (UnsafeMerge A B)) B)).TS = (state (UnsafeMerge A B)).TS ∧
    (state (UnsafeUnMerge (state (UnsafeMerge A B)) B)).DNS = c.dnsMerge A.DNS B.DNS := by
  refine ⟨?_, ?_, ?_⟩
  · obtain ⟨res, h⟩ := UnsafeUnMerge_returns A B
    have key : ∀ {β : Type} (g : Report c → β),
        (∀ (p : TopologyRef) (r : Report c) v, g (p.set r v) = g r) →
        (∀ (r : Report c) w, g { r with Window := w } = g r) → g res = g A :=
      fun g hT hW => UnsafeUnMerge_ok_frame g hT hW A B res h
    have hw := UnsafeUnMerge_Window A B
    rw [h] at hw
    exact ⟨res, h, hw,
      key (fun x => x.TS) (fun p r v => by cases p <;> rfl) (fun r w => rfl),
      key (fun x => x.DNS) (fun p r v => by cases p <;> rfl) (fun r w => rfl),
      key (fun x => x.BugDNS) (fun p r v => by cases p <;> rfl) (fun r w => rfl),
      key (fun x => x.Shortcut) (fun p r v => by cases p <;> rfl) (fun r w => rfl),
      key (fun x => x.ID) (fun p r v => by cases p <;> rfl) (fun r w => rfl),
      key (fun x => x.EndpointAdjacency) (fun p r v => by cases p <;> rfl) (fun r w => rfl),
      key (fun x => x.EndpointParents) (fun p r v => by cases p <;> rfl) (fun r w => rfl),
      key (fun x => x.ProcessParents) (fun p r v => by cases p <;> rfl) (fun r w => rfl),
      key (fun x => x.ContainerParents) (fun p r v => by cases p <;> rfl) (fun r w => rfl),
      key (fun x => x.ContainerImageParents) (fun p r v => by cases p <;> rfl) (fun r w => rfl),
      key (fun x => x.CloudRegionParents) (fun p r v => by cases p <;> rfl) (fun r w => rfl),
      key (fun x => x.KubernetesClusterParents) (fun p r v => by cases p <;> rfl) (fun r w => rfl),
      key (fun x => x.PodParents) (fun p r v => by cases p <;> rfl) (fun r w => rfl),
      key (fun x => x.ServiceParents) (fun p r v => by cases p <;> rfl) (fun r w => rfl),
      key (fun x => x.NamespaceParents) (fun p r v => by cases p <;> rfl) (fun r w => rfl),
      key (fun x => x.HostParents) (fun p r v => by cases p <;> rfl) (fun r w => rfl),
      key (fun x => x.OverlayParents) (fun p r v => by cases p <;> rfl) (fun r w => rfl),
      key (fun x => x.ContainerSets) (fun p r v => by cases p <;> rfl) (fun r w => rfl),
      key (fun x => x.OverlaySets) (fun p r v => by cases p <;> rfl) (fun r w => rfl)⟩
  · exact UnsafeUnMerge_frame (fun x => x.TS) (fun p r v => by cases p <;> rfl) _ B
  · rw [← UnsafeMerge_DNS A B]
    exact UnsafeUnMerge_frame (fun x => x.DNS) (fun p r v => by cases p <;> rfl) _ B

/-! ## Lemmas on the sidecars after `UnsafeMerge` -/

theorem UnsafeMerge_ok_chain {c : Collab} (A B res : Report c)
    (h : UnsafeMerge A B = .ok res) :
    ∃ r4 r5 r6,
      WalkPairedTopologies (mergeScalars A B) (mergeTopology B) = .ok r4 ∧
      WalkPairedAdjacencies r4 (mergeAdjacency B) = .ok r5 ∧
      WalkPairedParents r5 (mergeParents B) = .ok r6 ∧
      WalkPairedSets r6 (mergeSets B) = .ok res := by
  rw [UnsafeMerge_walks] at h
  obtain ⟨r4, h4, h⟩ := bind_ok _ _ _ h
  obtain ⟨r5, h5, h⟩ := bind_ok _ _ _ h
  obtain ⟨r6, h6, h⟩ := bind_ok _ _ _ h
  exact ⟨r4, r5, r6, h4, h5, h6, h⟩

theorem walkTopologies_merge_ok {c : Collab} {β : Type} (g : Report c → β)
    (hg : ∀ (p : TopologyRef) (r : Report c) v, g (p.set r v) = g r)
    (B acc res : Report c) (h : WalkPairedTopologies acc (mergeTopology B) = .ok res) :
    g res = g acc :=
  foldlM_ok_state g _ (fun a _ => mergeTopology_state g hg B _ _ a) _ _ _ h

theorem walkAdjacencies_merge_ok {c : Collab} {β : Type} (g : Report c → β)
    (hg : ∀ (p : AdjacencyRef) (r : Report c) v, g (p.set r v) = g r)
    (B acc res : Report c) (h : WalkPairedAdjacencies acc (mergeAdjacency B) = .ok res) :
    g res = g acc :=
  foldlM_ok_state g _ (fun a _ => mergeAdjacency_state g hg B _ _ a) _ _ _ h

theorem walkParents_merge_ok {c : Collab} {β : Type} (g : Report c → β)
    (hg : ∀ (p : ParentsRef) (r : Report c) v, g (p.set r v) = g r)
    (B acc res : Report c) (h : WalkPairedParents acc (mergeParents B) = .ok res) :
    g res = g acc :=
  foldlM_ok_state g _ (fun a _ => mergeParents_state g hg B _ _ a) _ _ _ h

theorem walkSets_merge_ok {c : Collab} {β : Type} (g : Report c → β)
    (hg : ∀ (p : SetsRef) (r : Report c) v, g (p.set r v) = g r)
    (B acc res : Report c) (h : WalkPairedSets acc (mergeSets B) = .ok res) :
    g res = g acc :=
  foldlM_ok_state g _ (fun a _ => mergeSets_state g hg B _ _ a) _ _ _ h

/-- When `UnsafeMerge` returns, each parents sidecar of the receiver is what the loop of
`Parents.UnsafeMerge` made of its old value and the same sidecar of the other report. -/
theorem UnsafeMerge_ok_parents {c : Collab} (A B res : Report c)
    (h : UnsafeMerge A B = .ok res) (p : ParentsRef) :
    Parents.UnsafeMerge (p.get A) (p.get B) = some (p.get res) := by
  obtain ⟨r4, r5, r6, h4, h5, h6, h7⟩ := UnsafeMerge_ok_chain A B res h
  have e3 : p.get (mergeScalars A B) = p.get A :=
    mergeScalars_other (fun x => p.get x) (fun r t => by cases p <;> rfl)
      (fun r d w => by cases p <;> rfl) A B
  have e4 : p.get r4 = p.get (mergeScalars A B) :=
    walkTopologies_merge_ok (fun x => p.get x) (fun q r v => by cases p <;> cases q <;> rfl)
      B _ _ h4
  have e5 : p.get r5 = p.get r4 :=
    walkAdjacencies_merge_ok (fun x => p.get x) (fun q r v => by cases p <;> cases q <;> rfl)
      B _ _ h5
  have e7 : p.get res = p.get r6 :=
    walkSets_merge_ok (fun x => p.get x) (fun q r v => by cases p <;> cases q <;> rfl)
      B _ _ h7
  rw [WalkPairedParents_refs] at h6
  have key := (foldlM_fields (fun (q : ParentsRef) (r : Report c) => q.get r)
    (fun q r v => q.set r v) (fun q t => Parents.UnsafeMerge t (q.get B))
    (fun acc q => mergeParents B (some q) (some q) acc)
    parentsRef_get_set parentsRef_get_set_ne (fun acc q => by
      simp only [mergeParents_some]
      cases Parents.UnsafeMerge (q.get acc) (q.get B) <;> rfl)
    parentsRefs parentsRefs_nodup r5 r6 h6).1 p (parentsRefs_mem p)
  rw [e7, ← key, e5, e4, e3]

/-- When `UnsafeMerge` returns, each adjacency sidecar of the receiver is what the loop of
`TopologyAdjacency.UnsafeMerge` made of its old value and that of the other report. -/
theorem UnsafeMerge_ok_adjacency {c : Collab} (A B res : Report c)
    (h : UnsafeMerge A B = .ok res) (p : AdjacencyRef) :
    TopologyAdjacency.UnsafeMerge (p.get A) (p.get B) = some (p.get res) := by
  obtain ⟨r4, r5, r6, h4, h5, h6, h7⟩ := UnsafeMerge_ok_chain A B res h
  have e3 : p.get (mergeScalars A B) = p.get A :=
    mergeScalars_other (fun x => p.get x) (fun r t => by cases p; rfl)
      (fun r d w => by cases p; rfl) A B
  have e4 : p.get r4 = p.get (mergeScalars A B) :=
    walkTopologies_merge_ok (fun x => p.get x) (fun q r v => by cases p; cases q <;> rfl)
      B _ _ h4
  have e6 : p.get r6 = p.get r5 :=
    walkParents_merge_ok (fun x => p.get x) (fun q r v => by cases p; cases q <;> rfl)
      B _ _ h6
  have e7 : p.get res = p.get r6 :=
    walkSets_merge_ok (fun x => p.get x) (fun q r v => by cases p; cases q <;> rfl)
      B _ _ h7
  rw [WalkPairedAdjacencies_refs] at h5
  have key := (foldlM_fields (fun (q : AdjacencyRef) (r : Report c) => q.get r)
    (fun q r v => q.set r v) (fun q t => TopologyAdjacency.UnsafeMerge t (q.get B))
    (fun acc q => mergeAdjacency B (some q) (some q) acc)
    adjacencyRef_get_set adjacencyRef_get_set_ne (fun acc q => by
      simp only [mergeAdjacency_some]
      cases TopologyAdjacency.UnsafeMerge (q.get acc) (q.get B) <;> rfl)
    adjacencyRefs adjacencyRefs_nodup r4 r5 h5).1 p (adjacencyRefs_mem p)
  rw [e7, e6, ← key, e4, e3]

/-- When `UnsafeMerge` returns, each sets sidecar of the receiver is what the loop of
`TopologySets.UnsafeMerge` made of its old value and that of the other report. -/
theorem UnsafeMerge_ok_sets {c : Collab} (A B res : Report c)
    (h : UnsafeMerge A B = .ok res) (p : SetsRef) :
    TopologySets.UnsafeMerge (p.get A) (p.get B) = some (p.get res) := by
  obtain ⟨r4, r5, r6, h4, h5, h6, h7⟩ := UnsafeMerge_ok_chain A B res h
  have e3 : p.get (mergeScalars A B) = p.get A :=
    mergeScalars_other (fun x => p.get x) (fun r t => by cases p <;> rfl)
      (fun r d w => by cases p <;> rfl) A B
  have e4 : p.get r4 = p.get (mergeScalars A B) :=
    walkTopologies_merge_ok (fun x => p.get x) (fun q r v => by cases p <;> cases q <;> rfl)
      B _ _ h4
  have e5 : p.get r5 = p.get r4 :=
    walkAdjacencies_merge_ok (fun x => p.get x) (fun q r v => by cases p <;> cases q <;> rfl)
      B _ _ h5
  have e6 : p.get r6 = p.get r5 :=
    walkParents_merge_ok (fun x => p.get x) (fun q r v => by cases p <;> cases q <;> rfl)
      B _ _ h6
  rw [WalkPairedSets_refs] at h7
  have key := (foldlM_fields (fun (q : SetsRef) (r : Report c) => q.get r)
    (fun q r v => q.set r v) (fun q t => TopologySets.UnsafeMerge t (q.get B))
    (fun acc q => mergeSets B (some q) (some q) acc)
    setsRef_get_set setsRef_get_set_ne (fun acc q => by
      simp only [mergeSets_some]
      cases TopologySets.UnsafeMerge (q.get acc) (q.get B) <;> rfl)
    setsRefs setsRefs_nodup r6 res h7).1 p (setsRefs_mem p)
  rw [← key, e6, e5, e4, e3]

/-- A receiver whose sidecars are all allocated maps never makes `UnsafeMerge` panic. -/
theorem UnsafeMerge_returns {c : Collab} (A B : Report c)
    (hA : ∀ p : AdjacencyRef, (p.get A).isNil = false)
    (hP : ∀ p : ParentsRef, (p.get A).isNil = false)
    (hS : ∀ p : SetsRef, (p.get A).isNil = false) :
    ∃ res, UnsafeMerge A B = .ok res := by
  have alloc : ∀ {V : Type} (m o : GoMap V), m.isNil = false →
      ∃ m2, List.foldlM (fun t kv => GoMap.assign t kv.1 kv.2) m o.range = some m2 := by
    intro V m o hm
    cases m with
    | none => cases hm
    | some a =>
      obtain ⟨a2, h2⟩ := assignAll_allocated a o
      exact ⟨_, h2⟩
  obtain ⟨r4, h4⟩ : ∃ r4, WalkPairedTopologies (mergeScalars A B) (mergeTopology B) = .ok r4 := by
    rw [WalkPairedTopologies_refs]
    exact foldlM_returns _ (fun acc p => ⟨_, rfl⟩) _ _
  have e3 : ∀ {β : Type} (g : Report c → β),
      (∀ (r : Report c) t, g { r with TS := t } = g r) →
      (∀ (r : Report c) d w, g { r with DNS := d, Window := w } = g r) →
      (∀ (p : TopologyRef) (r : Report c) v, g (p.set r v) = g r) → g r4 = g A :=
    fun g h1 h2 h3 => (walkTopologies_merge_ok g h3 B _ _ h4).trans
      (mergeScalars_other g h1 h2 A B)
  obtain ⟨r5, h5⟩ : ∃ r5, WalkPairedAdjacencies r4 (mergeAdjacency B) = .ok r5 := by
    rw [WalkPairedAdjacencies_refs]
    refine foldlM_fields_ok (fun (q : AdjacencyRef) (r : Report c) => q.get r)
      (fun q r v => q.set r v) (fun q t => TopologyAdjacency.UnsafeMerge t (q.get B))
      (fun acc q => mergeAdjacency B (some q) (some q) acc)
      adjacencyRef_get_set_ne (fun acc q => by
        simp only [mergeAdjacency_some]
        cases TopologyAdjacency.UnsafeMerge (q.get acc) (q.get B) <;> rfl)
      adjacencyRefs adjacencyRefs_nodup r4 (fun q _ => ?_)
    apply alloc
    have : q.get r4 = q.get A := e3 (fun x => q.get x) (fun r t => by cases q; rfl)
      (fun r d w => by cases q; rfl) (fun p r v => by cases q; cases p <;> rfl)
    simp only [this]
    exact hA q
  obtain ⟨r6, h6⟩ : ∃ r6, WalkPairedParents r5 (mergeParents B) = .ok r6 := by
    rw [WalkPairedParents_refs]
    refine foldlM_fields_ok (fun (q : ParentsRef) (r : Report c) => q.get r)
      (fun q r v => q.set r v) (fun q t => Parents.UnsafeMerge t (q.get B))
      (fun acc q => mergeParents B (some q) (some q) acc)
      parentsRef_get_set_ne (fun acc q => by
        simp only [mergeParents_some]
        cases Parents.UnsafeMerge (q.get acc) (q.get B) <;> rfl)
      parentsRefs parentsRefs_nodup r5 (fun q _ => ?_)
    apply alloc
    have e5 : q.get r5 = q.get r4 :=
      walkAdjacencies_merge_ok (fun x => q.get x)
        (fun p r v => by cases q <;> cases p <;> rfl) B _ _ h5
    have : q.get r4 = q.get A := e3 (fun x => q.get x) (fun r t => by cases q <;> rfl)
      (fun r d w => by cases q <;> rfl) (fun p r v => by cases q <;> cases p <;> rfl)
    simp only [e5, this]
    exact hP q
  obtain ⟨res, h7⟩ : ∃ res, WalkPairedSets r6 (mergeSets B) = .ok res := by
    rw [WalkPairedSets_refs]
    refine foldlM_fields_ok (fun (q : SetsRef) (r : Report c) => q.get r)
      (fun q r v => q.set r v) (fun q t => TopologySets.UnsafeMerge t (q.get B))
      (fun acc q => mergeSets B (some q) (some q) acc)
      setsRef_get_set_ne (fun acc q => by
        simp only [mergeSets_some]
        cases TopologySets.UnsafeMerge (q.get acc) (q.get B) <;> rfl)
      setsRefs setsRefs_nodup r6 (fun q _ => ?_)
    apply alloc
    have e6 : q.get r6 = q.get r5 :=
      walkParents_merge_ok (fun x => q.get x)
        (fun p r v => by cases q <;> cases p <;> rfl) B _ _ h6
    have e5 : q.get r5 = q.get r4 :=
      walkAdjacencies_merge_ok (fun x => q.get x)
        (fun p r v => by cases q <;> cases p <;> rfl) B _ _ h5
    have : q.get r4 = q.get A := e3 (fun x => q.get x) (fun r t => by cases q <;> rfl)
      (fun r d w => by cases q <;> rfl) (fun p r v => by cases q <;> cases p <;> rfl)
    simp only [e6, e5, this]
    exact hS q
  refine ⟨res, ?_⟩
  rw [UnsafeMerge_walks, h4]
  show (WalkPairedAdjacencies r4 (mergeAdjacency B) >>= _) = _
  rw [h5]
  show (WalkPairedParents r5 (mergeParents B) >>= _) = _
  rw [h6]
  exact h7

/-! ## The assignment loop, key by key -/

/-- The completed loop, key by key: a key of `o` gets the value `o` holds, any other key keeps
what `t` held. -/
theorem assignAll_overwrite {V : Type} (t o m : GoMap V)
    (h : List.foldlM (fun t kv => GoMap.assign t kv.1 kv.2) t o.range = some m) (k : String) :
    (∀ v, o.lookup k = some v → m.lookup k = some v) ∧
    (o.lookup k = none → m.lookup k = t.lookup k) := by
  have := assignAll_lookup t o m h k
  constructor
  · intro v hv
    rw [this, hv]
  · intro hn
    rw [this, hn]

theorem topologyParent_registered :
    ∀ name ∈ topologyParentNames, (topologyParent name).isSome = true := by decide

/-! ## C9, C10: merging with a clean report -/

theorem ok_bind {c : Collab} (a : Report c) (f : Report c → Except (Report c) (Report c)) :
    (Except.ok a >>= f) = f a := rfl

theorem mergeScalars_MakeReport {c : Collab} (A : Report c) (id : String)
    (hD : ∀ d, c.dnsMerge d c.dnsEmpty = d) (hW : isInt64 A.Window) :
    mergeScalars A (MakeReport c id) = A := by
  unfold mergeScalars
  rw [if_neg (by simp [MakeReport, Time.zero, Time.IsZero, Time.sec, Time.nsec])]
  show ({ A with DNS := c.dnsMerge A.DNS c.dnsEmpty, Window := wrap64 (A.Window + 0) }
    : Report c) = A
  rw [hD, Int.add_zero, wrap64_of_isInt64 _ hW]

/-- C9. With collaborators whose merge leaves a receiver unchanged when the argument is
empty, `A.UnsafeMerge(E)` for a clean report `E` of `MakeReport` returns and leaves `A`
exactly as it was, every field included: the clean report is a right identity of merge. -/
theorem C9_merge_empty_right_identity {c : Collab} (A : Report c) (id : String)
    (hT : ∀ t, c.topologyUnsafeMerge t c.MakeTopology = t)
    (hD : ∀ d, c.dnsMerge d c.dnsEmpty = d)
    (hW : isInt64 A.Window) :
    UnsafeMerge A (MakeReport c id) = .ok A := by
  have h4 : ∀ r : Report c,
      WalkPairedTopologies r (mergeTopology (MakeReport c id)) = .ok r := by
    intro r
    rw [WalkPairedTopologies_refs]
    refine foldlM_id _ (fun acc p => ?_) _ _
    show Except.ok (p.set acc (c.topologyUnsafeMerge (p.get acc) (p.get (MakeReport c id)))) = _
    have : p.get (MakeReport c id) = c.MakeTopology := by cases p <;> rfl
    rw [this, hT, topologyRef_set_get]
  have h5 : ∀ r : Report c,
      WalkPairedAdjacencies r (mergeAdjacency (MakeReport c id)) = .ok r := by
    intro r
    rw [WalkPairedAdjacencies_refs]
    refine foldlM_id _ (fun acc p => ?_) _ _
    have : TopologyAdjacency.UnsafeMerge (p.get acc) (p.get (MakeReport c id))
        = some (p.get acc) := by cases p; rfl
    rw [mergeAdjacency_some, this]
    exact congrArg Except.ok (adjacencyRef_set_get p acc)
  have h6 : ∀ r : Report c,
      WalkPairedParents r (mergeParents (MakeReport c id)) = .ok r := by
    intro r
    rw [WalkPairedParents_refs]
    refine foldlM_id _ (fun acc p => ?_) _ _
    have : Parents.UnsafeMerge (p.get acc) (p.get (MakeReport c id))
        = some (p.get acc) := by cases p <;> rfl
    rw [mergeParents_some, this]
    exact congrArg Except.ok (parentsRef_set_get p acc)
  have h7 : ∀ r : Report c,
      WalkPairedSets r (mergeSets (MakeReport c id)) = .ok r := by
    intro r
    rw [WalkPairedSets_refs]
    refine foldlM_id _ (fun acc p => ?_) _ _
    have : TopologySets.UnsafeMerge (p.get acc) (p.get (MakeReport c id))
        = some (p.get acc) := by cases p <;> rfl
    rw [mergeSets_some, this]
    exact congrArg Except.ok (setsRef_set_get p acc)
  rw [UnsafeMerge_walks, mergeScalars_MakeReport A id hD hW, h4, ok_bind, h5, ok_bind, h6,
    ok_bind]
  exact h7 A

/-- Witness of C9 on the demo collaborator, whose merges append. -/
theorem C9_merge_empty_right_identity_witness :
    UnsafeMerge hostAws (MakeReport demo "9") = .ok hostAws :=
  C9_merge_empty_right_identity hostAws "9" (fun t => List.append_nil t)
    (fun d => List.append_nil d) (by decide)

/-- C10. For a clean report `E` of `MakeReport` and any report `B` (with a 64-bit window),
`E.UnsafeMerge(B)` returns, and then every adjacency, parents and sets sidecar of `E` has
exactly the entries of the same sidecar of `B`, the window of `E` is that of `B` and the
timestamp of `E` is that of `B`. -/
theorem C10_merge_into_empty {c : Collab} (B : Report c) (id : String)
    (hW : isInt64 B.Window) :
    ∃ res, UnsafeMerge (MakeReport c id) B = .ok res ∧
      (∀ k, res.EndpointAdjacency.lookup k = B.EndpointAdjacency.lookup k) ∧
      (∀ k, res.EndpointParents.lookup k = B.EndpointParents.lookup k) ∧
      (∀ k, res.ProcessParents.lookup k = B.ProcessParents.lookup k) ∧
      (∀ k, res.ContainerParents.lookup k = B.ContainerParents.lookup k) ∧
      (∀ k, res.ContainerImageParents.lookup k = B.ContainerImageParents.lookup k) ∧
      (∀ k, res.CloudRegionParents.lookup k = B.CloudRegionParents.lookup k) ∧
      (∀ k, res.KubernetesClusterParents.lookup k = B.KubernetesClusterParents.lookup k) ∧
      (∀ k, res.PodParents.lookup k = B.PodParents.lookup k) ∧
      (∀ k, res.ServiceParents.lookup k = B.ServiceParents.lookup k) ∧
      (∀ k, res.NamespaceParents.lookup k = B.NamespaceParents.lookup k) ∧
      (∀ k, res.HostParents.lookup k = B.HostParents.lookup k) ∧
      (∀ k, res.OverlayParents.lookup k = B.OverlayParents.lookup k) ∧
      (∀ k, res.ContainerSets.lookup k = B.ContainerSets.lookup k) ∧
      (∀ k, res.OverlaySets.lookup k = B.OverlaySets.lookup k) ∧
      res.Window = B.Window ∧
      res.TS = B.TS := by
  obtain ⟨res, h⟩ := UnsafeMerge_returns (MakeReport c id) B
    (fun p => by cases p; rfl) (fun p => by cases p <;> rfl) (fun p => by cases p <;> rfl)
  have same : ∀ {V : Type} (o m : GoMap V),
      List.foldlM (fun t kv => GoMap.assign t kv.1 kv.2) (GoMap.make : GoMap V) o.range
        = some m → ∀ k, m.lookup k = o.lookup k := by
    intro V o m hm k
    obtain ⟨h1, h2⟩ := assignAll_overwrite _ _ _ hm k
    cases hk : o.lookup k with
    | none => rw [h2 hk]; rfl
    | some v => exact h1 v hk
  have hA := fun (p : AdjacencyRef) => UnsafeMerge_ok_adjacency _ B res h p
  have hP := fun (p : ParentsRef) => UnsafeMerge_ok_parents _ B res h p
  have hS := fun (p : SetsRef) => UnsafeMerge_ok_sets _ B res h p
  have hwin := UnsafeMerge_Window (MakeReport c id) B
  have hts := UnsafeMerge_TS (MakeReport c id) B
  rw [h] at hwin hts
  refine ⟨res, h, same _ _ (hA .EndpointAdjacency),
      same _ _ (hP .EndpointParents),
      same _ _ (hP .ProcessParents),
      same _ _ (hP .ContainerParents),
      same _ _ (hP .ContainerImageParents),
      same _ _ (hP .CloudRegionParents),
      same _ _ (hP .KubernetesClusterParents),
      same _ _ (hP .PodParents),
      same _ _ (hP .ServiceParents),
      same _ _ (hP .NamespaceParents),
      same _ _ (hP .HostParents),
      same _ _ (hP .OverlayParents),
      same _ _ (hS .ContainerSets), same _ _ (hS .OverlaySets), ?_, ?_⟩
  · show res.Window = B.Window
    rw [show res.Window = wrap64 ((MakeReport c id).Window + B.Window) from hwin]
    show wrap64 (0 + B.Window) = B.Window
    rw [Int.zero_add, wrap64_of_isInt64 _ hW]
  · show res.TS = B.TS
    rw [show res.TS = _ from hts]
    have e : (MakeReport c id).TS.IsZero = true := rfl
    by_cases hz : B.TS.IsZero = true
    · have : B.TS = Time.zero := (Time.isZero_iff _).mp hz
      rw [if_neg (by simp [hz]), this]
      rfl
    · have hz2 : B.TS.IsZero = false := by simpa using hz
      rw [if_pos (by simp [hz2, e])]

/-- Witness of C10 on the demo collaborator. -/
theorem C10_merge_into_empty_witness :
    ∃ res, UnsafeMerge (MakeReport demo "10") hostAws = .ok res ∧
      res.HostParents.lookup "h1" = some aws ∧ res.Window = 10 ∧
      res.TS = hostAws.TS := by
  obtain ⟨res, h, -, -, -, -, -, -, -, -, -, -, hp, -, -, -, hw, ht⟩ :=
    C10_merge_into_empty hostAws "10" (by decide)
  refine ⟨res, h, ?_, hw, ht⟩
  rw [hp "h1"]
  decide

/-! ## C15 - C18: selectors, registry, `MakeReport` -/

theorem topology_registered :
    ∀ name ∈ topologyNames, (topology name).isSome = true := by decide

theorem topologyAdjacency_registered :
    ∀ name ∈ topologyAdjacencyNames, (topologyAdjacency name).isSome = true := by decide

theorem topologySet_registered :
    ∀ name ∈ topologySetNames, (topologySet name).isSome = true := by decide

theorem topology_unregistered (name : String) (h : name ∉ topologyNames) :
    topology name = none := by
  simp only [topologyNames, List.mem_cons, List.mem_singleton, not_or] at h
  obtain ⟨h1, h2, h3, h4, h5, h6, h7, h8, h9, h10, h11, h12⟩ := h
  simp only [topology, h1, h2, h3, h4, h5, h6, h7, h8, h9, h10, h11, h12, if_false]

theorem topologyAdjacency_unregistered (name : String) (h : name ∉ topologyAdjacencyNames) :
    topologyAdjacency name = none := by
  simp only [topologyAdjacencyNames, List.mem_singleton] at h
  simp only [topologyAdjacency, h, if_false]

theorem topologyParent_unregistered (name : String) (h : name ∉ topologyParentNames) :
    topologyParent name = none := by
  simp only [topologyParentNames, List.mem_cons, List.mem_singleton, not_or] at h
  obtain ⟨h1, h2, h3, h4, h5, h6, h7, h8, h9, h10, h11⟩ := h
  simp only [topologyParent, h1, h2, h3, h4, h5, h6, h7, h8, h9, h10, h11, if_false]

theorem topologySet_unregistered (name : String) (h : name ∉ topologySetNames) :
    topologySet name = none := by
  simp only [topologySetNames, List.mem_cons, List.mem_singleton, not_or] at h
  obtain ⟨h1, h2⟩ := h
  simp only [topologySet, h1, h2, if_false]

/-- C15. Each of the four selectors returns a non-nil reference exactly on the names of its
registry list and the nil reference on every other string; it is a total function, so it
never fails.  In particular `topologyParent` is nil on `cloud_provider` and
`topologyAdjacency` is nil on `host`. -/
theorem C15_selectors_total (name : String) :
    ((∃ p, topology name = some p) ↔ name ∈ topologyNames) ∧
    (name ∉ topologyNames → topology name = none) ∧
    ((∃ p, topologyAdjacency name = some p) ↔ name ∈ topologyAdjacencyNames) ∧
    (name ∉ topologyAdjacencyNames → topologyAdjacency name = none) ∧
    ((∃ p, topologyParent name = some p) ↔ name ∈ topologyParentNames) ∧
    (name ∉ topologyParentNames → topologyParent name = none) ∧
    ((∃ p, topologySet name = some p) ↔ name ∈ topologySetNames) ∧
    (name ∉ topologySetNames → topologySet name = none) ∧
    topologyParent "cloud_provider" = none ∧
    topologyAdjacency "host" = none := by
  have key : ∀ {α : Type} (sel : String → Option α) (l : List String),
      (∀ n ∈ l, (sel n).isSome = true) → (∀ n, n ∉ l → sel n = none) →
      ((∃ p, sel name = some p) ↔ name ∈ l) := by
    intro α sel l h1 h2
    constructor
    · rintro ⟨p, hp⟩
      by_contra hn
      rw [h2 name hn] at hp
      cases hp
    · intro hm
      exact Option.isSome_iff_exists.mp (h1 name hm)
  exact ⟨key _ _ topology_registered topology_unregistered, topology_unregistered name,
    key _ _ topologyAdjacency_registered topologyAdjacency_unregistered,
    topologyAdjacency_unregistered name,
    key _ _ topologyParent_registered topologyParent_unregistered,
    topologyParent_unregistered name,
    key _ _ topologySet_registered topologySet_unregistered,
    topologySet_unregistered name, by decide, by decide⟩

/-- C16. The method `Topology` returns the topology field of the layer together with `true`
on each of the twelve registered names, and the zero-valued topology together with `false`
on every other name; it is a total function, so it never fails. -/
theorem C16_Topology_lookup {c : Collab} (r : Report c) :
    r.Topology Endpoint = (r.Endpoint, true) ∧
    r.Topology Process = (r.Process, true) ∧
    r.Topology Container = (r.Container, true) ∧
    r.Topology ContainerImage = (r.ContainerImage, true) ∧
    r.Topology CloudProvider = (r.CloudProvider, true) ∧
    r.Topology CloudRegion = (r.CloudRegion, true) ∧
    r.Topology KubernetesCluster = (r.KubernetesCluster, true) ∧
    r.Topology Pod = (r.Pod, true) ∧
    r.Topology Service = (r.Service, true) ∧
    r.Topology Namespace = (r.Namespace, true) ∧
    r.Topology Host = (r.Host, true) ∧
    r.Topology Overlay = (r.Overlay, true) ∧
    (∀ name, name ∈ topologyNames → (r.Topology name).2 = true) ∧
    (∀ name, name ∉ topologyNames → r.Topology name = (c.topologyZero, false)) := by
  refine ⟨rfl, rfl, rfl, rfl, rfl, rfl, rfl, rfl, rfl, rfl, rfl, rfl, ?_, ?_⟩
  · intro name hm
    obtain ⟨p, hp⟩ := Option.isSome_iff_exists.mp (topology_registered name hm)
    simp only [Report.Topology, hp]
  · intro name hn
    simp only [Report.Topology, topology_unregistered name hn]

/-- C17. The registry lists: `topologyNames` is the twelve layer names, each once;
`topologyParentNames` is `topologyNames` without `cloud_provider`, in the same order;
`topologyAdjacencyNames` is `[endpoint]`; `topologySetNames` is `[container, overlay]`; each
of the three is a sublist of `topologyNames`. -/
theorem C17_registry_lists :
    topologyNames = ["endpoint", "process", "container", "container_image", "cloud_provider",
      "cloud_region", "kubernetes_cluster", "pod", "service", "namespace", "host", "overlay"] ∧
    topologyNames.Nodup ∧
    topologyNames.length = 12 ∧
    topologyParentNames = topologyNames.filter (fun n => n != "cloud_provider") ∧
    topologyAdjacencyNames = ["endpoint"] ∧
    topologySetNames = ["container", "overlay"] ∧
    List.Sublist topologyParentNames topologyNames ∧
    List.Sublist topologyAdjacencyNames topologyNames ∧
    List.Sublist topologySetNames topologyNames := by
  refine ⟨rfl, by decide, rfl, by decide, rfl, rfl, ?_, ?_, ?_⟩ <;> decide

/-- C18. The report of `MakeReport` is empty: zero timestamp, window 0, shortcut false, the
empty DNS table, and for every registered name the selected adjacency, parents or sets
sidecar is an allocated map (not nil) without keys and the selected topology is the empty
topology of `MakeTopology`. -/
theorem C18_MakeReport_empty (c : Collab) (id : String) :
    (MakeReport c id).TS = Time.zero ∧
    (MakeReport c id).TS.IsZero = true ∧
    (MakeReport c id).Window = 0 ∧
    (MakeReport c id).Shortcut = false ∧
    (MakeReport c id).DNS = c.dnsEmpty ∧
    (∀ name ∈ topologyAdjacencyNames, ∃ p, topologyAdjacency name = some p ∧
      (p.get (MakeReport c id)).isNil = false ∧ (p.get (MakeReport c id)).keys = [] ∧
      ∀ k, (p.get (MakeReport c id)).lookup k = none) ∧
    (∀ name ∈ topologyParentNames, ∃ p, topologyParent name = some p ∧
      (p.get (MakeReport c id)).isNil = false ∧ (p.get (MakeReport c id)).keys = [] ∧
      ∀ k, (p.get (MakeReport c id)).lookup k = none) ∧
    (∀ name ∈ topologySetNames, ∃ p, topologySet name = some p ∧
      (p.get (MakeReport c id)).isNil = false ∧ (p.get (MakeReport c id)).keys = [] ∧
      ∀ k, (p.get (MakeReport c id)).lookup k = none) ∧
    (∀ name ∈ topologyNames, ∃ p, topology name = some p ∧
      p.get (MakeReport c id) = c.MakeTopology) := by
  refine ⟨rfl, rfl, rfl, rfl, rfl, ?_, ?_, ?_, ?_⟩
  · intro name hm
    obtain ⟨p, hp⟩ := Option.isSome_iff_exists.mp (topologyAdjacency_registered name hm)
    exact ⟨p, hp, by cases p; rfl, by cases p; rfl, fun k => by cases p; rfl⟩
  · intro name hm
    obtain ⟨p, hp⟩ := Option.isSome_iff_exists.mp (topologyParent_registered name hm)
    exact ⟨p, hp, by cases p <;> rfl, by cases p <;> rfl, fun k => by cases p <;> rfl⟩
  · intro name hm
    obtain ⟨p, hp⟩ := Option.isSome_iff_exists.mp (topologySet_registered name hm)
    exact ⟨p, hp, by cases p <;> rfl, by cases p <;> rfl, fun k => by cases p <;> rfl⟩
  · intro name hm
    obtain ⟨p, hp⟩ := Option.isSome_iff_exists.mp (topology_registered name hm)
    exact ⟨p, hp, by cases p <;> rfl⟩

/-! ## C19, C20: sampling -/

/-- C19. The method `Merge` of `Sampling` adds the two counts and the two totals, each as a
64-bit unsigned sum (modulo 2^64, the exact sum when that one fits); so `(5, 10)` merged
with `(3, 10)` is `(8, 20)`. -/
theorem C19_sampling_merge (s o : Sampling) :
    (s.Merge o).Count = (s.Count + o.Count) % 2 ^ 64 ∧
    (s.Merge o).Total = (s.Total + o.Total) % 2 ^ 64 ∧
    isUInt64 (s.Merge o).Count ∧ isUInt64 (s.Merge o).Total ∧
    (isUInt64 (s.Count + o.Count) → (s.Merge o).Count = s.Count + o.Count) ∧
    (isUInt64 (s.Total + o.Total) → (s.Merge o).Total = s.Total + o.Total) ∧
    Sampling.Merge { Count := 5, Total := 10 } { Count := 3, Total := 10 }
      = { Count := 8, Total := 20 } ∧
    Sampling.Merge { Count := 2 ^ 64 - 1, Total := 1 } { Count := 1, Total := 1 }
      = { Count := 0, Total := 2 } := by
  refine ⟨rfl, rfl, ?_, ?_, ?_, ?_, by decide, by decide⟩
  · exact Nat.mod_lt _ (by decide)
  · exact Nat.mod_lt _ (by decide)
  · intro h
    exact Nat.mod_eq_of_lt h
  · intro h
    exact Nat.mod_eq_of_lt h

/-- C20. The method `Rate` returns the constant `1.0` when the total is 0, whatever the
count, without dividing; when the total is positive it returns the `float64` quotient of
the converted count by the converted total. -/
theorem C20_sampling_rate (fl : Float64Ops) (s : Sampling) :
    (s.Total = 0 → s.Rate fl = fl.one) ∧
    (0 < s.Total → s.Rate fl = fl.div (fl.ofUInt64 s.Count) (fl.ofUInt64 s.Total)) ∧
    Sampling.Rate fl { Count := 0, Total := 0 } = fl.one ∧
    Sampling.Rate fl { Count := 7, Total := 0 } = fl.one := by
  refine ⟨?_, ?_, rfl, rfl⟩
  · intro h
    simp [Sampling.Rate, h]
  · intro h
    have : ¬ s.Total ≤ 0 := by omega
    simp [Sampling.Rate, this]

/-! ## C14: order matters -/

/-- C14. Merge depends on the order of its operands: for two clean reports whose host parents
hold the key `h1` with the records `aws` and `gcp`, both merges return, the first operand
merged with the second holds `gcp` for `h1`, and the second merged with the first holds
`aws`. -/
theorem C14_merge_order_dependent (c : Collab) :
    ∃ A B : Report c, ∃ AB BA : Report c,
      A.HostParents.lookup "h1" = some aws ∧
      B.HostParents.lookup "h1" = some gcp ∧
      aws ≠ gcp ∧
      UnsafeMerge A B = .ok AB ∧
      UnsafeMerge B A = .ok BA ∧
      AB.HostParents.lookup "h1" = some gcp ∧
      BA.HostParents.lookup "h1" = some aws ∧
      AB.HostParents.lookup "h1" ≠ BA.HostParents.lookup "h1" := by
  let A : Report c := { MakeReport c "a" with HostParents := some (AList.singleton "h1" aws) }
  let B : Report c := { MakeReport c "b" with HostParents := some (AList.singleton "h1" gcp) }
  obtain ⟨AB, hAB⟩ := UnsafeMerge_returns A B (fun p => by cases p; rfl)
    (fun p => by cases p <;> rfl) (fun p => by cases p <;> rfl)
  obtain ⟨BA, hBA⟩ := UnsafeMerge_returns B A (fun p => by cases p; rfl)
    (fun p => by cases p <;> rfl) (fun p => by cases p <;> rfl)
  have hA : A.HostParents.lookup "h1" = some aws := by
    show GoMap.lookup (some (AList.singleton "h1" aws)) "h1" = some aws
    decide
  have hB : B.HostParents.lookup "h1" = some gcp := by
    show GoMap.lookup (some (AList.singleton "h1" gcp)) "h1" = some gcp
    decide
  have h1 : AB.HostParents.lookup "h1" = some gcp :=
    (assignAll_overwrite _ _ _ (UnsafeMerge_ok_parents A B AB hAB .HostParents) "h1").1 gcp hB
  have h2 : BA.HostParents.lookup "h1" = some aws :=
    (assignAll_overwrite _ _ _ (UnsafeMerge_ok_parents B A BA hBA .HostParents) "h1").1 aws hA
  refine ⟨A, B, AB, BA, hA, hB, by decide, hAB, hBA, h1, h2, ?_⟩
  rw [h1, h2]
  decide

/-! ## Lemmas on `Copy` -/

theorem topologyRefs_nodup : topologyRefs.Nodup := by decide
theorem topologyRefs_mem (p : TopologyRef) : p ∈ topologyRefs := by cases p <;> decide

theorem topologyRef_get_set {c : Collab} (p : TopologyRef) (r : Report c) (v : c.Topology) :
    p.get (p.set r v) = v := by cases p <;> rfl
theorem topologyRef_get_set_ne {c : Collab} (p q : TopologyRef) (r : Report c)
    (v : c.Topology) (h : p ≠ q) : p.get (q.set r v) = p.get r := by
  cases p <;> cases q <;> first | rfl | exact absurd rfl h

/-- The copy loop into a fresh map always completes; the copy is allocated and has the
entries of the original. -/
theorem copyAll_spec {V : Type} (t : GoMap V) :
    ∃ m : GoMap V,
      List.foldlM (fun n kv => GoMap.assign n kv.1 kv.2) (GoMap.make : GoMap V) t.range = some m ∧
      m.isNil = false ∧ ∀ k, m.lookup k = t.lookup k := by
  obtain ⟨a2, h⟩ := assignAll_allocated (∅ : AList (fun _ : String => V)) t
  refine ⟨some a2, h, rfl, fun k => ?_⟩
  obtain ⟨h1, h2⟩ := assignAll_overwrite _ _ _ h k
  cases hk : t.lookup k with
  | none => rw [h2 hk]; rfl
  | some v => exact h1 v hk

theorem copyTopology_state {c : Collab} {β : Type} (g : Report c → β)
    (hg : ∀ (p : TopologyRef) (r : Report c) v, g (p.set r v) = g r)
    (old : Report c) (a b : Option TopologyRef) (acc : Report c) :
    g (state (copyTopology old a b acc)) = g acc := by
  cases a <;> cases b <;> first | rfl | exact hg _ _ _

theorem copyAdjacency_some {c : Collab} (old : Report c) (p q : AdjacencyRef) (acc : Report c) :
    copyAdjacency old (some p) (some q) acc =
      (match TopologyAdjacency.Copy (q.get old) with
        | some m => Except.ok (p.set acc m)
        | none => Except.error acc) := rfl

theorem copyParents_some {c : Collab} (old : Report c) (p q : ParentsRef) (acc : Report c) :
    copyParents old (some p) (some q) acc =
      (match Parents.Copy (q.get old) with
        | some m => Except.ok (p.set acc m)
        | none => Except.error acc) := rfl

theorem copySets_some {c : Collab} (old : Report c) (p q : SetsRef) (acc : Report c) :
    copySets old (some p) (some q) acc =
      (match TopologySets.Copy (q.get old) with
        | some m => Except.ok (p.set acc m)
        | none => Except.error acc) := rfl

theorem copyAdjacency_state {c : Collab} {β : Type} (g : Report c → β)
    (hg : ∀ (p : AdjacencyRef) (r : Report c) v, g (p.set r v) = g r)
    (old : Report c) (a b : Option AdjacencyRef) (acc : Report c) :
    g (state (copyAdjacency old a b acc)) = g acc := by
  cases a <;> cases b <;> try rfl
  rename_i p q
  rw [copyAdjacency_some]
  generalize TopologyAdjacency.Copy (q.get old) = u
  cases u with
  | none => rfl
  | some m => exact hg p acc m

theorem copyParents_state {c : Collab} {β : Type} (g : Report c → β)
    (hg : ∀ (p : ParentsRef) (r : Report c) v, g (p.set r v) = g r)
    (old : Report c) (a b : Option ParentsRef) (acc : Report c) :
    g (state (copyParents old a b acc)) = g acc := by
  cases a <;> cases b <;> try rfl
  rename_i p q
  rw [copyParents_some]
  generalize Parents.Copy (q.get old) = u
  cases u with
  | none => rfl
  | some m => exact hg p acc m

theorem copySets_state {c : Collab} {β : Type} (g : Report c → β)
    (hg : ∀ (p : SetsRef) (r : Report c) v, g (p.set r v) = g r)
    (old : Report c) (a b : Option SetsRef) (acc : Report c) :
    g (state (copySets old a b acc)) = g acc := by
  cases a <;> cases b <;> try rfl
  rename_i p q
  rw [copySets_some]
  generalize TopologySets.Copy (q.get old) = u
  cases u with
  | none => rfl
  | some m => exact hg p acc m

/-- The call `Copy` always returns, through its four walks. -/
theorem Copy_chain {c : Collab} (r : Report c) (id : String) :
    ∃ n1 n2 n3 res,
      WalkPairedTopologies (copyLiteral r id) (copyTopology r) = .ok n1 ∧
      WalkPairedAdjacencies n1 (copyAdjacency r) = .ok n2 ∧
      WalkPairedParents n2 (copyParents r) = .ok n3 ∧
      WalkPairedSets n3 (copySets r) = .ok res ∧
      Report.Copy r id = .ok res := by
  obtain ⟨n1, h1⟩ : ∃ n1, WalkPairedTopologies (copyLiteral r id) (copyTopology r) = .ok n1 := by
    rw [WalkPairedTopologies_refs]
    exact foldlM_returns _ (fun acc p => ⟨_, rfl⟩) _ _
  obtain ⟨n2, h2⟩ : ∃ n2, WalkPairedAdjacencies n1 (copyAdjacency r) = .ok n2 := by
    rw [WalkPairedAdjacencies_refs]
    refine foldlM_returns _ (fun acc p => ?_) _ _
    obtain ⟨m, hm, _⟩ := copyAll_spec (p.get r)
    refine ⟨p.set acc m, ?_⟩
    show copyAdjacency r (some p) (some p) acc = _
    rw [copyAdjacency_some, show TopologyAdjacency.Copy (p.get r) = some m from hm]
  obtain ⟨n3, h3⟩ : ∃ n3, WalkPairedParents n2 (copyParents r) = .ok n3 := by
    rw [WalkPairedParents_refs]
    refine foldlM_returns _ (fun acc p => ?_) _ _
    obtain ⟨m, hm, _⟩ := copyAll_spec (p.get r)
    refine ⟨p.set acc m, ?_⟩
    show copyParents r (some p) (some p) acc = _
    rw [copyParents_some, show Parents.Copy (p.get r) = some m from hm]
  obtain ⟨res, h4⟩ : ∃ res, WalkPairedSets n3 (copySets r) = .ok res := by
    rw [WalkPairedSets_refs]
    refine foldlM_returns _ (fun acc p => ?_) _ _
    obtain ⟨m, hm, _⟩ := copyAll_spec (p.get r)
    refine ⟨p.set acc m, ?_⟩
    show copySets r (some p) (some p) acc = _
    rw [copySets_some, show TopologySets.Copy (p.get r) = some m from hm]
  refine ⟨n1, n2, n3, res, h1, h2, h3, h4, ?_⟩
  unfold Report.Copy
  simp only []
  rw [h1, ok_bind, h2, ok_bind, h3, ok_bind]
  exact h4

theorem Copy_ok_chain {c : Collab} (r : Report c) (id : String) (res : Report c)
    (h : Report.Copy r id = .ok res) :
    ∃ n1 n2 n3,
      WalkPairedTopologies (copyLiteral r id) (copyTopology r) = .ok n1 ∧
      WalkPairedAdjacencies n1 (copyAdjacency r) = .ok n2 ∧
      WalkPairedParents n2 (copyParents r) = .ok n3 ∧
      WalkPairedSets n3 (copySets r) = .ok res := by
  obtain ⟨n1, n2, n3, res0, h1, h2, h3, h4, h5⟩ := Copy_chain r id
  have : res0 = res := by
    rw [h5] at h
    exact Except.ok.inj h
  subst this
  exact ⟨n1, n2, n3, h1, h2, h3, h4⟩

/-- What `Copy` returns agrees with its opening literal on whatever reads no per-layer
field. -/
theorem Copy_ok_frame {c : Collab} {β : Type} (g : Report c → β)
    (hT : ∀ (p : TopologyRef) (r : Report c) v, g (p.set r v) = g r)
    (hA : ∀ (p : AdjacencyRef) (r : Report c) v, g (p.set r v) = g r)
    (hP : ∀ (p : ParentsRef) (r : Report c) v, g (p.set r v) = g r)
    (hS : ∀ (p : SetsRef) (r : Report c) v, g (p.set r v) = g r)
    (r : Report c) (id : String) (res : Report c) (h : Report.Copy r id = .ok res) :
    g res = g (copyLiteral r id) := by
  obtain ⟨n1, n2, n3, h1, h2, h3, h4⟩ := Copy_ok_chain r id res h
  have e1 : g n1 = g (copyLiteral r id) :=
    foldlM_ok_state g _ (fun a _ => copyTopology_state g hT r _ _ a) _ _ _ h1
  have e2 : g n2 = g n1 :=
    foldlM_ok_state g _ (fun a _ => copyAdjacency_state g hA r _ _ a) _ _ _ h2
  have e3 : g n3 = g n2 :=
    foldlM_ok_state g _ (fun a _ => copyParents_state g hP r _ _ a) _ _ _ h3
  have e4 : g res = g n3 :=
    foldlM_ok_state g _ (fun a _ => copySets_state g hS r _ _ a) _ _ _ h4
  rw [e4, e3, e2, e1]

/-- Each topology of the copy is the collaborator copy of the topology of the original. -/
theorem Copy_ok_topology {c : Collab} (r : Report c) (id : String) (res : Report c)
    (h : Report.Copy r id = .ok res) (p : TopologyRef) :
    p.get res = c.topologyCopy (p.get r) := by
  obtain ⟨n1, n2, n3, h1, h2, h3, h4⟩ := Copy_ok_chain r id res h
  have e2 : p.get n2 = p.get n1 :=
    foldlM_ok_state (fun x => p.get x) _ (fun a _ => copyAdjacency_state (fun x => p.get x)
      (fun q r v => by cases p <;> cases q <;> rfl) r _ _ a) _ _ _ h2
  have e3 : p.get n3 = p.get n2 :=
    foldlM_ok_state (fun x => p.get x) _ (fun a _ => copyParents_state (fun x => p.get x)
      (fun q r v => by cases p <;> cases q <;> rfl) r _ _ a) _ _ _ h3
  have e4 : p.get res = p.get n3 :=
    foldlM_ok_state (fun x => p.get x) _ (fun a _ => copySets_state (fun x => p.get x)
      (fun q r v => by cases p <;> cases q <;> rfl) r _ _ a) _ _ _ h4
  rw [WalkPairedTopologies_refs] at h1
  have key := (foldlM_fields (fun (q : TopologyRef) (x : Report c) => q.get x)
    (fun q x v => q.set x v) (fun q _ => some (c.topologyCopy (q.get r)))
    (fun acc q => copyTopology r (some q) (some q) acc)
    topologyRef_get_set topologyRef_get_set_ne (fun acc q => rfl)
    topologyRefs topologyRefs_nodup _ n1 h1).1 p (topologyRefs_mem p)
  rw [e4, e3, e2]
  exact (Option.some.inj key).symm

/-- Each adjacency sidecar of the copy is the map `TopologyAdjacency.Copy` makes. -/
theorem Copy_ok_adjacency {c : Collab} (r : Report c) (id : String) (res : Report c)
    (h : Report.Copy r id = .ok res) (p : AdjacencyRef) :
    TopologyAdjacency.Copy (p.get r) = some (p.get res) := by
  obtain ⟨n1, n2, n3, h1, h2, h3, h4⟩ := Copy_ok_chain r id res h
  have e3 : p.get n3 = p.get n2 :=
    foldlM_ok_state (fun x => p.get x) _ (fun a _ => copyParents_state (fun x => p.get x)
      (fun q r v => by cases p; cases q <;> rfl) r _ _ a) _ _ _ h3
  have e4 : p.get res = p.get n3 :=
    foldlM_ok_state (fun x => p.get x) _ (fun a _ => copySets_state (fun x => p.get x)
      (fun q r v => by cases p; cases q <;> rfl) r _ _ a) _ _ _ h4
  rw [WalkPairedAdjacencies_refs] at h2
  have key := (foldlM_fields (fun (q : AdjacencyRef) (x : Report c) => q.get x)
    (fun q x v => q.set x v) (fun q _ => TopologyAdjacency.Copy (q.get r))
    (fun acc q => copyAdjacency r (some q) (some q) acc)
    adjacencyRef_get_set adjacencyRef_get_set_ne (fun acc q => by
      simp only [copyAdjacency_some]
      cases TopologyAdjacency.Copy (q.get r) <;> rfl)
    adjacencyRefs adjacencyRefs_nodup n1 n2 h2).1 p (adjacencyRefs_mem p)
  rw [e4, e3]
  exact key

/-- Each parents sidecar of the copy is the map `Parents.Copy` makes. -/
theorem Copy_ok_parents {c : Collab} (r : Report c) (id : String) (res : Report c)
    (h : Report.Copy r id = .ok res) (p : ParentsRef) :
    Parents.Copy (p.get r) = some (p.get res) := by
  obtain ⟨n1, n2, n3, h1, h2, h3, h4⟩ := Copy_ok_chain r id res h
  have e4 : p.get res = p.get n3 :=
    foldlM_ok_state (fun x => p.get x) _ (fun a _ => copySets_state (fun x => p.get x)
      (fun q r v => by cases p <;> cases q <;> rfl) r _ _ a) _ _ _ h4
  rw [WalkPairedParents_refs] at h3
  have key := (foldlM_fields (fun (q : ParentsRef) (x : Report c) => q.get x)
    (fun q x v => q.set x v) (fun q _ => Parents.Copy (q.get r))
    (fun acc q => copyParents r (some q) (some q) acc)
    parentsRef_get_set parentsRef_get_set_ne (fun acc q => by
      simp only [copyParents_some]
      cases Parents.Copy (q.get r) <;> rfl)
    parentsRefs parentsRefs_nodup n2 n3 h3).1 p (parentsRefs_mem p)
  rw [e4]
  exact key

/-- Each sets sidecar of the copy is the map `TopologySets.Copy` makes. -/
theorem Copy_ok_sets {c : Collab} (r : Report c) (id : String) (res : Report c)
    (h : Report.Copy r id = .ok res) (p : SetsRef) :
    TopologySets.Copy (p.get r) = some (p.get res) := by
  obtain ⟨n1, n2, n3, h1, h2, h3, h4⟩ := Copy_ok_chain r id res h
  rw [WalkPairedSets_refs] at h4
  exact (foldlM_fields (fun (q : SetsRef) (x : Report c) => q.get x)
    (fun q x v => q.set x v) (fun q _ => TopologySets.Copy (q.get r))
    (fun acc q => copySets r (some q) (some q) acc)
    setsRef_get_set setsRef_get_set_ne (fun acc q => by
      simp only [copySets_some]
      cases TopologySets.Copy (q.get r) <;> rfl)
    setsRefs setsRefs_nodup n3 res h4).1 p (setsRefs_mem p)

/-- A sidecar copy has the entries of the original and is an allocated map. -/
theorem copyAll_lookup {V : Type} (t m : GoMap V)
    (h : List.foldlM (fun n kv => GoMap.assign n kv.1 kv.2) (GoMap.make : GoMap V) t.range
      = some m) : m.isNil = false ∧ ∀ k, m.lookup k = t.lookup k := by
  obtain ⟨m0, h0, hn, hl⟩ := copyAll_spec t
  have : m0 = m := Option.some.inj (h0.symm.trans h)
  subst this
  exact ⟨hn, hl⟩

/-! ## C11: the copy has the content of the original -/

/-- C11, as amended. With collaborator copies that preserve content, `R.Copy()` returns a
report with the timestamp, window and shortcut flag of `R`, a DNS table and twelve topologies
of the same content as those of `R`, and fourteen sidecars that are allocated maps with
exactly the entries of those of `R`; its identifier is the fresh one, and its legacy DNS
field is the zero value, whatever the one of `R` holds. -/
theorem C11_copy_content {c : Collab}
    (eqT : c.Topology → c.Topology → Prop) (eqD : c.DNSRecords → c.DNSRecords → Prop)
    (hT : ∀ t, eqT (c.topologyCopy t) t) (hD : ∀ d, eqD (c.dnsCopy d) d)
    (r : Report c) (id : String) :
    ∃ res, r.Copy id = .ok res ∧
      res.ID = id ∧ res.TS = r.TS ∧ res.Window = r.Window ∧ res.Shortcut = r.Shortcut ∧
      eqD res.DNS r.DNS ∧ res.BugDNS = c.dnsZero ∧
      eqT res.Endpoint r.Endpoint ∧ eqT res.Process r.Process ∧ eqT res.Container r.Container ∧ eqT res.ContainerImage r.ContainerImage ∧
      eqT res.CloudProvider r.CloudProvider ∧ eqT res.CloudRegion r.CloudRegion ∧ eqT res.KubernetesCluster r.KubernetesCluster ∧ eqT res.Pod r.Pod ∧
      eqT res.Service r.Service ∧ eqT res.Namespace r.Namespace ∧ eqT res.Host r.Host ∧ eqT res.Overlay r.Overlay ∧
      (res.EndpointAdjacency.isNil = false ∧
        ∀ k, res.EndpointAdjacency.lookup k = r.EndpointAdjacency.lookup k) ∧
      (res.EndpointParents.isNil = false ∧ ∀ k, res.EndpointParents.lookup k = r.EndpointParents.lookup k) ∧
      (res.ProcessParents.isNil = false ∧ ∀ k, res.ProcessParents.lookup k = r.ProcessParents.lookup k) ∧
      (res.ContainerParents.isNil = false ∧ ∀ k, res.ContainerParents.lookup k = r.ContainerParents.lookup k) ∧
      (res.ContainerImageParents.isNil = false ∧ ∀ k, res.ContainerImageParents.lookup k = r.ContainerImageParents.lookup k) ∧
      (res.CloudRegionParents.isNil = false ∧ ∀ k, res.CloudRegionParents.lookup k = r.CloudRegionParents.lookup k) ∧
      (res.KubernetesClusterParents.isNil = false ∧ ∀ k, res.KubernetesClusterParents.lookup k = r.KubernetesClusterParents.lookup k) ∧
      (res.PodParents.isNil = false ∧ ∀ k, res.PodParents.lookup k = r.PodParents.lookup k) ∧
      (res.ServiceParents.isNil = false ∧ ∀ k, res.ServiceParents.lookup k = r.ServiceParents.lookup k) ∧
      (res.NamespaceParents.isNil = false ∧ ∀ k, res.NamespaceParents.lookup k = r.NamespaceParents.lookup k) ∧
      (res.HostParents.isNil = false ∧ ∀ k, res.HostParents.lookup k = r.HostParents.lookup k) ∧
      (res.OverlayParents.isNil = false ∧ ∀ k, res.OverlayParents.lookup k = r.OverlayParents.lookup k) ∧
      (res.ContainerSets.isNil = false ∧
        ∀ k, res.ContainerSets.lookup k = r.ContainerSets.lookup k) ∧
      (res.OverlaySets.isNil = false ∧
        ∀ k, res.OverlaySets.lookup k = r.OverlaySets.lookup k) := by
  obtain ⟨_, _, _, res, _, _, _, _, h⟩ := Copy_chain r id
  have fr : ∀ {β : Type} (g : Report c → β),
      (∀ (p : TopologyRef) (r : Report c) v, g (p.set r v) = g r) →
      (∀ (p : AdjacencyRef) (r : Report c) v, g (p.set r v) = g r) →
      (∀ (p : ParentsRef) (r : Report c) v, g (p.set r v) = g r) →
      (∀ (p : SetsRef) (r : Report c) v, g (p.set r v) = g r) →
      g res = g (copyLiteral r id) :=
    fun g h1 h2 h3 h4 => Copy_ok_frame g h1 h2 h3 h4 r id res h
  have hdns : res.DNS = c.dnsCopy r.DNS :=
    fr (fun x => x.DNS) (fun p r v => by cases p <;> rfl) (fun p r v => by cases p; rfl)
      (fun p r v => by cases p <;> rfl) (fun p r v => by cases p <;> rfl)
  have top : ∀ p : TopologyRef, eqT (p.get res) (p.get r) := by
    intro p
    rw [Copy_ok_topology r id res h p]
    exact hT _
  have adj := fun (p : AdjacencyRef) => copyAll_lookup _ _ (Copy_ok_adjacency r id res h p)
  have par := fun (p : ParentsRef) => copyAll_lookup _ _ (Copy_ok_parents r id res h p)
  have sets := fun (p : SetsRef) => copyAll_lookup _ _ (Copy_ok_sets r id res h p)
  refine ⟨res, h,
    fr (fun x => x.ID) (fun p r v => by cases p <;> rfl) (fun p r v => by cases p; rfl)
      (fun p r v => by cases p <;> rfl) (fun p r v => by cases p <;> rfl),
    fr (fun x => x.TS) (fun p r v => by cases p <;> rfl) (fun p r v => by cases p; rfl)
      (fun p r v => by cases p <;> rfl) (fun p r v => by cases p <;> rfl),
    fr (fun x => x.Window) (fun p r v => by cases p <;> rfl) (fun p r v => by cases p; rfl)
      (fun p r v => by cases p <;> rfl) (fun p r v => by cases p <;> rfl),
    fr (fun x => x.Shortcut) (fun p r v => by cases p <;> rfl) (fun p r v => by cases p; rfl)
      (fun p r v => by cases p <;> rfl) (fun p r v => by cases p <;> rfl),
    ?_,
    fr (fun x => x.BugDNS) (fun p r v => by cases p <;> rfl) (fun p r v => by cases p; rfl)
      (fun p r v => by cases p <;> rfl) (fun p r v => by cases p <;> rfl),
    top .Endpoint, top .Process, top .Container, top .ContainerImage,
    top .CloudProvider, top .CloudRegion, top .KubernetesCluster, top .Pod,
    top .Service, top .Namespace, top .Host, top .Overlay,
    adj .EndpointAdjacency,
    par .EndpointParents, par .ProcessParents, par .ContainerParents, par .ContainerImageParents,
    par .CloudRegionParents, par .KubernetesClusterParents, par .PodParents,
    par .ServiceParents, par .NamespaceParents, par .HostParents, par .OverlayParents,
    sets .ContainerSets, sets .OverlaySets⟩
  rw [hdns]
  exact hD _

/-- Witness of C11 on the demo collaborator, whose copies are the identity. -/
theorem C11_copy_content_witness :
    ∃ res, hostAws.Copy "copy" = .ok res ∧ res.ID = "copy" ∧ res.TS = hostAws.TS ∧
      res.Host = hostAws.Host ∧ res.HostParents.lookup "h1" = some aws := by
  obtain ⟨res, h, hid, hts, -, -, -, -, -, -, -, -, -, -, -, -, -, -, hh, -, -, -, -, -, -, -, -,
      -, -, -, hp, -⟩ :=
    C11_copy_content (c := demo) Eq Eq (fun _ => rfl) (fun _ => rfl) hostAws "copy"
  refine ⟨res, h, hid, hts, hh, ?_⟩
  rw [hp.2 "h1"]
  decide

/-- Counterexample to C11 as stated: a report whose legacy DNS field holds a record; the
legacy DNS field of its copy is empty. -/
theorem C11_counterexample :
    legacyReport.Copy "copy" = .ok (state (legacyReport.Copy "copy")) ∧
    legacyReport.BugDNS = ["legacy.example"] ∧
    (state (legacyReport.Copy "copy")).BugDNS = [] ∧
    (state (legacyReport.Copy "copy")).BugDNS ≠ legacyReport.BugDNS := by
  refine ⟨rfl, rfl, rfl, fun h => ?_⟩
  have h1 : (state (legacyReport.Copy "copy")).BugDNS = ([] : List String) := rfl
  have h2 : legacyReport.BugDNS = (["legacy.example"] : List String) := rfl
  have h3 : ([] : List String) = ["legacy.example"] := h1.symm.trans (h.trans h2)
  cases h3

/-! ## Lemmas for associativity -/

/-- Each topology after `UnsafeMerge` is the collaborator merge of the two topologies. -/
theorem UnsafeMerge_ok_topology {c : Collab} (A B res : Report c)
    (h : UnsafeMerge A B = .ok res) (p : TopologyRef) :
    p.get res = c.topologyUnsafeMerge (p.get A) (p.get B) := by
  obtain ⟨r4, r5, r6, h4, h5, h6, h7⟩ := UnsafeMerge_ok_chain A B res h
  have e3 : p.get (mergeScalars A B) = p.get A :=
    mergeScalars_other (fun x => p.get x) (fun r t => by cases p <;> rfl)
      (fun r d w => by cases p <;> rfl) A B
  have e5 : p.get r5 = p.get r4 :=
    walkAdjacencies_merge_ok (fun x => p.get x) (fun q r v => by cases p <;> cases q <;> rfl)
      B _ _ h5
  have e6 : p.get r6 = p.get r5 :=
    walkParents_merge_ok (fun x => p.get x) (fun q r v => by cases p <;> cases q <;> rfl)
      B _ _ h6
  have e7 : p.get res = p.get r6 :=
    walkSets_merge_ok (fun x => p.get x) (fun q r v => by cases p <;> cases q <;> rfl)
      B _ _ h7
  rw [WalkPairedTopologies_refs] at h4
  have key := (foldlM_fields (fun (q : TopologyRef) (x : Report c) => q.get x)
    (fun q x v => q.set x v) (fun q t => some (c.topologyUnsafeMerge t (q.get B)))
    (fun acc q => mergeTopology B (some q) (some q) acc)
    topologyRef_get_set topologyRef_get_set_ne (fun acc q => rfl)
    topologyRefs topologyRefs_nodup _ r4 h4).1 p (topologyRefs_mem p)
  rw [e7, e6, e5, ← e3]
  exact (Option.some.inj key).symm

theorem UnsafeMerge_ok_TS {c : Collab} (A B res : Report c) (h : UnsafeMerge A B = .ok res) :
    res.TS = if !B.TS.IsZero && (A.TS.IsZero || B.TS.Before A.TS) then B.TS else A.TS := by
  have := UnsafeMerge_TS A B
  rw [h] at this
  exact this

theorem UnsafeMerge_ok_Window {c : Collab} (A B res : Report c)
    (h : UnsafeMerge A B = .ok res) : res.Window = wrap64 (A.Window + B.Window) := by
  have := UnsafeMerge_Window A B
  rw [h] at this
  exact this

theorem UnsafeMerge_ok_DNS {c : Collab} (A B res : Report c) (h : UnsafeMerge A B = .ok res) :
    res.DNS = c.dnsMerge A.DNS B.DNS := by
  have := UnsafeMerge_DNS A B
  rw [h] at this
  exact this

theorem wrap64_add_assoc (a b c : Int) :
    wrap64 (wrap64 (a + b) + c) = wrap64 (a + wrap64 (b + c)) := by
  unfold wrap64
  omega

/-- The per-key overwrite is associative on lookups. -/
theorem assignAll_assoc {V : Type} (a b c ab l bc r : GoMap V)
    (h1 : List.foldlM (fun t kv => GoMap.assign t kv.1 kv.2) a b.range = some ab)
    (h2 : List.foldlM (fun t kv => GoMap.assign t kv.1 kv.2) ab c.range = some l)
    (h3 : List.foldlM (fun t kv => GoMap.assign t kv.1 kv.2) b c.range = some bc)
    (h4 : List.foldlM (fun t kv => GoMap.assign t kv.1 kv.2) a bc.range = some r)
    (k : String) : l.lookup k = r.lookup k := by
  obtain ⟨p1, q1⟩ := assignAll_overwrite _ _ _ h1 k
  obtain ⟨p2, q2⟩ := assignAll_overwrite _ _ _ h2 k
  obtain ⟨p3, q3⟩ := assignAll_overwrite _ _ _ h3 k
  obtain ⟨p4, q4⟩ := assignAll_overwrite _ _ _ h4 k
  cases hc : c.lookup k with
  | some v => rw [p2 v hc, p4 v (p3 v hc)]
  | none =>
    rw [q2 hc]
    cases hb : b.lookup k with
    | some w => rw [p1 w hb, p4 w ((q3 hc).trans hb)]
    | none => rw [q1 hb, q4 ((q3 hc).trans hb)]

/-! ## C24: the topologies after a merge and after an unmerge -/

/-- Each topology the receiver is left with by `UnsafeMerge`, returned or panicked, is the
collaborator merge of its old value and the same topology of the other report. -/
theorem UnsafeMerge_state_topology {c : Collab} (A B : Report c) (p : TopologyRef) :
    p.get (state (UnsafeMerge A B)) = c.topologyUnsafeMerge (p.get A) (p.get B) := by
  obtain ⟨r4, h4⟩ : ∃ r4, WalkPairedTopologies (mergeScalars A B) (mergeTopology B) = .ok r4 := by
    rw [WalkPairedTopologies_refs]
    exact foldlM_returns _ (fun acc p => ⟨_, rfl⟩) _ _
  have e3 : p.get (mergeScalars A B) = p.get A :=
    mergeScalars_other (fun x => p.get x) (fun r t => by cases p <;> rfl)
      (fun r d w => by cases p <;> rfl) A B
  have hA : ∀ (q : AdjacencyRef) (r : Report c) v, p.get (q.set r v) = p.get r :=
    fun q r v => by cases p <;> cases q <;> rfl
  have hP : ∀ (q : ParentsRef) (r : Report c) v, p.get (q.set r v) = p.get r :=
    fun q r v => by cases p <;> cases q <;> rfl
  have hS : ∀ (q : SetsRef) (r : Report c) v, p.get (q.set r v) = p.get r :=
    fun q r v => by cases p <;> cases q <;> rfl
  have tail : p.get (state (UnsafeMerge A B)) = p.get r4 := by
    rw [UnsafeMerge_walks, h4, ok_bind]
    rw [state_bind (fun x => p.get x)]
    · unfold WalkPairedAdjacencies
      exact foldlM_state (fun x => p.get x) _
        (fun acc x => mergeAdjacency_state (fun x => p.get x) hA B _ _ acc) _ _
    · intro r5
      rw [state_bind (fun x => p.get x)]
      · unfold WalkPairedParents
        exact foldlM_state (fun x => p.get x) _
          (fun acc x => mergeParents_state (fun x => p.get x) hP B _ _ acc) _ _
      · intro r6
        unfold WalkPairedSets
        exact foldlM_state (fun x => p.get x) _
          (fun acc x => mergeSets_state (fun x => p.get x) hS B _ _ acc) _ _
  rw [WalkPairedTopologies_refs] at h4
  have key := (foldlM_fields (fun (q : TopologyRef) (x : Report c) => q.get x)
    (fun q x v => q.set x v) (fun q t => some (c.topologyUnsafeMerge t (q.get B)))
    (fun acc q => mergeTopology B (some q) (some q) acc)
    topologyRef_get_set topologyRef_get_set_ne (fun acc q => rfl)
    topologyRefs topologyRefs_nodup _ r4 h4).1 p (topologyRefs_mem p)
  rw [tail, ← e3]
  exact (Option.some.inj key).symm

/-- Each topology after `UnsafeUnMerge` is the collaborator unmerge of its old value and the
same topology of the other report. -/
theorem UnsafeUnMerge_state_topology {c : Collab} (A B : Report c) (p : TopologyRef) :
    p.get (state (UnsafeUnMerge A B)) = c.topologyUnsafeUnMerge (p.get A) (p.get B) := by
  obtain ⟨res, h⟩ := UnsafeUnMerge_returns A B
  rw [h]
  rw [UnsafeUnMerge_walk, WalkPairedTopologies_refs] at h
  have key := (foldlM_fields (fun (q : TopologyRef) (x : Report c) => q.get x)
    (fun q x v => q.set x v) (fun q t => some (c.topologyUnsafeUnMerge t (q.get B)))
    (fun acc q => unmergeTopology B (some q) (some q) acc)
    topologyRef_get_set topologyRef_get_set_ne (fun acc q => rfl)
    topologyRefs topologyRefs_nodup _ res h).1 p (topologyRefs_mem p)
  have e : p.get ({ A with Window := wrap64 (A.Window - B.Window) } : Report c) = p.get A := by
    cases p <;> rfl
  show p.get res = _
  rw [← e]
  exact (Option.some.inj key).symm

/-- C24. For each of the twelve layers, the topology of `A` after `A.UnsafeMerge(B)` is the
collaborator merge of the old topology of `A` and the topology of `B` for that layer, and
after `A.UnsafeUnMerge(B)` it is the collaborator unmerge of the same pair; a layer is
selected by one name of the registry, so it is processed once, and its result reads no other
layer. -/
theorem C24_topologies_delegated {c : Collab} (A B : Report c) :
    (∀ p : TopologyRef,
      p.get (state (UnsafeMerge A B)) = c.topologyUnsafeMerge (p.get A) (p.get B) ∧
      p.get (state (UnsafeUnMerge A B)) = c.topologyUnsafeUnMerge (p.get A) (p.get B)) ∧
    topologyNames.map topology = topologyRefs.map some ∧
    topologyRefs.Nodup ∧
    (∀ p : TopologyRef, p ∈ topologyRefs) ∧
    (∃ res, UnsafeUnMerge A B = .ok res) :=
  ⟨fun p => ⟨UnsafeMerge_state_topology A B p, UnsafeUnMerge_state_topology A B p⟩,
   by decide, topologyRefs_nodup, topologyRefs_mem, UnsafeUnMerge_returns A B⟩

/-! ## Lemmas on the keys of the sidecars -/

theorem GoMap.mem_keys_iff {V : Type} (m : GoMap V) (k : String) :
    k ∈ m.keys ↔ ∃ v, m.lookup k = some v := by
  cases m with
  | none =>
    constructor
    · intro h; cases h
    · rintro ⟨v, hv⟩; cases hv
  | some a =>
    show k ∈ a.keys ↔ ∃ v, a.lookup k = some v
    rw [← AList.mem_keys, ← AList.lookup_isSome, Option.isSome_iff_exists]

/-- The keys after the completed assignment loop are those of the receiver and those of the
operand. -/
theorem assignAll_keys {V : Type} (t o m : GoMap V)
    (h : List.foldlM (fun t kv => GoMap.assign t kv.1 kv.2) t o.range = some m) (k : String) :
    k ∈ m.keys ↔ k ∈ t.keys ∨ k ∈ o.keys := by
  obtain ⟨h1, h2⟩ := assignAll_overwrite t o m h k
  rw [GoMap.mem_keys_iff, GoMap.mem_keys_iff, GoMap.mem_keys_iff]
  cases ho : o.lookup k with
  | some v =>
    rw [h1 v ho]
    exact ⟨fun _ => Or.inr ⟨v, rfl⟩, fun _ => ⟨v, rfl⟩⟩
  | none =>
    rw [h2 ho]
    constructor
    · intro hx; exact Or.inl hx
    · rintro (hx | ⟨v, hv⟩)
      · exact hx
      · cases hv

/-! ## C26: the keys of the sidecars never shrink -/

theorem state_bind_inv {c : Collab} (P : Report c → Prop)
    (x : Except (Report c) (Report c)) (f : Report c → Except (Report c) (Report c))
    (hx : P (state x)) (hf : ∀ r, P r → P (state (f r))) : P (state (x >>= f)) := by
  cases x with
  | error e => exact hx
  | ok r => exact hf r hx

theorem foldlM_state_inv {c : Collab} {ι : Type} (P : Report c → Prop)
    (step : Report c → ι → Except (Report c) (Report c))
    (h : ∀ acc x, P acc → P (state (step acc x))) :
    ∀ (l : List ι) (acc : Report c), P acc → P (state (l.foldlM step acc)) := by
  intro l
  induction l with
  | nil => intro acc hacc; exact hacc
  | cons x l ih =>
    intro acc hacc
    rw [List.foldlM_cons]
    exact state_bind_inv P _ _ (h acc x hacc) (fun r hr => ih r hr)

/-- A property of the receiver that every step of `UnsafeMerge` preserves holds of the receiver
    after the call, whether the call returned or panicked. -/
theorem UnsafeMerge_state_inv {c : Collab} (P : Report c → Prop) (A B : Report c)
    (h0 : P (mergeScalars A B))
    (hT : ∀ (p : TopologyRef) acc, P acc → P (state (mergeTopology B (some p) (some p) acc)))
    (hA : ∀ (p : AdjacencyRef) acc, P acc → P (state (mergeAdjacency B (some p) (some p) acc)))
    (hP : ∀ (p : ParentsRef) acc, P acc → P (state (mergeParents B (some p) (some p) acc)))
    (hS : ∀ (p : SetsRef) acc, P acc → P (state (mergeSets B (some p) (some p) acc))) :
    P (state (UnsafeMerge A B)) := by
  rw [UnsafeMerge_walks]
  apply state_bind_inv P
  · rw [WalkPairedTopologies_refs]
    exact foldlM_state_inv P _ (fun acc p => hT p acc) _ _ h0
  · intro r4 h4
    apply state_bind_inv P
    · rw [WalkPairedAdjacencies_refs]
      exact foldlM_state_inv P _ (fun acc p => hA p acc) _ _ h4
    · intro r5 h5
      apply state_bind_inv P
      · rw [WalkPairedParents_refs]
        exact foldlM_state_inv P _ (fun acc p => hP p acc) _ _ h5
      · intro r6 h6
        rw [WalkPairedSets_refs]
        exact foldlM_state_inv P _ (fun acc p => hS p acc) _ _ h6

/-- The assignment loop, when it completes, loses no key of the receiver. -/
theorem assignAll_keys_mono {V : Type} (t o m : GoMap V)
    (h : List.foldlM (fun t kv => GoMap.assign t kv.1 kv.2) t o.range = some m) (k : String)
    (hk : k ∈ t.keys) : k ∈ m.keys :=
  (assignAll_keys t o m h k).mpr (Or.inl hk)

/-- A key of an adjacency sidecar is still there after `UnsafeMerge`, returned or panicked. -/
theorem UnsafeMerge_adjacency_keys_mono {c : Collab} (A B : Report c) (p : AdjacencyRef)
    (k : String) (hk : k ∈ (p.get A).keys) : k ∈ (p.get (state (UnsafeMerge A B))).keys := by
  have e3 : p.get (mergeScalars A B) = p.get A :=
    mergeScalars_other (fun x => p.get x) (fun r t => by cases p; rfl)
      (fun r d w => by cases p; rfl) A B
  refine UnsafeMerge_state_inv (fun x => k ∈ (p.get x).keys) A B ?_ ?_ ?_ ?_ ?_
  · show k ∈ GoMap.keys (p.get (mergeScalars A B))
    rw [e3]; exact hk
  · intro q acc hacc
    have e : p.get (state (mergeTopology B (some q) (some q) acc)) = p.get acc :=
      mergeTopology_state (fun x => p.get x) (fun q r v => by cases p; cases q <;> rfl) B _ _ acc
    show k ∈ GoMap.keys (p.get (state (mergeTopology B (some q) (some q) acc)))
    rw [e]; exact hacc
  · intro q acc hacc
    show k ∈ GoMap.keys (p.get (state (mergeAdjacency B (some q) (some q) acc)))
    rw [mergeAdjacency_some]
    cases hm : TopologyAdjacency.UnsafeMerge (q.get acc) (q.get B) with
    | none => exact hacc
    | some m =>
      show k ∈ GoMap.keys (p.get (q.set acc m))
      cases p; cases q
      exact assignAll_keys_mono _ _ _ hm k hacc
  · intro q acc hacc
    have e : p.get (state (mergeParents B (some q) (some q) acc)) = p.get acc :=
      mergeParents_state (fun x => p.get x) (fun q r v => by cases p; cases q <;> rfl) B _ _ acc
    show k ∈ GoMap.keys (p.get (state (mergeParents B (some q) (some q) acc)))
    rw [e]; exact hacc
  · intro q acc hacc
    have e : p.get (state (mergeSets B (some q) (some q) acc)) = p.get acc :=
      mergeSets_state (fun x => p.get x) (fun q r v => by cases p; cases q <;> rfl) B _ _ acc
    show k ∈ GoMap.keys (p.get (state (mergeSets B (some q) (some q) acc)))
    rw [e]; exact hacc

/-- A key of a parents sidecar is still there after `UnsafeMerge`, returned or panicked. -/
theorem UnsafeMerge_parents_keys_mono {c : Collab} (A B : Report c) (p : ParentsRef)
    (k : String) (hk : k ∈ (p.get A).keys) : k ∈ (p.get (state (UnsafeMerge A B))).keys := by
  have e3 : p.get (mergeScalars A B) = p.get A :=
    mergeScalars_other (fun x => p.get x) (fun r t => by cases p <;> rfl)
      (fun r d w => by cases p <;> rfl) A B
  refine UnsafeMerge_state_inv (fun x => k ∈ (p.get x).keys) A B ?_ ?_ ?_ ?_ ?_
  · show k ∈ GoMap.keys (p.get (mergeScalars A B))
    rw [e3]; exact hk
  · intro q acc hacc
    have e : p.get (state (mergeTopology B (some q) (some q) acc)) = p.get acc :=
      mergeTopology_state (fun x => p.get x) (fun q r v => by cases p <;> cases q <;> rfl)
        B _ _ acc
    show k ∈ GoMap.keys (p.get (state (mergeTopology B (some q) (some q) acc)))
    rw [e]; exact hacc
  · intro q acc hacc
    have e : p.get (state (mergeAdjacency B (some q) (some q) acc)) = p.get acc :=
      mergeAdjacency_state (fun x => p.get x) (fun q r v => by cases p <;> cases q <;> rfl)
        B _ _ acc
    show k ∈ GoMap.keys (p.get (state (mergeAdjacency B (some q) (some q) acc)))
    rw [e]; exact hacc
  · intro q acc hacc
    show k ∈ GoMap.keys (p.get (state (mergeParents B (some q) (some q) acc)))
    rw [mergeParents_some]
    cases hm : Parents.UnsafeMerge (q.get acc) (q.get B) with
    | none => exact hacc
    | some m =>
      show k ∈ GoMap.keys (p.get (q.set acc m))
      by_cases hpq : p = q
      · subst hpq
        rw [parentsRef_get_set]
        exact assignAll_keys_mono _ _ _ hm k hacc
      · rw [parentsRef_get_set_ne p q acc m hpq]
        exact hacc
  · intro q acc hacc
    have e : p.get (state (mergeSets B (some q) (some q) acc)) = p.get acc :=
      mergeSets_state (fun x => p.get x) (fun q r v => by cases p <;> cases q <;> rfl) B _ _ acc
    show k ∈ GoMap.keys (p.get (state (mergeSets B (some q) (some q) acc)))
    rw [e]; exact hacc

/-- A key of a sets sidecar is still there after `UnsafeMerge`, returned or panicked. -/
theorem UnsafeMerge_sets_keys_mono {c : Collab} (A B : Report c) (p : SetsRef)
    (k : String) (hk : k ∈ (p.get A).keys) : k ∈ (p.get (state (UnsafeMerge A B))).keys := by
  have e3 : p.get (mergeScalars A B) = p.get A :=
    mergeScalars_other (fun x => p.get x) (fun r t => by cases p <;> rfl)
      (fun r d w => by cases p <;> rfl) A B
  refine UnsafeMerge_state_inv (fun x => k ∈ (p.get x).keys) A B ?_ ?_ ?_ ?_ ?_
  · show k ∈ GoMap.keys (p.get (mergeScalars A B))
    rw [e3]; exact hk
  · intro q acc hacc
    have e : p.get (state (mergeTopology B (some q) (some q) acc)) = p.get acc :=
      mergeTopology_state (fun x => p.get x) (fun q r v => by cases p <;> cases q <;> rfl)
        B _ _ acc
    show k ∈ GoMap.keys (p.get (state (mergeTopology B (some q) (some q) acc)))
    rw [e]; exact hacc
  · intro q acc hacc
    have e : p.get (state (mergeAdjacency B (some q) (some q) acc)) = p.get acc :=
      mergeAdjacency_state (fun x => p.get x) (fun q r v => by cases p <;> cases q <;> rfl)
        B _ _ acc
    show k ∈ GoMap.keys (p.get (state (mergeAdjacency B (some q) (some q) acc)))
    rw [e]; exact hacc
  · intro q acc hacc
    have e : p.get (state (mergeParents B (some q) (some q) acc)) = p.get acc :=
      mergeParents_state (fun x => p.get x) (fun q r v => by cases p <;> cases q <;> rfl)
        B _ _ acc
    show k ∈ GoMap.keys (p.get (state (mergeParents B (some q) (some q) acc)))
    rw [e]; exact hacc
  · intro q acc hacc
    show k ∈ GoMap.keys (p.get (state (mergeSets B (some q) (some q) acc)))
    rw [mergeSets_some]
    cases hm : TopologySets.UnsafeMerge (q.get acc) (q.get B) with
    | none => exact hacc
    | some m =>
      show k ∈ GoMap.keys (p.get (q.set acc m))
      by_cases hpq : p = q
      · subst hpq
        rw [setsRef_get_set]
        exact assignAll_keys_mono _ _ _ hm k hacc
      · rw [setsRef_get_set_ne p q acc m hpq]
        exact hacc

/-- A sidecar is untouched by `UnsafeUnMerge`: the three sidecar walks write every field back
    and the topology walk and the window do not touch it. -/
theorem UnsafeUnMerge_adjacency_same {c : Collab} (A B : Report c) (p : AdjacencyRef) :
    p.get (state (UnsafeUnMerge A B)) = p.get A := by
  rw [UnsafeUnMerge_frame (fun x => p.get x) (fun q r v => by cases p; cases q <;> rfl)]
  cases p; rfl

theorem UnsafeUnMerge_parents_same {c : Collab} (A B : Report c) (p : ParentsRef) :
    p.get (state (UnsafeUnMerge A B)) = p.get A := by
  rw [UnsafeUnMerge_frame (fun x => p.get x) (fun q r v => by cases p <;> cases q <;> rfl)]
  cases p <;> rfl

theorem UnsafeUnMerge_sets_same {c : Collab} (A B : Report c) (p : SetsRef) :
    p.get (state (UnsafeUnMerge A B)) = p.get A := by
  rw [UnsafeUnMerge_frame (fun x => p.get x) (fun q r v => by cases p <;> cases q <;> rfl)]
  cases p <;> rfl

/-- The sidecar keys a report has are kept by one more call. -/
theorem applyCall_keys_mono {c : Collab} (r : Report c) (call : Call c) :
    (∀ (p : AdjacencyRef) (k : String),
      k ∈ (p.get r).keys → k ∈ (p.get (applyCall r call)).keys) ∧
    (∀ (p : ParentsRef) (k : String),
      k ∈ (p.get r).keys → k ∈ (p.get (applyCall r call)).keys) ∧
    (∀ (p : SetsRef) (k : String),
      k ∈ (p.get r).keys → k ∈ (p.get (applyCall r call)).keys) := by
  cases call with
  | merge other =>
    exact ⟨fun p k hk => UnsafeMerge_adjacency_keys_mono r other p k hk,
      fun p k hk => UnsafeMerge_parents_keys_mono r other p k hk,
      fun p k hk => UnsafeMerge_sets_keys_mono r other p k hk⟩
  | unmerge other =>
    refine ⟨fun p k hk => ?_, fun p k hk => ?_, fun p k hk => ?_⟩
    · show k ∈ GoMap.keys (p.get (state (UnsafeUnMerge r other)))
      rw [UnsafeUnMerge_adjacency_same]; exact hk
    · show k ∈ GoMap.keys (p.get (state (UnsafeUnMerge r other)))
      rw [UnsafeUnMerge_parents_same]; exact hk
    · show k ∈ GoMap.keys (p.get (state (UnsafeUnMerge r other)))
      rw [UnsafeUnMerge_sets_same]; exact hk

/-- The sidecar keys a report has are kept by any further sequence of calls. -/
theorem applyCalls_keys_mono {c : Collab} (calls : List (Call c)) :
    ∀ r : Report c,
    (∀ (p : AdjacencyRef) (k : String),
      k ∈ (p.get r).keys → k ∈ (p.get (applyCalls r calls)).keys) ∧
    (∀ (p : ParentsRef) (k : String),
      k ∈ (p.get r).keys → k ∈ (p.get (applyCalls r calls)).keys) ∧
    (∀ (p : SetsRef) (k : String),
      k ∈ (p.get r).keys → k ∈ (p.get (applyCalls r calls)).keys) := by
  induction calls with
  | nil => intro r; exact ⟨fun _ _ h => h, fun _ _ h => h, fun _ _ h => h⟩
  | cons call calls ih =>
    intro r
    obtain ⟨a1, a2, a3⟩ := applyCall_keys_mono r call
    obtain ⟨b1, b2, b3⟩ := ih (applyCall r call)
    exact ⟨fun p k h => b1 p k (a1 p k h), fun p k h => b2 p k (a2 p k h),
      fun p k h => b3 p k (a3 p k h)⟩

/-- C26. For every report and every sequence of `UnsafeMerge` and `UnsafeUnMerge` calls on it
with arbitrary operands, a key that an adjacency, parents or sets sidecar holds after the
first calls of the sequence is in that sidecar after every later call, whether the calls
return or panic; and the sidecar keys of `B` are in the receiver after `B` has been merged
and then unmerged. -/
theorem C26_sidecar_keys_never_shrink {c : Collab} (r : Report c) :
    (∀ (earlier later : List (Call c)),
      (∀ (p : AdjacencyRef) (k : String), k ∈ (p.get (applyCalls r earlier)).keys →
        k ∈ (p.get (applyCalls r (earlier ++ later))).keys) ∧
      (∀ (p : ParentsRef) (k : String), k ∈ (p.get (applyCalls r earlier)).keys →
        k ∈ (p.get (applyCalls r (earlier ++ later))).keys) ∧
      (∀ (p : SetsRef) (k : String), k ∈ (p.get (applyCalls r earlier)).keys →
        k ∈ (p.get (applyCalls r (earlier ++ later))).keys)) ∧
    (∀ (B AB : Report c), UnsafeMerge r B = .ok AB →
      (∃ res, UnsafeUnMerge AB B = .ok res) ∧
      (∀ (p : AdjacencyRef) (k : String), k ∈ (p.get B).keys →
        k ∈ (p.get (applyCalls r [.merge B, .unmerge B])).keys) ∧
      (∀ (p : ParentsRef) (k : String), k ∈ (p.get B).keys →
        k ∈ (p.get (applyCalls r [.merge B, .unmerge B])).keys) ∧
      (∀ (p : SetsRef) (k : String), k ∈ (p.get B).keys →
        k ∈ (p.get (applyCalls r [.merge B, .unmerge B])).keys)) := by
  constructor
  · intro earlier later
    have e : applyCalls r (earlier ++ later) = applyCalls (applyCalls r earlier) later :=
      List.foldl_append _ _ _ _
    rw [e]
    exact applyCalls_keys_mono later (applyCalls r earlier)
  · intro B AB h
    have e : applyCalls r [.merge B, .unmerge B] = state (UnsafeUnMerge AB B) := by
      show state (UnsafeUnMerge (state (UnsafeMerge r B)) B) = _
      rw [h]; rfl
    rw [e]
    refine ⟨UnsafeUnMerge_returns AB B, fun p k hk => ?_, fun p k hk => ?_, fun p k hk => ?_⟩
    · rw [UnsafeUnMerge_adjacency_same]
      exact (assignAll_keys _ _ _ (UnsafeMerge_ok_adjacency r B AB h p) k).mpr (Or.inr hk)
    · rw [UnsafeUnMerge_parents_same]
      exact (assignAll_keys _ _ _ (UnsafeMerge_ok_parents r B AB h p) k).mpr (Or.inr hk)
    · rw [UnsafeUnMerge_sets_same]
      exact (assignAll_keys _ _ _ (UnsafeMerge_ok_sets r B AB h p) k).mpr (Or.inr hk)

/-! ## C22: the names the encoding emits -/

/-- C22, as amended. The encoding that the field tags determine emits the legacy name
`nodes` exactly when the legacy DNS field `BugDNS` is not empty: a report whose `BugDNS` is
empty is encoded without it, and the name `DNS` is emitted exactly when `DNS` is not
empty. -/
theorem C22_nodes_iff_BugDNS_nonempty {c : Collab} (r : Report c) :
    ("nodes" ∈ jsonFieldNames r ↔ c.dnsIsEmpty r.BugDNS = false) ∧
    (c.dnsIsEmpty r.BugDNS = true → "nodes" ∉ jsonFieldNames r) ∧
    ("DNS" ∈ jsonFieldNames r ↔ c.dnsIsEmpty r.DNS = false) := by
  unfold jsonFieldNames
  cases h1 : c.dnsIsEmpty r.BugDNS <;> cases h2 : c.dnsIsEmpty r.DNS <;> simp

/-- Counterexample to C22 as stated: a report whose legacy DNS field holds one record is
encoded with the name `nodes`. -/
theorem C22_counterexample :
    demo.dnsIsEmpty legacyReport.BugDNS = false ∧ "nodes" ∈ jsonFieldNames legacyReport := by
  decide

/-! ## C23: what the walks pass to the operation -/

/-- C23. Each paired walk is the operation `f` run once per name of the registry list of the
walk, in list order, on the reference the selector returns for that name, passed twice (for
the receiver and for the other report); the references are those of the registered fields,
none absent and no two of them equal; `WalkNamedTopologies` runs `f` on each name with the
reference `topology` returns for it. -/
theorem C23_walks_visit_registry {c : Collab} (r : Report c) :
    (∀ f, WalkPairedTopologies r f =
      (topologyNames.map (fun n => (topology n, topology n))).foldlM
        (fun acc a => f a.1 a.2 acc) r) ∧
    (∀ f, WalkPairedAdjacencies r f =
      (topologyAdjacencyNames.map (fun n => (topologyAdjacency n, topologyAdjacency n))).foldlM
        (fun acc a => f a.1 a.2 acc) r) ∧
    (∀ f, WalkPairedParents r f =
      (topologyParentNames.map (fun n => (topologyParent n, topologyParent n))).foldlM
        (fun acc a => f a.1 a.2 acc) r) ∧
    (∀ f, WalkPairedSets r f =
      (topologySetNames.map (fun n => (topologySet n, topologySet n))).foldlM
        (fun acc a => f a.1 a.2 acc) r) ∧
    (∀ f, WalkNamedTopologies r f =
      (topologyNames.map (fun n => (n, topology n))).foldlM (fun acc a => f a.1 a.2 acc) r) ∧
    topologyNames.map (fun n => (topology n, topology n)) =
      topologyRefs.map (fun p => (some p, some p)) ∧
    topologyAdjacencyNames.map (fun n => (topologyAdjacency n, topologyAdjacency n)) =
      adjacencyRefs.map (fun p => (some p, some p)) ∧
    topologyParentNames.map (fun n => (topologyParent n, topologyParent n)) =
      parentsRefs.map (fun p => (some p, some p)) ∧
    topologySetNames.map (fun n => (topologySet n, topologySet n)) =
      setsRefs.map (fun p => (some p, some p)) ∧
    (topologyNames.Nodup ∧ topologyAdjacencyNames.Nodup ∧ topologyParentNames.Nodup ∧
      topologySetNames.Nodup) ∧
    (topologyRefs.Nodup ∧ adjacencyRefs.Nodup ∧ parentsRefs.Nodup ∧ setsRefs.Nodup) := by
  refine ⟨fun f => ?_, fun f => ?_, fun f => ?_, fun f => ?_, fun f => ?_, by decide, by decide,
    by decide, by decide, ⟨by decide, by decide, by decide, by decide⟩,
    ⟨topologyRefs_nodup, adjacencyRefs_nodup, parentsRefs_nodup, setsRefs_nodup⟩⟩
  · unfold WalkPairedTopologies; rw [List.foldlM_map]
  · unfold WalkPairedAdjacencies; rw [List.foldlM_map]
  · unfold WalkPairedParents; rw [List.foldlM_map]
  · unfold WalkPairedSets; rw [List.foldlM_map]
  · unfold WalkNamedTopologies; rw [List.foldlM_map]

/-! ## C27: AddAdjacency -/

/-- C27, as amended. On an allocated adjacency map `AddAdjacency` returns and the map stays
allocated; when the node had no entry, its entry is then the list `MakeIDList` makes of the
identifier; the entries of all other keys are what they were. -/
theorem C27_AddAdjacency {c : Collab} (t : TopologyAdjacency c) (n id : String)
    (ht : t.isNil = false) :
    ∃ t2, t.AddAdjacency n id = some t2 ∧ t2.isNil = false ∧
      (t.lookup n = none → t2.lookup n = some (c.MakeIDList id)) ∧
      (∀ k, k ≠ n → t2.lookup k = t.lookup k) := by
  cases t with
  | none => cases ht
  | some a =>
    unfold TopologyAdjacency.AddAdjacency
    cases h : GoMap.lookup (some a : TopologyAdjacency c) n with
    | some l =>
      refine ⟨some a, rfl, rfl, fun h2 => ?_, fun k _ => rfl⟩
      cases h2
    | none =>
      refine ⟨some (a.insert n (c.MakeIDList id)), rfl, rfl, fun _ => ?_, fun k hk => ?_⟩
      · exact AList.lookup_insert a
      · exact AList.lookup_insert_ne hk

/-- Witness of C27: the node `e9` is added to an adjacency map that holds `e1` only. -/
theorem C27_AddAdjacency_witness :
    GoMap.isNil (some (AList.singleton "e1" ["e2"]) : TopologyAdjacency demo) = false ∧
    ∃ t2, TopologyAdjacency.AddAdjacency
        (some (AList.singleton "e1" ["e2"]) : TopologyAdjacency demo) "e9" "e3" = some t2 ∧
      t2.lookup "e9" = some ["e3"] ∧ t2.lookup "e1" = some ["e2"] := by
  obtain ⟨t2, h, -, h1, h2⟩ := C27_AddAdjacency
    (some (AList.singleton "e1" ["e2"]) : TopologyAdjacency demo) "e9" "e3" rfl
  refine ⟨rfl, t2, h, h1 rfl, ?_⟩
  rw [h2 "e1" (by decide)]
  rfl

/-- Counterexample to C27 as stated: on the nil adjacency map the call panics, so no list is
stored at the node. -/
theorem C27_counterexample :
    TopologyAdjacency.AddAdjacency (none : TopologyAdjacency demo) "e9" "e3" = none := rfl

/-! ## C30: the selectors are injective and the fields are separate -/

/-- A function whose image of a list has no duplicate takes different values at different
members of the list. -/
theorem map_nodup_ne {α β : Type} (sel : α → β) (l : List α) (h : (l.map sel).Nodup) :
    ∀ a ∈ l, ∀ b ∈ l, a ≠ b → sel a ≠ sel b :=
  fun _ ha _ hb hab heq => hab (List.inj_on_of_nodup_map h ha hb heq)

/-- C30. Each selector returns a reference for every name of its registry list and different
references for different names of the list; a write through a reference is read back
through it, leaves what every other reference of the same kind reads unchanged, and leaves
what every reference of the three other kinds reads unchanged; and every reference is what
its selector returns for exactly one registered name. -/
theorem C30_selectors_injective {c : Collab} (r : Report c) :
    ((∀ a ∈ topologyNames, ∀ b ∈ topologyNames, a ≠ b → topology a ≠ topology b) ∧
     (∀ a ∈ topologyAdjacencyNames, ∀ b ∈ topologyAdjacencyNames, a ≠ b →
        topologyAdjacency a ≠ topologyAdjacency b) ∧
     (∀ a ∈ topologyParentNames, ∀ b ∈ topologyParentNames, a ≠ b →
        topologyParent a ≠ topologyParent b) ∧
     (∀ a ∈ topologySetNames, ∀ b ∈ topologySetNames, a ≠ b →
        topologySet a ≠ topologySet b)) ∧
    ((∀ a ∈ topologyNames, (topology a).isSome = true) ∧
     (∀ a ∈ topologyAdjacencyNames, (topologyAdjacency a).isSome = true) ∧
     (∀ a ∈ topologyParentNames, (topologyParent a).isSome = true) ∧
     (∀ a ∈ topologySetNames, (topologySet a).isSome = true)) ∧
    ((∀ (p : TopologyRef) v, p.get (p.set r v) = v) ∧
     (∀ (p : AdjacencyRef) v, p.get (p.set r v) = v) ∧
     (∀ (p : ParentsRef) v, p.get (p.set r v) = v) ∧
     (∀ (p : SetsRef) v, p.get (p.set r v) = v)) ∧
    ((∀ (p q : TopologyRef) v, p ≠ q → p.get (q.set r v) = p.get r) ∧
     (∀ (p q : AdjacencyRef) v, p ≠ q → p.get (q.set r v) = p.get r) ∧
     (∀ (p q : ParentsRef) v, p ≠ q → p.get (q.set r v) = p.get r) ∧
     (∀ (p q : SetsRef) v, p ≠ q → p.get (q.set r v) = p.get r)) ∧
    (∀ (q : TopologyRef) v,
      (∀ p : AdjacencyRef, p.get (q.set r v) = p.get r) ∧
      (∀ p : ParentsRef, p.get (q.set r v) = p.get r) ∧
      (∀ p : SetsRef, p.get (q.set r v) = p.get r)) ∧
    (∀ (q : AdjacencyRef) v,
      (∀ p : TopologyRef, p.get (q.set r v) = p.get r) ∧
      (∀ p : ParentsRef, p.get (q.set r v) = p.get r) ∧
      (∀ p : SetsRef, p.get (q.set r v) = p.get r)) ∧
    (∀ (q : ParentsRef) v,
      (∀ p : TopologyRef, p.get (q.set r v) = p.get r) ∧
      (∀ p : AdjacencyRef, p.get (q.set r v) = p.get r) ∧
      (∀ p : SetsRef, p.get (q.set r v) = p.get r)) ∧
    (∀ (q : SetsRef) v,
      (∀ p : TopologyRef, p.get (q.set r v) = p.get r) ∧
      (∀ p : AdjacencyRef, p.get (q.set r v) = p.get r) ∧
      (∀ p : ParentsRef, p.get (q.set r v) = p.get r)) ∧
    ((∀ p : TopologyRef, ∃ n ∈ topologyNames, topology n = some p ∧
        ∀ m ∈ topologyNames, topology m = some p → m = n) ∧
     (∀ p : AdjacencyRef, ∃ n ∈ topologyAdjacencyNames, topologyAdjacency n = some p ∧
        ∀ m ∈ topologyAdjacencyNames, topologyAdjacency m = some p → m = n) ∧
     (∀ p : ParentsRef, ∃ n ∈ topologyParentNames, topologyParent n = some p ∧
        ∀ m ∈ topologyParentNames, topologyParent m = some p → m = n) ∧
     (∀ p : SetsRef, ∃ n ∈ topologySetNames, topologySet n = some p ∧
        ∀ m ∈ topologySetNames, topologySet m = some p → m = n)) := by
  have nT : (topologyNames.map topology).Nodup := by decide
  have nA : (topologyAdjacencyNames.map topologyAdjacency).Nodup := by decide
  have nP : (topologyParentNames.map topologyParent).Nodup := by decide
  have nS : (topologySetNames.map topologySet).Nodup := by decide
  have one : ∀ {α : Type} (sel : String → Option α) (l : List String),
      (l.map sel).Nodup → ∀ p, some p ∈ l.map sel →
      ∃ n ∈ l, sel n = some p ∧ ∀ m ∈ l, sel m = some p → m = n := by
    intro α sel l hl p hp
    obtain ⟨n, hn, hnp⟩ := List.mem_map.mp hp
    exact ⟨n, hn, hnp, fun m hm hmp => List.inj_on_of_nodup_map hl hm hn (hmp.trans hnp.symm)⟩
  refine ⟨⟨map_nodup_ne _ _ nT, map_nodup_ne _ _ nA, map_nodup_ne _ _ nP, map_nodup_ne _ _ nS⟩,
    ⟨topology_registered, topologyAdjacency_registered, topologyParent_registered,
      topologySet_registered⟩,
    ⟨fun p v => topologyRef_get_set p r v, fun p v => adjacencyRef_get_set p r v,
      fun p v => parentsRef_get_set p r v, fun p v => setsRef_get_set p r v⟩,
    ⟨fun p q v h => topologyRef_get_set_ne p q r v h,
      fun p q v h => adjacencyRef_get_set_ne p q r v h,
      fun p q v h => parentsRef_get_set_ne p q r v h,
      fun p q v h => setsRef_get_set_ne p q r v h⟩,
    fun q v => ⟨fun p => ?_, fun p => ?_, fun p => ?_⟩,
    fun q v => ⟨fun p => ?_, fun p => ?_, fun p => ?_⟩,
    fun q v => ⟨fun p => ?_, fun p => ?_, fun p => ?_⟩,
    fun q v => ⟨fun p => ?_, fun p => ?_, fun p => ?_⟩,
    ⟨fun p => one topology _ nT p ?_, fun p => one topologyAdjacency _ nA p ?_,
      fun p => one topologyParent _ nP p ?_, fun p => one topologySet _ nS p ?_⟩⟩
  all_goals first
    | (cases p <;> cases q <;> rfl)
    | (cases p <;> decide)

/-! ## Lemmas on sums of windows -/

theorem wrap64_wrap64_add (x y : Int) : wrap64 (wrap64 x + y) = wrap64 (x + y) := by
  unfold wrap64
  omega

/-! ## C31: what a merge does not carry over -/

/-- C31. `A.UnsafeMerge(B)` leaves the shortcut flag, the identifier and the legacy DNS field
of `A` as they were, whether the call returned or panicked, whatever `B` holds in them; a
report that is not a shortcut report stays one when a shortcut report is merged into it. -/
theorem C31_merge_keeps_shortcut_id_legacy {c : Collab} (A B : Report c) :
    (state (UnsafeMerge A B)).Shortcut = A.Shortcut ∧
    (state (UnsafeMerge A B)).ID = A.ID ∧
    (state (UnsafeMerge A B)).BugDNS = A.BugDNS ∧
    (∀ res, UnsafeMerge A B = .ok res →
      res.Shortcut = A.Shortcut ∧ res.ID = A.ID ∧ res.BugDNS = A.BugDNS) ∧
    (A.Shortcut = false → B.Shortcut = true → (state (UnsafeMerge A B)).Shortcut = false) := by
  have key : ∀ {β : Type} (g : Report c → β),
      (∀ (p : TopologyRef) (r : Report c) v, g (p.set r v) = g r) →
      (∀ (p : AdjacencyRef) (r : Report c) v, g (p.set r v) = g r) →
      (∀ (p : ParentsRef) (r : Report c) v, g (p.set r v) = g r) →
      (∀ (p : SetsRef) (r : Report c) v, g (p.set r v) = g r) →
      (∀ (r : Report c) t, g { r with TS := t } = g r) →
      (∀ (r : Report c) d w, g { r with DNS := d, Window := w } = g r) →
      g (state (UnsafeMerge A B)) = g A := by
    intro β g hT hA hP hS hTS hDW
    rw [UnsafeMerge_frame g hT hA hP hS, mergeScalars_other g hTS hDW]
  have h1 : (state (UnsafeMerge A B)).Shortcut = A.Shortcut :=
    key (fun x => x.Shortcut) (fun p r v => by cases p <;> rfl) (fun p r v => by cases p; rfl)
      (fun p r v => by cases p <;> rfl) (fun p r v => by cases p <;> rfl)
      (fun r t => rfl) (fun r d w => rfl)
  have h2 : (state (UnsafeMerge A B)).ID = A.ID :=
    key (fun x => x.ID) (fun p r v => by cases p <;> rfl) (fun p r v => by cases p; rfl)
      (fun p r v => by cases p <;> rfl) (fun p r v => by cases p <;> rfl)
      (fun r t => rfl) (fun r d w => rfl)
  have h3 : (state (UnsafeMerge A B)).BugDNS = A.BugDNS :=
    key (fun x => x.BugDNS) (fun p r v => by cases p <;> rfl) (fun p r v => by cases p; rfl)
      (fun p r v => by cases p <;> rfl) (fun p r v => by cases p <;> rfl)
      (fun r t => rfl) (fun r d w => rfl)
  refine ⟨h1, h2, h3, fun res h => ?_, fun hA _ => h1.trans hA⟩
  rw [h] at h1 h2 h3
  exact ⟨h1, h2, h3⟩

/-! ## C21: a list of reports merged into a clean report -/

/-- What `earliest` keeps: one of its arguments; zero only when both are zero; and no
non-zero argument is before it. -/
theorem earliest_spec (a b : Time) :
    (earliest a b = a ∨ earliest a b = b) ∧
    ((earliest a b).IsZero = true ↔ a.IsZero = true ∧ b.IsZero = true) ∧
    (a.IsZero = false → a.Before (earliest a b) = false) ∧
    (b.IsZero = false → b.Before (earliest a b) = false) := by
  unfold earliest
  cases hb : b.IsZero <;> cases ha : a.IsZero <;> cases hlt : b.Before a <;>
    simp [hb, ha, hlt, Time.before_irrefl]
  exact Time.before_asymm _ _ hlt

/-- On a list that `Before` orders linearly, not being before is transitive. -/
theorem Time.not_before_trans (ts : List Time) (h : Time.linearlyOrdered ts) (a b d : Time)
    (ha : a ∈ ts) (hb : b ∈ ts) (hd : d ∈ ts)
    (h1 : a.Before b = false) (h2 : b.Before d = false) : a.Before d = false := by
  cases had : a.Before d with
  | false => rfl
  | true =>
    exfalso
    by_cases hab : a = b
    · rw [hab] at had
      rw [had] at h2
      cases h2
    · rcases h.2 a ha b hb hab with h3 | h3
      · rw [h3] at h1
        cases h1
      · have := h.1 b hb a ha d hd h3 had
        rw [this] at h2
        cases h2

/-- On a list that `Before` orders linearly, two instants of which none is before the other
are the same instant. -/
theorem Time.eq_of_not_before (ts : List Time) (h : Time.linearlyOrdered ts) (a b : Time)
    (ha : a ∈ ts) (hb : b ∈ ts)
    (h1 : a.Before b = false) (h2 : b.Before a = false) : a = b := by
  by_contra hne
  rcases h.2 a ha b hb hne with h3 | h3
  · rw [h3] at h1
    cases h1
  · rw [h3] at h2
    cases h2

/-- `Before` orders every list of times without a monotonic clock reading linearly. -/
theorem Time.linearlyOrdered_of_wall (ts : List Time)
    (h : ∀ t ∈ ts, ∃ s n, t = Time.wall s n) : Time.linearlyOrdered ts := by
  constructor
  · intro a ha b hb d hd
    obtain ⟨s1, n1, e1⟩ := h a ha
    obtain ⟨s2, n2, e2⟩ := h b hb
    obtain ⟨s3, n3, e3⟩ := h d hd
    rw [e1, e2, e3]
    simp only [Time.Before, Time.sec, Time.nsec, Bool.or_eq_true, Bool.and_eq_true,
      decide_eq_true_eq, beq_iff_eq]
    omega
  · intro a ha b hb
    obtain ⟨s1, n1, e1⟩ := h a ha
    obtain ⟨s2, n2, e2⟩ := h b hb
    rw [e1, e2]
    intro hne
    have hne2 : ¬ (s1 = s2 ∧ n1 = n2) := fun e => hne (by rw [e.1, e.2])
    simp only [Time.Before, Time.sec, Time.nsec, Bool.or_eq_true, Bool.and_eq_true,
      decide_eq_true_eq, beq_iff_eq]
    omega

/-- The instant a fold of `earliest` ends with is the start or a member of the list, and is
zero only when the start and every member are zero. -/
theorem foldl_earliest_mem (ts : List Time) :
    ∀ a : Time,
      (ts.foldl earliest a = a ∨ ts.foldl earliest a ∈ ts) ∧
      ((ts.foldl earliest a).IsZero = true ↔ a.IsZero = true ∧ ∀ t ∈ ts, t.IsZero = true) := by
  induction ts with
  | nil =>
    intro a
    refine ⟨Or.inl rfl, ?_⟩
    show a.IsZero = true ↔ _
    exact ⟨fun h => ⟨h, fun t ht => absurd ht (List.not_mem_nil t)⟩, fun h => h.1⟩
  | cons b ts ih =>
    intro a
    obtain ⟨e1, e2, -, -⟩ := earliest_spec a b
    obtain ⟨i1, i2⟩ := ih (earliest a b)
    show (ts.foldl earliest (earliest a b) = a ∨ ts.foldl earliest (earliest a b) ∈ b :: ts) ∧
      ((ts.foldl earliest (earliest a b)).IsZero = true ↔
        a.IsZero = true ∧ ∀ t ∈ b :: ts, t.IsZero = true)
    refine ⟨?_, ?_⟩
    · rcases i1 with h | h
      · rcases e1 with h2 | h2
        · exact Or.inl (h.trans h2)
        · exact Or.inr (by rw [h, h2]; exact List.mem_cons_self _ _)
      · exact Or.inr (List.mem_cons_of_mem _ h)
    · rw [i2, e2]
      constructor
      · rintro ⟨⟨ha, hb⟩, hts⟩
        refine ⟨ha, fun t ht => ?_⟩
        rcases List.mem_cons.mp ht with h | h
        · rw [h]; exact hb
        · exact hts t h
      · rintro ⟨ha, hts⟩
        exact ⟨⟨ha, hts b (List.mem_cons_self _ _)⟩,
          fun t ht => hts t (List.mem_cons_of_mem _ ht)⟩

/-- On instants that `Before` orders linearly, neither the start nor a member of the list,
when non-zero, is before the instant the fold of `earliest` ends with. -/
theorem foldl_earliest_least (L : List Time) (hL : Time.linearlyOrdered L) (ts : List Time) :
    ∀ a : Time, (a.IsZero = true ∨ a ∈ L) → (∀ t ∈ ts, t ∈ L) →
      (a.IsZero = false → a.Before (ts.foldl earliest a) = false) ∧
      (∀ t ∈ ts, t.IsZero = false → t.Before (ts.foldl earliest a) = false) := by
  induction ts with
  | nil =>
    intro a _ _
    exact ⟨fun _ => Time.before_irrefl a, fun t ht => absurd ht (List.not_mem_nil t)⟩
  | cons b ts ih =>
    intro a haL hts
    have hbL : b ∈ L := hts b (List.mem_cons_self _ _)
    have htsL : ∀ t ∈ ts, t ∈ L := fun t ht => hts t (List.mem_cons_of_mem _ ht)
    obtain ⟨e1, e2, e3, e4⟩ := earliest_spec a b
    have heL : (earliest a b).IsZero = true ∨ earliest a b ∈ L := by
      rcases e1 with h | h
      · rw [h]; exact haL
      · rw [h]; exact Or.inr hbL
    obtain ⟨i3, i4⟩ := ih (earliest a b) heL htsL
    obtain ⟨m1, -⟩ := foldl_earliest_mem ts (earliest a b)
    show (a.IsZero = false → a.Before (ts.foldl earliest (earliest a b)) = false) ∧
      (∀ t ∈ b :: ts, t.IsZero = false → t.Before (ts.foldl earliest (earliest a b)) = false)
    have low : ∀ x : Time, (x = a ∨ x = b) → x.IsZero = false →
        x.Before (earliest a b) = false →
        x.Before (ts.foldl earliest (earliest a b)) = false := by
      intro x hab hx hxe
      cases hz : (earliest a b).IsZero with
      | true =>
        exfalso
        obtain ⟨za, zb⟩ := e2.mp hz
        rcases hab with h | h
        · rw [h, za] at hx; cases hx
        · rw [h, zb] at hx; cases hx
      | false =>
        have hxL : x ∈ L := by
          rcases hab with h | h
          · rcases haL with hz2 | hm
            · rw [h, hz2] at hx; cases hx
            · rw [h]; exact hm
          · rw [h]; exact hbL
        have heL2 : earliest a b ∈ L := by
          rcases heL with hz2 | hm
          · rw [hz2] at hz; cases hz
          · exact hm
        have hmL : ts.foldl earliest (earliest a b) ∈ L := by
          rcases m1 with h | h
          · rw [h]; exact heL2
          · exact htsL _ h
        exact Time.not_before_trans L hL _ _ _ hxL heL2 hmL hxe (i3 hz)
    refine ⟨fun ha => low a (Or.inl rfl) ha (e3 ha), ?_⟩
    intro t ht hz
    rcases List.mem_cons.mp ht with h | h
    · rw [h] at hz ⊢
      exact low b (Or.inr rfl) hz (e4 hz)
    · exact i4 t h hz

/-- A receiver whose sidecar maps are all allocated keeps them allocated through a merge. -/
theorem UnsafeMerge_keeps_allocated {c : Collab} (A B res : Report c)
    (h : UnsafeMerge A B = .ok res)
    (hA : ∀ p : AdjacencyRef, (p.get A).isNil = false)
    (hP : ∀ p : ParentsRef, (p.get A).isNil = false)
    (hS : ∀ p : SetsRef, (p.get A).isNil = false) :
    (∀ p : AdjacencyRef, (p.get res).isNil = false) ∧
    (∀ p : ParentsRef, (p.get res).isNil = false) ∧
    (∀ p : SetsRef, (p.get res).isNil = false) := by
  have alloc : ∀ {V : Type} (m o m2 : GoMap V), m.isNil = false →
      List.foldlM (fun t kv => GoMap.assign t kv.1 kv.2) m o.range = some m2 →
      m2.isNil = false := by
    intro V m o m2 hm h2
    cases m with
    | none => cases hm
    | some a =>
      obtain ⟨a2, h3⟩ := assignAll_allocated a o
      rw [h3] at h2
      cases h2
      rfl
  exact ⟨fun p => alloc _ _ _ (hA p) (UnsafeMerge_ok_adjacency A B res h p),
    fun p => alloc _ _ _ (hP p) (UnsafeMerge_ok_parents A B res h p),
    fun p => alloc _ _ _ (hS p) (UnsafeMerge_ok_sets A B res h p)⟩

/-- Merging a list of reports, one after another, into a receiver whose sidecar maps are
allocated returns; the window is the wrapped sum and the timestamp the fold of `earliest`. -/
theorem mergeAll_spec {c : Collab} (rs : List (Report c)) :
    ∀ A : Report c, isInt64 A.Window →
      (∀ p : AdjacencyRef, (p.get A).isNil = false) →
      (∀ p : ParentsRef, (p.get A).isNil = false) →
      (∀ p : SetsRef, (p.get A).isNil = false) →
      ∃ res, mergeAll A rs = .ok res ∧
        res.Window = wrap64 (A.Window + (rs.map (fun r => r.Window)).sum) ∧
        res.TS = (rs.map (fun r => r.TS)).foldl earliest A.TS := by
  induction rs with
  | nil =>
    intro A hW _ _ _
    refine ⟨A, rfl, ?_, rfl⟩
    show A.Window = wrap64 (A.Window + 0)
    rw [Int.add_zero, wrap64_of_isInt64 _ hW]
  | cons B rs ih =>
    intro A _ hA hP hS
    obtain ⟨AB, h⟩ := UnsafeMerge_returns A B hA hP hS
    obtain ⟨kA, kP, kS⟩ := UnsafeMerge_keeps_allocated A B AB h hA hP hS
    have kW : isInt64 AB.Window := by
      rw [UnsafeMerge_ok_Window A B AB h]
      exact wrap64_isInt64 _
    obtain ⟨res, h1, h2, h3⟩ := ih AB kW kA kP kS
    refine ⟨res, ?_, ?_, ?_⟩
    · show (UnsafeMerge A B >>= fun r => mergeAll r rs) = _
      rw [h]; exact h1
    · rw [h2, UnsafeMerge_ok_Window A B AB h, wrap64_wrap64_add]
      show _ = wrap64 (A.Window + (B.Window + (rs.map (fun r => r.Window)).sum))
      rw [Int.add_assoc]
    · rw [h3, UnsafeMerge_ok_TS A B AB h]
      rfl

/-- On a list that `Before` orders linearly, the fold of `earliest` from the zero instant
does not depend on the order of the list. -/
theorem foldl_earliest_perm (ts us : List Time) (h : ts.Perm us)
    (hL : Time.linearlyOrdered ts) :
    ts.foldl earliest Time.zero = us.foldl earliest Time.zero := by
  obtain ⟨a1, a2⟩ := foldl_earliest_mem ts Time.zero
  obtain ⟨b1, b2⟩ := foldl_earliest_mem us Time.zero
  obtain ⟨-, a4⟩ := foldl_earliest_least ts hL ts Time.zero (Or.inl rfl) (fun t ht => ht)
  obtain ⟨-, b4⟩ := foldl_earliest_least ts hL us Time.zero (Or.inl rfl)
    (fun t ht => h.mem_iff.mpr ht)
  cases hz : (ts.foldl earliest Time.zero).IsZero with
  | true =>
    have hall := (a2.mp hz).2
    have hz2 : (us.foldl earliest Time.zero).IsZero = true :=
      b2.mpr ⟨rfl, fun t ht => hall t (h.mem_iff.mpr ht)⟩
    rw [(Time.isZero_iff _).mp hz, (Time.isZero_iff _).mp hz2]
  | false =>
    have hz2 : (us.foldl earliest Time.zero).IsZero = false := by
      cases hu : (us.foldl earliest Time.zero).IsZero with
      | false => rfl
      | true =>
        have hall := (b2.mp hu).2
        have := a2.mpr ⟨rfl, fun t ht => hall t (h.mem_iff.mp ht)⟩
        rw [hz] at this
        cases this
    have m1 : ts.foldl earliest Time.zero ∈ ts := by
      rcases a1 with e | e
      · rw [e] at hz; cases hz
      · exact e
    have m2 : us.foldl earliest Time.zero ∈ us := by
      rcases b1 with e | e
      · rw [e] at hz2; cases hz2
      · exact e
    exact Time.eq_of_not_before ts hL _ _ m1 (h.mem_iff.mpr m2)
      (b4 _ (h.mem_iff.mp m1) hz) (a4 _ (h.mem_iff.mpr m2) hz2)

/-- C21, as amended. A list of reports merged one after another, in order, into a report made
by `MakeReport`: every merge returns; the window of the running report is the sum of the
windows of the list as a 64-bit integer (the sum itself when that is a 64-bit integer),
whatever the order of the list; its timestamp is zero when all timestamps of the list are
zero and otherwise a non-zero timestamp of the list.  When `Before` orders the timestamps of
the list linearly, as it does when none carries a monotonic clock reading, no non-zero
timestamp of the list is before the timestamp of the running report, and that timestamp is
the same for every reordering of the list.  Three reports with windows of ten seconds give a
window of thirty seconds. -/
theorem C21_merge_sequence {c : Collab} (id : String) (rs : List (Report c)) :
    ∃ res, mergeAll (MakeReport c id) rs = .ok res ∧
      res.Window = wrap64 (rs.map (fun r => r.Window)).sum ∧
      (isInt64 (rs.map (fun r => r.Window)).sum →
        res.Window = (rs.map (fun r => r.Window)).sum) ∧
      ((∀ r ∈ rs, r.TS.IsZero = true) → res.TS = Time.zero) ∧
      ((∃ r ∈ rs, r.TS.IsZero = false) →
        res.TS.IsZero = false ∧ ∃ r ∈ rs, r.TS = res.TS) ∧
      (∀ rs2, rs.Perm rs2 → ∃ res2, mergeAll (MakeReport c id) rs2 = .ok res2 ∧
        res2.Window = res.Window) ∧
      (Time.linearlyOrdered (rs.map (fun r => r.TS)) →
        (∀ r ∈ rs, r.TS.IsZero = false → r.TS.Before res.TS = false) ∧
        (∀ rs2, rs.Perm rs2 → ∃ res2, mergeAll (MakeReport c id) rs2 = .ok res2 ∧
          res2.TS = res.TS)) ∧
      ((∀ r ∈ rs, ∃ s n, r.TS = Time.wall s n) →
        Time.linearlyOrdered (rs.map (fun r => r.TS))) ∧
      (∀ r1 r2 r3, rs = [r1, r2, r3] → r1.Window = 10000000000 → r2.Window = 10000000000 →
        r3.Window = 10000000000 →
        res.Window = 30000000000 ∧
        res.TS = earliest (earliest (earliest Time.zero r1.TS) r2.TS) r3.TS) := by
  have main : ∀ l : List (Report c), ∃ res, mergeAll (MakeReport c id) l = .ok res ∧
      res.Window = wrap64 (l.map (fun r => r.Window)).sum ∧
      res.TS = (l.map (fun r => r.TS)).foldl earliest Time.zero := by
    intro l
    obtain ⟨res, h1, h2, h3⟩ := mergeAll_spec l (MakeReport c id)
      (show isInt64 (0 : Int) by decide)
      (fun p => by cases p; rfl) (fun p => by cases p <;> rfl) (fun p => by cases p <;> rfl)
    refine ⟨res, h1, ?_, h3⟩
    rw [h2]
    show wrap64 (0 + _) = _
    rw [Int.zero_add]
  obtain ⟨res, h1, h2, h3⟩ := main rs
  obtain ⟨s1, s2⟩ := foldl_earliest_mem (rs.map (fun r => r.TS)) Time.zero
  rw [← h3] at s1 s2
  refine ⟨res, h1, h2, fun hs => by rw [h2, wrap64_of_isInt64 _ hs], ?_, ?_, ?_, ?_, ?_, ?_⟩
  · intro hall
    refine (Time.isZero_iff _).mp (s2.mpr ⟨rfl, fun t ht => ?_⟩)
    obtain ⟨r, hr, hrt⟩ := List.mem_map.mp ht
    rw [← hrt]
    exact hall r hr
  · rintro ⟨r, hr, hrz⟩
    have hz : res.TS.IsZero = false := by
      cases hq : res.TS.IsZero with
      | false => rfl
      | true =>
        have := (s2.mp hq).2 r.TS (List.mem_map.mpr ⟨r, hr, rfl⟩)
        rw [hrz] at this
        cases this
    refine ⟨hz, ?_⟩
    rcases s1 with e | e
    · rw [e] at hz; cases hz
    · obtain ⟨r2, hr2, e2⟩ := List.mem_map.mp e
      exact ⟨r2, hr2, e2⟩
  · intro rs2 hp
    obtain ⟨res2, k1, k2, -⟩ := main rs2
    refine ⟨res2, k1, ?_⟩
    rw [k2, h2, (hp.map (fun r => r.Window)).sum_eq]
  · intro hL
    obtain ⟨-, s4⟩ := foldl_earliest_least _ hL (rs.map (fun r => r.TS)) Time.zero
      (Or.inl rfl) (fun t ht => ht)
    rw [← h3] at s4
    refine ⟨fun r2 hr2 hz2 => s4 r2.TS (List.mem_map.mpr ⟨r2, hr2, rfl⟩) hz2, ?_⟩
    intro rs2 hp
    obtain ⟨res2, k1, -, k3⟩ := main rs2
    refine ⟨res2, k1, ?_⟩
    rw [k3, h3]
    exact (foldl_earliest_perm _ _ (hp.map (fun r => r.TS)) hL).symm
  · intro hw
    apply Time.linearlyOrdered_of_wall
    intro t ht
    obtain ⟨r, hr, hrt⟩ := List.mem_map.mp ht
    rw [← hrt]
    exact hw r hr
  · intro r1 r2 r3 hrs w1 w2 w3
    subst hrs
    refine ⟨?_, h3⟩
    rw [h2]
    show wrap64 (r1.Window + (r2.Window + (r3.Window + 0))) = _
    rw [w1, w2, w3]
    decide

/-- Witness of C21: three reports whose timestamps carry no monotonic clock reading; the
running report ends with the earliest of them and a window of thirty. -/
theorem C21_merge_sequence_witness :
    Time.linearlyOrdered ([stamped (.wall 300 0), stamped (.wall 100 0),
      stamped (.wall 200 0)].map (fun r => r.TS)) ∧
    ∃ res, mergeAll (MakeReport demo "m")
        [stamped (.wall 300 0), stamped (.wall 100 0), stamped (.wall 200 0)] = .ok res ∧
      res.Window = 30 ∧ res.TS = .wall 100 0 ∧
      (∀ r ∈ [stamped (.wall 300 0), stamped (.wall 100 0), stamped (.wall 200 0)],
        r.TS.IsZero = false → r.TS.Before res.TS = false) := by
  obtain ⟨res, h, hw, -, -, -, -, hl, -, -⟩ := C21_merge_sequence (c := demo) "m"
    [stamped (.wall 300 0), stamped (.wall 100 0), stamped (.wall 200 0)]
  have e : mergeAll (MakeReport demo "m")
      [stamped (.wall 300 0), stamped (.wall 100 0), stamped (.wall 200 0)]
      = .ok (state (mergeAll (MakeReport demo "m")
        [stamped (.wall 300 0), stamped (.wall 100 0), stamped (.wall 200 0)])) := rfl
  have e2 : res = state (mergeAll (MakeReport demo "m")
      [stamped (.wall 300 0), stamped (.wall 100 0), stamped (.wall 200 0)]) := by
    rw [e] at h
    exact (Except.ok.inj h).symm
  refine ⟨by decide, res, h, ?_, ?_, (hl (by decide)).1⟩
  · rw [hw]; decide
  · rw [e2]; rfl

/-- Counterexample to C21 as stated: the timestamps `t1` and `t2` carry monotonic clock
readings, `t3` carries none, and `Before` is not transitive on them.  Merged in the order
`t1`, `t2`, `t3` the running report ends with `t3`, which the non-zero timestamp `t2` of
the list is before; merged in the reverse order it ends with `t1`. -/
theorem C21_counterexample :
    (state (mergeAll (MakeReport demo "m") [stamped t1, stamped t2, stamped t3])).TS = t3 ∧
    (stamped t2).TS.IsZero = false ∧
    (stamped t2).TS.Before
      (state (mergeAll (MakeReport demo "m") [stamped t1, stamped t2, stamped t3])).TS = true ∧
    (state (mergeAll (MakeReport demo "m") [stamped t3, stamped t2, stamped t1])).TS = t1 ∧
    t1 ≠ t3 ∧
    List.Perm [stamped t1, stamped t2, stamped t3] [stamped t3, stamped t2, stamped t1] ∧
    t1.Before t2 = true ∧ t2.Before t3 = true ∧ t3.Before t1 = true := by
  refine ⟨by decide, by decide, by decide, by decide, by decide, ?_, by decide, by decide,
    by decide⟩
  exact (List.Perm.swap _ _ _).trans ((List.Perm.cons _ (List.Perm.swap _ _ _)).trans
    (List.Perm.swap _ _ _))

/-! ## Lemmas on map objects -/

/-- The assignments of a loop through the map value `t`: what `t` reads is what the same
assignments make of the content of `t`, and no other object changes. -/
theorem heap_assignAll {V : Type} (t : Option Nat) (es : List (String × V)) :
    ∀ (h h2 : heap.Heap V),
      es.foldlM (fun h kv => heap.Heap.assign h t kv.1 kv.2) h = some h2 →
      es.foldlM (fun m kv => GoMap.assign m kv.1 kv.2) (heap.Heap.read h t)
        = some (heap.Heap.read h2 t) ∧
      ∀ a, t ≠ some a → h2 a = h a := by
  induction es with
  | nil =>
    intro h h2 hf
    cases hf
    exact ⟨rfl, fun _ _ => rfl⟩
  | cons kv es ih =>
    intro h h2 hf
    cases t with
    | none => cases hf
    | some a =>
      have hf2 : es.foldlM (fun h kv => heap.Heap.assign h (some a) kv.1 kv.2)
          (Function.update h a ((h a).insert kv.1 kv.2)) = some h2 := hf
      obtain ⟨i1, i2⟩ := ih _ h2 hf2
      refine ⟨?_, fun b hb => ?_⟩
      · have e : heap.Heap.read (Function.update h a ((h a).insert kv.1 kv.2)) (some a)
            = (some ((h a).insert kv.1 kv.2) : GoMap V) := by
          show (some (Function.update h a ((h a).insert kv.1 kv.2) a) : GoMap V) = _
          rw [Function.update_same]
        rw [e] at i1
        exact i1
      · have hne : b ≠ a := fun e => hb (by rw [e])
        rw [i2 b hb, Function.update_noteq hne]

/-- One sidecar merge through map values: what the receiver reads afterwards is the
assignment of the entries of the other to what it read, and no other object changes. -/
theorem heap_UnsafeMerge_spec {V : Type} (h h2 : heap.Heap V) (t o : Option Nat)
    (hm : heap.Heap.UnsafeMerge h t o = some h2) :
    (heap.Heap.read h o).range.foldlM (fun m kv => GoMap.assign m kv.1 kv.2)
        (heap.Heap.read h t) = some (heap.Heap.read h2 t) ∧
    ∀ a, t ≠ some a → h2 a = h a :=
  heap_assignAll t _ h h2 hm

/-- What a map value reads does not change when its object does not. -/
theorem heap_read_congr {V : Type} (h h2 : heap.Heap V) (p : Option Nat)
    (hp : ∀ a, p = some a → h2 a = h a) : heap.Heap.read h2 p = heap.Heap.read h p := by
  cases p with
  | none => rfl
  | some a =>
    show (some (h2 a) : GoMap V) = some (h a)
    rw [hp a rfl]

/-- The sidecar merges of a walk, on receiver fields that hold different map objects, none of
them the object of a different field of the other report: each receiver field reads the
assignment of the entries the same field of the other report held at the start to what it
held at the start; objects that no receiver field holds are unchanged. -/
theorem heap_walk {V ι : Type} (pr po : ι → Option Nat) (l : List ι) (hl : l.Nodup)
    (sepR : ∀ p ∈ l, ∀ q ∈ l, p ≠ q → pr p = none ∨ pr p ≠ pr q)
    (sepO : ∀ p ∈ l, ∀ q ∈ l, p ≠ q → pr p = none ∨ pr p ≠ po q) :
    ∀ h0 h1 : heap.Heap V,
      l.foldlM (fun h p => heap.Heap.UnsafeMerge h (pr p) (po p)) h0 = some h1 →
      (∀ p ∈ l, (heap.Heap.read h0 (po p)).range.foldlM
          (fun m kv => GoMap.assign m kv.1 kv.2) (heap.Heap.read h0 (pr p))
          = some (heap.Heap.read h1 (pr p))) ∧
      (∀ a, (∀ p ∈ l, pr p ≠ some a) → h1 a = h0 a) := by
  induction l with
  | nil =>
    intro h0 h1 hf
    cases hf
    exact ⟨fun p hp => absurd hp (List.not_mem_nil p), fun _ _ => rfl⟩
  | cons p l ih =>
    intro h0 h1 hf
    have hpl : p ∉ l := (List.nodup_cons.mp hl).1
    have hl2 : l.Nodup := (List.nodup_cons.mp hl).2
    cases hs : heap.Heap.UnsafeMerge h0 (pr p) (po p) with
    | none =>
      rw [List.foldlM_cons, hs] at hf
      cases hf
    | some h =>
      rw [List.foldlM_cons, hs] at hf
      have hf2 : l.foldlM (fun h p => heap.Heap.UnsafeMerge h (pr p) (po p)) h = some h1 := hf
      obtain ⟨s1, s2⟩ := heap_UnsafeMerge_spec h0 h (pr p) (po p) hs
      obtain ⟨i1, i2⟩ := ih hl2
        (fun a ha b hb => sepR a (List.mem_cons_of_mem _ ha) b (List.mem_cons_of_mem _ hb))
        (fun a ha b hb => sepO a (List.mem_cons_of_mem _ ha) b (List.mem_cons_of_mem _ hb))
        h h1 hf2
      have hne : ∀ q ∈ l, p ≠ q := fun q hq e => hpl (e ▸ hq)
      refine ⟨fun q hq => ?_, fun a ha => ?_⟩
      · rcases List.mem_cons.mp hq with e | hq2
        · subst e
          have e1 : heap.Heap.read h1 (pr q) = heap.Heap.read h (pr q) := by
            apply heap_read_congr
            intro a ha
            apply i2
            intro r hr hra
            rcases sepR q (List.mem_cons_self _ _) r (List.mem_cons_of_mem _ hr) (hne r hr)
              with hn | hn
            · rw [hn] at ha; cases ha
            · exact hn (ha.trans hra.symm)
          rw [e1]
          exact s1
        · have e1 : heap.Heap.read h (pr q) = heap.Heap.read h0 (pr q) := by
            apply heap_read_congr
            intro a ha
            apply s2
            intro hpa
            rcases sepR p (List.mem_cons_self _ _) q hq (hne q hq2) with hn | hn
            · rw [hn] at hpa; cases hpa
            · exact hn (hpa.trans ha.symm)
          have e2 : heap.Heap.read h (po q) = heap.Heap.read h0 (po q) := by
            apply heap_read_congr
            intro a ha
            apply s2
            intro hpa
            rcases sepO p (List.mem_cons_self _ _) q hq (hne q hq2) with hn | hn
            · rw [hn] at hpa; cases hpa
            · exact hn (hpa.trans ha.symm)
          have := i1 q hq2
          rw [e1, e2] at this
          exact this
      · rw [i2 a (fun r hr => ha r (List.mem_cons_of_mem _ hr))]
        exact s2 a (ha p (List.mem_cons_self _ _))

/-! ## Lemmas on calls that change a memory -/

theorem except_bind_ok {σ : Type} (x : Except σ σ) (f : σ → Except σ σ) (res : σ)
    (h : (x >>= f) = .ok res) : ∃ r, x = .ok r ∧ f r = .ok res := by
  cases x with
  | error e => cases h
  | ok r => exact ⟨r, rfl, h⟩

/-- A fold whose steps update one component of the state through `upd` and keep `inv`. -/
theorem except_foldlM_lens {σ γ H ι : Type} (proj : σ → H) (inv : σ → γ)
    (upd : γ → ι → H → Option H) (step : σ → ι → Except σ σ)
    (hstep : ∀ acc x res, step acc x = .ok res →
      inv res = inv acc ∧ upd (inv acc) x (proj acc) = some (proj res)) :
    ∀ (l : List ι) (acc res : σ), l.foldlM step acc = .ok res →
      inv res = inv acc ∧ l.foldlM (fun b x => upd (inv acc) x b) (proj acc) = some (proj res) := by
  intro l
  induction l with
  | nil =>
    intro acc res h
    cases h
    exact ⟨rfl, rfl⟩
  | cons x l ih =>
    intro acc res h
    rw [List.foldlM_cons] at h
    obtain ⟨s1, h1, h2⟩ := except_bind_ok _ _ _ h
    obtain ⟨a1, a2⟩ := hstep acc x s1 h1
    obtain ⟨i1, i2⟩ := ih s1 res h2
    refine ⟨i1.trans a1, ?_⟩
    rw [List.foldlM_cons, a2]
    rw [a1] at i2
    exact i2

/-- Updating a function at each member of a list without duplicates. -/
theorem foldl_update {ι β : Type} [DecidableEq ι] (g : ι → β → β) (l : List ι)
    (hl : l.Nodup) :
    ∀ f : ι → β,
      (∀ p ∈ l, l.foldl (fun f p => Function.update f p (g p (f p))) f p = g p (f p)) ∧
      (∀ p, p ∉ l → l.foldl (fun f p => Function.update f p (g p (f p))) f p = f p) := by
  induction l with
  | nil =>
    intro f
    exact ⟨fun p hp => absurd hp (List.not_mem_nil p), fun _ _ => rfl⟩
  | cons x l ih =>
    intro f
    have hxl : x ∉ l := (List.nodup_cons.mp hl).1
    obtain ⟨i1, i2⟩ := ih (List.nodup_cons.mp hl).2 (Function.update f x (g x (f x)))
    refine ⟨fun p hp => ?_, fun p hp => ?_⟩
    · show l.foldl _ (Function.update f x (g x (f x))) p = _
      rcases List.mem_cons.mp hp with e | hp2
      · subst e
        rw [i2 p hxl, Function.update_same]
      · have hne : p ≠ x := fun e => hxl (e ▸ hp2)
        rw [i1 p hp2, Function.update_noteq hne]
    · show l.foldl _ (Function.update f x (g x (f x))) p = _
      have hne : p ≠ x := fun e => hp (e ▸ List.mem_cons_self _ _)
      rw [i2 p (fun h => hp (List.mem_cons_of_mem _ h)), Function.update_noteq hne]

theorem heap_WalkPairedTopologies_refs {c : Collab} (s : heap.State c)
    (f : Option TopologyRef → Option TopologyRef → heap.State c →
      Except (heap.State c) (heap.State c)) :
    heap.WalkPairedTopologies s f = topologyRefs.foldlM (fun acc p => f (some p) (some p) acc) s :=
  rfl

theorem heap_WalkPairedAdjacencies_refs {c : Collab} (s : heap.State c)
    (f : Option AdjacencyRef → Option AdjacencyRef → heap.State c →
      Except (heap.State c) (heap.State c)) :
    heap.WalkPairedAdjacencies s f
      = adjacencyRefs.foldlM (fun acc p => f (some p) (some p) acc) s := rfl

theorem heap_WalkPairedParents_refs {c : Collab} (s : heap.State c)
    (f : Option ParentsRef → Option ParentsRef → heap.State c →
      Except (heap.State c) (heap.State c)) :
    heap.WalkPairedParents s f = parentsRefs.foldlM (fun acc p => f (some p) (some p) acc) s :=
  rfl

theorem heap_WalkPairedSets_refs {c : Collab} (s : heap.State c)
    (f : Option SetsRef → Option SetsRef → heap.State c →
      Except (heap.State c) (heap.State c)) :
    heap.WalkPairedSets s f = setsRefs.foldlM (fun acc p => f (some p) (some p) acc) s := rfl

/-- The topology walk of a merge returns; it leaves the memory and every other field of the
receiver, and merges each topology with the same topology of the other report. -/
theorem heap_walkTopologies {c : Collab} (other : heap.Report c) (s s4 : heap.State c)
    (h : heap.WalkPairedTopologies s (heap.mergeTopology other) = .ok s4) :
    s4.1 = s.1 ∧ s4.2.TS = s.2.TS ∧ s4.2.DNS = s.2.DNS ∧ s4.2.Window = s.2.Window ∧
    s4.2.BugDNS = s.2.BugDNS ∧ s4.2.Shortcut = s.2.Shortcut ∧ s4.2.ID = s.2.ID ∧
    s4.2.adjacencies = s.2.adjacencies ∧ s4.2.parents = s.2.parents ∧
    s4.2.sets = s.2.sets ∧
    ∀ p, s4.2.topologies p = c.topologyUnsafeMerge (s.2.topologies p) (other.topologies p) := by
  rw [heap_WalkPairedTopologies_refs] at h
  obtain ⟨i1, i2⟩ := except_foldlM_lens (fun x : heap.State c => x.2.topologies)
    (fun x : heap.State c => (x.1, x.2.TS, x.2.DNS, x.2.Window, x.2.BugDNS, x.2.Shortcut,
      x.2.ID, x.2.adjacencies, x.2.parents, x.2.sets))
    (fun _ p f => some (Function.update f p
      (c.topologyUnsafeMerge (f p) (other.topologies p))))
    (fun acc p => heap.mergeTopology other (some p) (some p) acc)
    (fun acc x res hres => by
      cases hres
      exact ⟨rfl, rfl⟩)
    topologyRefs s s4 h
  have e : topologyRefs.foldlM (fun b x => some (Function.update b x
      (c.topologyUnsafeMerge (b x) (other.topologies x)))) s.2.topologies
      = some (topologyRefs.foldl (fun b x => Function.update b x
          (c.topologyUnsafeMerge (b x) (other.topologies x))) s.2.topologies) := by
    generalize s.2.topologies = f
    generalize topologyRefs = l
    induction l generalizing f with
    | nil => rfl
    | cons x l ih => exact ih _
  rw [e] at i2
  have e2 := Option.some.inj i2
  have key := (foldl_update (fun p t => c.topologyUnsafeMerge t (other.topologies p))
    topologyRefs topologyRefs_nodup s.2.topologies).1
  simp only [Prod.mk.injEq] at i1
  obtain ⟨j1, j2, j3, j4, j5, j6, j7, j8, j9, j10⟩ := i1
  refine ⟨j1, j2, j3, j4, j5, j6, j7, j8, j9, j10, fun p => ?_⟩
  rw [← e2]
  exact key p (topologyRefs_mem p)

/-- The adjacency walk of a merge, when it returns: the receiver and the other two kinds of
map objects are unchanged, and the adjacency objects are merged field by field. -/
theorem heap_walkAdjacencies {c : Collab} (other : heap.Report c) (s s5 : heap.State c)
    (h : heap.WalkPairedAdjacencies s (heap.mergeAdjacency other) = .ok s5) :
    s5.2 = s.2 ∧ s5.1.parents = s.1.parents ∧ s5.1.sets = s.1.sets ∧
    adjacencyRefs.foldlM (fun h p => heap.Heap.UnsafeMerge h (s.2.adjacencies p)
      (other.adjacencies p)) s.1.adjacency = some s5.1.adjacency := by
  rw [heap_WalkPairedAdjacencies_refs] at h
  obtain ⟨i1, i2⟩ := except_foldlM_lens (fun x : heap.State c => x.1.adjacency)
    (fun x : heap.State c => (x.2, x.1.parents, x.1.sets))
    (fun g p h => heap.Heap.UnsafeMerge h (g.1.adjacencies p) (other.adjacencies p))
    (fun acc p => heap.mergeAdjacency other (some p) (some p) acc)
    (fun acc x res hres => by
      unfold heap.mergeAdjacency at hres
      cases hm : heap.Heap.UnsafeMerge acc.1.adjacency (acc.2.adjacencies x)
          (other.adjacencies x) with
      | none =>
        simp only [hm] at hres
        cases hres
      | some h2 =>
        simp only [hm] at hres
        cases hres
        exact ⟨rfl, hm⟩)
    adjacencyRefs s s5 h
  simp only [Prod.mk.injEq] at i1
  exact ⟨i1.1, i1.2.1, i1.2.2, i2⟩

/-- The parents walk of a merge, when it returns. -/
theorem heap_walkParents {c : Collab} (other : heap.Report c) (s s6 : heap.State c)
    (h : heap.WalkPairedParents s (heap.mergeParents other) = .ok s6) :
    s6.2 = s.2 ∧ s6.1.adjacency = s.1.adjacency ∧ s6.1.sets = s.1.sets ∧
    parentsRefs.foldlM (fun h p => heap.Heap.UnsafeMerge h (s.2.parents p)
      (other.parents p)) s.1.parents = some s6.1.parents := by
  rw [heap_WalkPairedParents_refs] at h
  obtain ⟨i1, i2⟩ := except_foldlM_lens (fun x : heap.State c => x.1.parents)
    (fun x : heap.State c => (x.2, x.1.adjacency, x.1.sets))
    (fun g p h => heap.Heap.UnsafeMerge h (g.1.parents p) (other.parents p))
    (fun acc p => heap.mergeParents other (some p) (some p) acc)
    (fun acc x res hres => by
      unfold heap.mergeParents at hres
      cases hm : heap.Heap.UnsafeMerge acc.1.parents (acc.2.parents x)
          (other.parents x) with
      | none =>
        simp only [hm] at hres
        cases hres
      | some h2 =>
        simp only [hm] at hres
        cases hres
        exact ⟨rfl, hm⟩)
    parentsRefs s s6 h
  simp only [Prod.mk.injEq] at i1
  exact ⟨i1.1, i1.2.1, i1.2.2, i2⟩

/-- The sets walk of a merge, when it returns. -/
theorem heap_walkSets {c : Collab} (other : heap.Report c) (s s7 : heap.State c)
    (h : heap.WalkPairedSets s (heap.mergeSets other) = .ok s7) :
    s7.2 = s.2 ∧ s7.1.adjacency = s.1.adjacency ∧ s7.1.parents = s.1.parents ∧
    setsRefs.foldlM (fun h p => heap.Heap.UnsafeMerge h (s.2.sets p)
      (other.sets p)) s.1.sets = some s7.1.sets := by
  rw [heap_WalkPairedSets_refs] at h
  obtain ⟨i1, i2⟩ := except_foldlM_lens (fun x : heap.State c => x.1.sets)
    (fun x : heap.State c => (x.2, x.1.adjacency, x.1.parents))
    (fun g p h => heap.Heap.UnsafeMerge h (g.1.sets p) (other.sets p))
    (fun acc p => heap.mergeSets other (some p) (some p) acc)
    (fun acc x res hres => by
      unfold heap.mergeSets at hres
      cases hm : heap.Heap.UnsafeMerge acc.1.sets (acc.2.sets x) (other.sets x) with
      | none =>
        simp only [hm] at hres
        cases hres
      | some h2 =>
        simp only [hm] at hres
        cases hres
        exact ⟨rfl, hm⟩)
    setsRefs s s7 h
  simp only [Prod.mk.injEq] at i1
  exact ⟨i1.1, i1.2.1, i1.2.2, i2⟩

theorem heap_mergeScalars_TS {c : Collab} (r other : heap.Report c) :
    (heap.mergeScalars r other).TS = earliest r.TS other.TS := by
  unfold heap.mergeScalars earliest
  split <;> rfl

/-- A merge that returns: the fields of the receiver, and the three walks over the map
objects. -/
theorem heap_UnsafeMerge_ok {c : Collab} (m m2 : heap.Memory c) (A A2 B : heap.Report c)
    (h : heap.UnsafeMerge m A B = .ok (m2, A2)) :
    (A2.TS = earliest A.TS B.TS ∧ A2.Window = wrap64 (A.Window + B.Window) ∧
      A2.DNS = c.dnsMerge A.DNS B.DNS ∧ A2.BugDNS = A.BugDNS ∧ A2.Shortcut = A.Shortcut ∧
      A2.ID = A.ID) ∧
    (A2.adjacencies = A.adjacencies ∧ A2.parents = A.parents ∧ A2.sets = A.sets) ∧
    (∀ p, A2.topologies p = c.topologyUnsafeMerge (A.topologies p) (B.topologies p)) ∧
    adjacencyRefs.foldlM (fun h p => heap.Heap.UnsafeMerge h (A.adjacencies p)
      (B.adjacencies p)) m.adjacency = some m2.adjacency ∧
    parentsRefs.foldlM (fun h p => heap.Heap.UnsafeMerge h (A.parents p)
      (B.parents p)) m.parents = some m2.parents ∧
    setsRefs.foldlM (fun h p => heap.Heap.UnsafeMerge h (A.sets p)
      (B.sets p)) m.sets = some m2.sets := by
  unfold heap.UnsafeMerge at h
  obtain ⟨s4, h4, h⟩ := except_bind_ok _ _ _ h
  obtain ⟨s5, h5, h⟩ := except_bind_ok _ _ _ h
  obtain ⟨s6, h6, h7⟩ := except_bind_ok _ _ _ h
  obtain ⟨t1, t2, t3, t4, t5, t6, t7, t8, t9, t10, t11⟩ := heap_walkTopologies B _ s4 h4
  obtain ⟨a1, a2, a3, a4⟩ := heap_walkAdjacencies B s4 s5 h5
  obtain ⟨p1, p2, p3, p4⟩ := heap_walkParents B s5 s6 h6
  obtain ⟨q1, q2, q3, q4⟩ := heap_walkSets B s6 (m2, A2) h7
  have eA : A2 = s4.2 := q1.trans (p1.trans a1)
  have e4 : s4.1 = m := t1
  refine ⟨⟨?_, ?_, ?_, ?_, ?_, ?_⟩, ⟨?_, ?_, ?_⟩, ?_, ?_, ?_, ?_⟩
  · rw [eA, t2]; exact heap_mergeScalars_TS A B
  · rw [eA, t4]; rfl
  · rw [eA, t3]; rfl
  · rw [eA, t5]; unfold heap.mergeScalars; split <;> rfl
  · rw [eA, t6]; unfold heap.mergeScalars; split <;> rfl
  · rw [eA, t7]; unfold heap.mergeScalars; split <;> rfl
  · rw [eA, t8]; unfold heap.mergeScalars; split <;> rfl
  · rw [eA, t9]; unfold heap.mergeScalars; split <;> rfl
  · rw [eA, t10]; unfold heap.mergeScalars; split <;> rfl
  · intro p
    rw [eA, t11 p]
    have : (heap.mergeScalars A B).topologies = A.topologies := by
      unfold heap.mergeScalars; split <;> rfl
    rw [this]
  · have e1 : s4.2.adjacencies = A.adjacencies := by
      rw [t8]; unfold heap.mergeScalars; split <;> rfl
    have e2 : (m2, A2).1.adjacency = s5.1.adjacency := q2.trans p2
    rw [e1, e4] at a4
    rw [a4]
    exact congrArg some e2.symm
  · have e1 : s5.2.parents = A.parents := by
      rw [a1, t9]; unfold heap.mergeScalars; split <;> rfl
    have e0 : s5.1.parents = m.parents := by rw [a2, e4]
    have e2 : (m2, A2).1.parents = s6.1.parents := q3
    rw [e1, e0] at p4
    rw [p4]
    exact congrArg some e2.symm
  · have e1 : s6.2.sets = A.sets := by
      rw [p1, a1, t10]; unfold heap.mergeScalars; split <;> rfl
    have e0 : s6.1.sets = m.sets := by rw [p3, a3, e4]
    rw [e1, e0] at q4
    exact q4

/-! ## C1, C2, C25: the sidecars after a merge, on reports that may share map objects -/

/-- After a merge that returns, every parents field of the receiver reads the assignment of
the entries of the same field of the other report to what it read, when the parents fields
of the receiver hold different map objects, none of them the object of a different parents
field of the other report. -/
theorem heap_UnsafeMerge_parents {c : Collab} (m m2 : heap.Memory c) (A A2 B : heap.Report c)
    (h : heap.UnsafeMerge m A B = .ok (m2, A2))
    (hA : ∀ p q : ParentsRef, p ≠ q → A.parents p = none ∨ A.parents p ≠ A.parents q)
    (hB : ∀ p q : ParentsRef, p ≠ q → A.parents p = none ∨ A.parents p ≠ B.parents q)
    (p : ParentsRef) :
    Parents.UnsafeMerge (heap.Heap.read m.parents (A.parents p))
      (heap.Heap.read m.parents (B.parents p))
      = some (heap.Heap.read m2.parents (A2.parents p)) := by
  obtain ⟨-, ⟨-, e, -⟩, -, -, f, -⟩ := heap_UnsafeMerge_ok m m2 A A2 B h
  rw [e]
  exact (heap_walk A.parents B.parents parentsRefs parentsRefs_nodup
    (fun p _ q _ hne => hA p q hne) (fun p _ q _ hne => hB p q hne) _ _ f).1 p
    (parentsRefs_mem p)

/-- The same for the sets fields. -/
theorem heap_UnsafeMerge_sets {c : Collab} (m m2 : heap.Memory c) (A A2 B : heap.Report c)
    (h : heap.UnsafeMerge m A B = .ok (m2, A2))
    (hA : ∀ p q : SetsRef, p ≠ q → A.sets p = none ∨ A.sets p ≠ A.sets q)
    (hB : ∀ p q : SetsRef, p ≠ q → A.sets p = none ∨ A.sets p ≠ B.sets q)
    (p : SetsRef) :
    TopologySets.UnsafeMerge (heap.Heap.read m.sets (A.sets p))
      (heap.Heap.read m.sets (B.sets p))
      = some (heap.Heap.read m2.sets (A2.sets p)) := by
  obtain ⟨-, ⟨-, -, e⟩, -, -, -, f⟩ := heap_UnsafeMerge_ok m m2 A A2 B h
  rw [e]
  exact (heap_walk A.sets B.sets setsRefs setsRefs_nodup
    (fun p _ q _ hne => hA p q hne) (fun p _ q _ hne => hB p q hne) _ _ f).1 p
    (setsRefs_mem p)

/-- The same for the adjacency field; it is the only field of its kind, so no other field
can hold its map object. -/
theorem heap_UnsafeMerge_adjacency {c : Collab} (m m2 : heap.Memory c)
    (A A2 B : heap.Report c) (h : heap.UnsafeMerge m A B = .ok (m2, A2)) (p : AdjacencyRef) :
    TopologyAdjacency.UnsafeMerge (heap.Heap.read m.adjacency (A.adjacencies p))
      (heap.Heap.read m.adjacency (B.adjacencies p))
      = some (heap.Heap.read m2.adjacency (A2.adjacencies p)) := by
  obtain ⟨-, ⟨e, -, -⟩, -, f, -, -⟩ := heap_UnsafeMerge_ok m m2 A A2 B h
  rw [e]
  exact (heap_walk A.adjacencies B.adjacencies adjacencyRefs adjacencyRefs_nodup
    (fun p _ q _ hne => by cases p; cases q; exact absurd rfl hne)
    (fun p _ q _ hne => by cases p; cases q; exact absurd rfl hne) _ _ f).1 p
    (adjacencyRefs_mem p)

/-- C1, as amended. When `A.UnsafeMerge(B)` returns, the parents fields of `A` hold
different map objects, and none of them holds the map object of a different parents field of
`B`: for every name in `topologyParentNames` the parents map of `A` that the name selects
maps every key of the same map of `B` to the record `B` holds for it, whole, and every other
key to what the map of `A` held before (absent keys stay absent). -/
theorem C1_merge_parents_overwrite {c : Collab} (m m2 : heap.Memory c)
    (A A2 B : heap.Report c)
    (h : heap.UnsafeMerge m A B = .ok (m2, A2))
    (hA : ∀ p q : ParentsRef, p ≠ q → A.parents p = none ∨ A.parents p ≠ A.parents q)
    (hB : ∀ p q : ParentsRef, p ≠ q → A.parents p = none ∨ A.parents p ≠ B.parents q) :
    ∀ name ∈ topologyParentNames, ∃ p, topologyParent name = some p ∧
      ∀ k, (∀ v, (heap.Heap.read m.parents (B.parents p)).lookup k = some v →
          (heap.Heap.read m2.parents (A2.parents p)).lookup k = some v) ∧
        ((heap.Heap.read m.parents (B.parents p)).lookup k = none →
          (heap.Heap.read m2.parents (A2.parents p)).lookup k
            = (heap.Heap.read m.parents (A.parents p)).lookup k) := by
  intro name hname
  obtain ⟨p, hp⟩ := Option.isSome_iff_exists.mp (topologyParent_registered name hname)
  exact ⟨p, hp, fun k => assignAll_overwrite _ _ _ (heap_UnsafeMerge_parents m m2 A A2 B h hA hB p) k⟩

/-- Witness of C1: host parents `h1 -> aws`, `h0 -> aws` merged with `h1 -> gcp`, held in
two map objects. -/
theorem C1_merge_parents_overwrite_witness :
    heap.returned (heap.UnsafeMerge heap.demoMemory heap.hostAws heap.hostGcp) = true ∧
    (heap.Heap.read (heap.state (heap.UnsafeMerge heap.demoMemory heap.hostAws
      heap.hostGcp)).1.parents (heap.hostAws.parents .HostParents)).lookup "h1" = some gcp ∧
    (heap.Heap.read (heap.state (heap.UnsafeMerge heap.demoMemory heap.hostAws
      heap.hostGcp)).1.parents (heap.hostAws.parents .HostParents)).lookup "h0" = some aws ∧
    ∀ name ∈ topologyParentNames, ∃ p, topologyParent name = some p ∧
      ∀ k, (∀ v, (heap.Heap.read heap.demoMemory.parents (heap.hostGcp.parents p)).lookup k
            = some v →
          (heap.Heap.read (heap.state (heap.UnsafeMerge heap.demoMemory heap.hostAws
            heap.hostGcp)).1.parents ((heap.state (heap.UnsafeMerge heap.demoMemory
            heap.hostAws heap.hostGcp)).2.parents p)).lookup k = some v) ∧
        ((heap.Heap.read heap.demoMemory.parents (heap.hostGcp.parents p)).lookup k = none →
          (heap.Heap.read (heap.state (heap.UnsafeMerge heap.demoMemory heap.hostAws
            heap.hostGcp)).1.parents ((heap.state (heap.UnsafeMerge heap.demoMemory
            heap.hostAws heap.hostGcp)).2.parents p)).lookup k
            = (heap.Heap.read heap.demoMemory.parents (heap.hostAws.parents p)).lookup k) :=
  ⟨rfl, by decide, by decide,
   C1_merge_parents_overwrite heap.demoMemory _ heap.hostAws _ heap.hostGcp rfl
     (fun p q hne => by revert hne; cases p <;> cases q <;> decide)
     (fun p q hne => by revert hne; cases p <;> cases q <;> decide)⟩

/-- Counterexample to C1 as stated.  First, the receiver is the zero-valued report, whose
host parents map is nil, and the other report holds the host parent `h1 -> gcp`: the call
panics on the assignment into the nil map, and the host parents of the receiver have no
entry for `h1`.  Second, the receiver holds one map object in `HostParents` and in
`OverlayParents`: the call returns, and the overlay parents of the receiver map `h1` to
`gcp`, though `h1` is neither a key of the overlay parents of the other report nor of the
overlay parents the receiver held.  Third, the parents fields of the receiver hold different
map objects, and its `HostParents` hold the object of the `OverlayParents` of the other
report: the call returns, and again the overlay parents of the receiver map `h1` to `gcp`,
though `h1` was a key of neither overlay parents when the call started. -/
theorem C1_counterexample :
    (topologyParent Host = some ParentsRef.HostParents ∧
     heap.returned (heap.UnsafeMerge heap.demoMemory heap.zeroReport heap.hostGcp) = false ∧
     (heap.Heap.read heap.demoMemory.parents (heap.hostGcp.parents .HostParents)).lookup "h1"
       = some gcp ∧
     (heap.Heap.read (heap.state (heap.UnsafeMerge heap.demoMemory heap.zeroReport
       heap.hostGcp)).1.parents ((heap.state (heap.UnsafeMerge heap.demoMemory
       heap.zeroReport heap.hostGcp)).2.parents .HostParents)).lookup "h1" = none) ∧
    (topologyParent Overlay = some ParentsRef.OverlayParents ∧
     heap.returned (heap.UnsafeMerge heap.demoMemory heap.shared heap.hostGcp) = true ∧
     heap.shared.parents .HostParents = heap.shared.parents .OverlayParents ∧
     (heap.Heap.read heap.demoMemory.parents (heap.hostGcp.parents .OverlayParents)).lookup
       "h1" = none ∧
     (heap.Heap.read heap.demoMemory.parents (heap.shared.parents .OverlayParents)).lookup
       "h1" = none ∧
     (heap.Heap.read (heap.state (heap.UnsafeMerge heap.demoMemory heap.shared
       heap.hostGcp)).1.parents ((heap.state (heap.UnsafeMerge heap.demoMemory
       heap.shared heap.hostGcp)).2.parents .OverlayParents)).lookup "h1" = some gcp) ∧
    (heap.returned (heap.UnsafeMerge heap.demoMemory heap.crossOurs heap.crossTheirs) = true ∧
     (∀ p q : ParentsRef, p ≠ q →
       heap.crossOurs.parents p = none ∨ heap.crossOurs.parents p ≠ heap.crossOurs.parents q) ∧
     heap.crossOurs.parents .HostParents = heap.crossTheirs.parents .OverlayParents ∧
     (heap.Heap.read heap.demoMemory.parents
       (heap.crossTheirs.parents .OverlayParents)).lookup "h1" = none ∧
     (heap.Heap.read heap.demoMemory.parents
       (heap.crossOurs.parents .OverlayParents)).lookup "h1" = none ∧
     (heap.Heap.read (heap.state (heap.UnsafeMerge heap.demoMemory heap.crossOurs
       heap.crossTheirs)).1.parents ((heap.state (heap.UnsafeMerge heap.demoMemory
       heap.crossOurs heap.crossTheirs)).2.parents .OverlayParents)).lookup "h1"
       = some gcp) :=
  ⟨⟨by decide, rfl, by decide, by decide⟩,
   ⟨by decide, rfl, by decide, by decide, by decide, by decide⟩,
   ⟨rfl, fun p q hne => by revert hne; cases p <;> cases q <;> decide,
    by decide, by decide, by decide, by decide⟩⟩

/-- C2, as amended. When `A.UnsafeMerge(B)` returns, the sets fields of `A` hold different
map objects, and none of them holds the map object of the other sets field of `B`: each of
`EndpointAdjacency`, `ContainerSets` and `OverlaySets` of `A` maps every key of the same
field of `B` to the value `B` holds for it (the whole list or set, not a member-wise union),
and every other key to what the field of `A` held before. -/
theorem C2_merge_adjacency_sets_overwrite {c : Collab} (m m2 : heap.Memory c)
    (A A2 B : heap.Report c)
    (h : heap.UnsafeMerge m A B = .ok (m2, A2))
    (hA : ∀ p q : SetsRef, p ≠ q → A.sets p = none ∨ A.sets p ≠ A.sets q)
    (hB : ∀ p q : SetsRef, p ≠ q → A.sets p = none ∨ A.sets p ≠ B.sets q) :
    (∀ (p : AdjacencyRef) (k : String),
      (∀ v, (heap.Heap.read m.adjacency (B.adjacencies p)).lookup k = some v →
        (heap.Heap.read m2.adjacency (A2.adjacencies p)).lookup k = some v) ∧
      ((heap.Heap.read m.adjacency (B.adjacencies p)).lookup k = none →
        (heap.Heap.read m2.adjacency (A2.adjacencies p)).lookup k
          = (heap.Heap.read m.adjacency (A.adjacencies p)).lookup k)) ∧
    (∀ (p : SetsRef) (k : String),
      (∀ v, (heap.Heap.read m.sets (B.sets p)).lookup k = some v →
        (heap.Heap.read m2.sets (A2.sets p)).lookup k = some v) ∧
      ((heap.Heap.read m.sets (B.sets p)).lookup k = none →
        (heap.Heap.read m2.sets (A2.sets p)).lookup k
          = (heap.Heap.read m.sets (A.sets p)).lookup k)) ∧
    (∀ p : AdjacencyRef, p = .EndpointAdjacency) ∧
    (∀ p : SetsRef, p = .ContainerSets ∨ p = .OverlaySets) :=
  ⟨fun p k => assignAll_overwrite _ _ _ (heap_UnsafeMerge_adjacency m m2 A A2 B h p) k,
   fun p k => assignAll_overwrite _ _ _ (heap_UnsafeMerge_sets m m2 A A2 B h hA hB p) k,
   fun p => by cases p; rfl,
   fun p => by cases p <;> simp⟩

/-- Witness of C2: the adjacency `e1 -> [e2]` merged with `e1 -> [e3]` is `e1 -> [e3]`, and
the set `c1 -> [a]` merged with `c1 -> [b]` is `c1 -> [b]`. -/
theorem C2_merge_adjacency_sets_overwrite_witness :
    heap.returned (heap.UnsafeMerge heap.demoMemory heap.hostAws heap.hostGcp) = true ∧
    (heap.Heap.read (heap.state (heap.UnsafeMerge heap.demoMemory heap.hostAws
      heap.hostGcp)).1.adjacency (heap.hostAws.adjacencies .EndpointAdjacency)).lookup "e1"
      = some ["e3"] ∧
    (heap.Heap.read (heap.state (heap.UnsafeMerge heap.demoMemory heap.hostAws
      heap.hostGcp)).1.sets (heap.hostAws.sets .ContainerSets)).lookup "c1" = some ["b"] ∧
    (∀ (p : SetsRef) (k : String),
      (∀ v, (heap.Heap.read heap.demoMemory.sets (heap.hostGcp.sets p)).lookup k = some v →
        (heap.Heap.read (heap.state (heap.UnsafeMerge heap.demoMemory heap.hostAws
          heap.hostGcp)).1.sets ((heap.state (heap.UnsafeMerge heap.demoMemory
          heap.hostAws heap.hostGcp)).2.sets p)).lookup k = some v) ∧
      ((heap.Heap.read heap.demoMemory.sets (heap.hostGcp.sets p)).lookup k = none →
        (heap.Heap.read (heap.state (heap.UnsafeMerge heap.demoMemory heap.hostAws
          heap.hostGcp)).1.sets ((heap.state (heap.UnsafeMerge heap.demoMemory
          heap.hostAws heap.hostGcp)).2.sets p)).lookup k
          = (heap.Heap.read heap.demoMemory.sets (heap.hostAws.sets p)).lookup k)) :=
  ⟨rfl, rfl, rfl,
   (C2_merge_adjacency_sets_overwrite heap.demoMemory _ heap.hostAws _ heap.hostGcp rfl
     (fun p q hne => by revert hne; cases p <;> cases q <;> decide)
     (fun p q hne => by revert hne; cases p <;> cases q <;> decide)).2.1⟩

/-- Counterexample to C2 as stated.  First, the receiver is the zero-valued report, whose
adjacency map is nil, and the other report holds the adjacency `e1 -> [e3]`: the call
panics, and the adjacency of the receiver has no entry for `e1`.  Second, the receiver holds
one map object in `ContainerSets` and in `OverlaySets`: the call returns, and the overlay
sets of the receiver hold the key `c1` of the container sets of the other report, though
`c1` is neither a key of the overlay sets of the other report nor of the overlay sets the
receiver held.  Third, the sets fields of the receiver hold different map objects, and its
`ContainerSets` hold the object of the `OverlaySets` of the other report: the call returns,
and again the overlay sets of the receiver hold the key `c1`, though `c1` was a key of
neither overlay sets when the call started. -/
theorem C2_counterexample :
    (heap.returned (heap.UnsafeMerge heap.demoMemory heap.zeroReport heap.hostGcp) = false ∧
     (heap.Heap.read heap.demoMemory.adjacency
       (heap.hostGcp.adjacencies .EndpointAdjacency)).lookup "e1" = some ["e3"] ∧
     (heap.Heap.read (heap.state (heap.UnsafeMerge heap.demoMemory heap.zeroReport
       heap.hostGcp)).1.adjacency ((heap.state (heap.UnsafeMerge heap.demoMemory
       heap.zeroReport heap.hostGcp)).2.adjacencies .EndpointAdjacency)).lookup "e1"
       = none) ∧
    (heap.returned (heap.UnsafeMerge heap.demoMemory heap.shared heap.hostGcp) = true ∧
     heap.shared.sets .ContainerSets = heap.shared.sets .OverlaySets ∧
     (heap.Heap.read heap.demoMemory.sets (heap.hostGcp.sets .OverlaySets)).lookup "c1"
       = none ∧
     (heap.Heap.read heap.demoMemory.sets (heap.shared.sets .OverlaySets)).lookup "c1"
       = none ∧
     (heap.Heap.read (heap.state (heap.UnsafeMerge heap.demoMemory heap.shared
       heap.hostGcp)).1.sets ((heap.state (heap.UnsafeMerge heap.demoMemory
       heap.shared heap.hostGcp)).2.sets .OverlaySets)).lookup "c1" = some ["b"]) ∧
    (heap.returned (heap.UnsafeMerge heap.demoMemory heap.crossOurs heap.crossTheirs) = true ∧
     (∀ p q : SetsRef, p ≠ q →
       heap.crossOurs.sets p = none ∨ heap.crossOurs.sets p ≠ heap.crossOurs.sets q) ∧
     heap.crossOurs.sets .ContainerSets = heap.crossTheirs.sets .OverlaySets ∧
     (heap.Heap.read heap.demoMemory.sets (heap.crossTheirs.sets .OverlaySets)).lookup "c1"
       = none ∧
     (heap.Heap.read heap.demoMemory.sets (heap.crossOurs.sets .OverlaySets)).lookup "c1"
       = none ∧
     (heap.Heap.read (heap.state (heap.UnsafeMerge heap.demoMemory heap.crossOurs
       heap.crossTheirs)).1.sets ((heap.state (heap.UnsafeMerge heap.demoMemory
       heap.crossOurs heap.crossTheirs)).2.sets .OverlaySets)).lookup "c1" = some ["b"]) :=
  ⟨⟨rfl, rfl, rfl⟩, ⟨rfl, rfl, rfl, rfl, rfl⟩,
   ⟨rfl, fun p q hne => by revert hne; cases p <;> cases q <;> decide, rfl, rfl, rfl, rfl⟩⟩

/-- C25, as amended. When `A.UnsafeMerge(B)` returns, the parents fields of `A` hold
different map objects and so do its sets fields, and none of them holds the map object of a
different field of `B`: the key set of every adjacency, parents and sets sidecar of `A` is
the union of its old key set and the key set of the same sidecar of `B`. -/
theorem C25_merge_keys_union {c : Collab} (m m2 : heap.Memory c) (A A2 B : heap.Report c)
    (h : heap.UnsafeMerge m A B = .ok (m2, A2))
    (hPA : ∀ p q : ParentsRef, p ≠ q → A.parents p = none ∨ A.parents p ≠ A.parents q)
    (hPB : ∀ p q : ParentsRef, p ≠ q → A.parents p = none ∨ A.parents p ≠ B.parents q)
    (hSA : ∀ p q : SetsRef, p ≠ q → A.sets p = none ∨ A.sets p ≠ A.sets q)
    (hSB : ∀ p q : SetsRef, p ≠ q → A.sets p = none ∨ A.sets p ≠ B.sets q) :
    (∀ (p : AdjacencyRef) (k : String),
      k ∈ (heap.Heap.read m2.adjacency (A2.adjacencies p)).keys ↔
        k ∈ (heap.Heap.read m.adjacency (A.adjacencies p)).keys ∨
        k ∈ (heap.Heap.read m.adjacency (B.adjacencies p)).keys) ∧
    (∀ (p : ParentsRef) (k : String),
      k ∈ (heap.Heap.read m2.parents (A2.parents p)).keys ↔
        k ∈ (heap.Heap.read m.parents (A.parents p)).keys ∨
        k ∈ (heap.Heap.read m.parents (B.parents p)).keys) ∧
    (∀ (p : SetsRef) (k : String),
      k ∈ (heap.Heap.read m2.sets (A2.sets p)).keys ↔
        k ∈ (heap.Heap.read m.sets (A.sets p)).keys ∨
        k ∈ (heap.Heap.read m.sets (B.sets p)).keys) :=
  ⟨fun p k => assignAll_keys _ _ _ (heap_UnsafeMerge_adjacency m m2 A A2 B h p) k,
   fun p k => assignAll_keys _ _ _ (heap_UnsafeMerge_parents m m2 A A2 B h hPA hPB p) k,
   fun p k => assignAll_keys _ _ _ (heap_UnsafeMerge_sets m m2 A A2 B h hSA hSB p) k⟩

/-- Witness of C25: host parents with keys `h1`, `h0` merged with host parents with key
`h1`. -/
theorem C25_merge_keys_union_witness :
    heap.returned (heap.UnsafeMerge heap.demoMemory heap.hostAws heap.hostGcp) = true ∧
    (∀ k, k ∈ (heap.Heap.read (heap.state (heap.UnsafeMerge heap.demoMemory heap.hostAws
        heap.hostGcp)).1.parents ((heap.state (heap.UnsafeMerge heap.demoMemory
        heap.hostAws heap.hostGcp)).2.parents .HostParents)).keys ↔
      k ∈ (heap.Heap.read heap.demoMemory.parents (heap.hostAws.parents .HostParents)).keys ∨
      k ∈ (heap.Heap.read heap.demoMemory.parents (heap.hostGcp.parents .HostParents)).keys) :=
  ⟨rfl, fun k => (C25_merge_keys_union heap.demoMemory _ heap.hostAws _ heap.hostGcp rfl
    (fun p q hne => by revert hne; cases p <;> cases q <;> decide)
    (fun p q hne => by revert hne; cases p <;> cases q <;> decide)
    (fun p q hne => by revert hne; cases p <;> cases q <;> decide)
    (fun p q hne => by revert hne; cases p <;> cases q <;> decide)).2.1 .HostParents k⟩

/-- Counterexample to C25 as stated.  First, the receiver is the zero-valued report and the
other report has the host parents key `h1`: the call panics and the key is not in the host
parents of the receiver.  Second, the receiver holds one map object in `HostParents` and in
`OverlayParents`: the call returns and `h1` is a key of the overlay parents of the receiver,
though it is a key neither of the overlay parents the receiver held nor of those of the
other report.  Third, the parents fields of the receiver hold different map objects, and its
`HostParents` hold the object of the `OverlayParents` of the other report: the call returns
and again `h1` is a key of the overlay parents of the receiver, though it was a key of
neither overlay parents when the call started. -/
theorem C25_counterexample :
    (heap.returned (heap.UnsafeMerge heap.demoMemory heap.zeroReport heap.hostGcp) = false ∧
     "h1" ∈ (heap.Heap.read heap.demoMemory.parents
       (heap.hostGcp.parents .HostParents)).keys ∧
     "h1" ∉ (heap.Heap.read (heap.state (heap.UnsafeMerge heap.demoMemory heap.zeroReport
       heap.hostGcp)).1.parents ((heap.state (heap.UnsafeMerge heap.demoMemory
       heap.zeroReport heap.hostGcp)).2.parents .HostParents)).keys) ∧
    (heap.returned (heap.UnsafeMerge heap.demoMemory heap.shared heap.hostGcp) = true ∧
     "h1" ∈ (heap.Heap.read (heap.state (heap.UnsafeMerge heap.demoMemory heap.shared
       heap.hostGcp)).1.parents ((heap.state (heap.UnsafeMerge heap.demoMemory
       heap.shared heap.hostGcp)).2.parents .OverlayParents)).keys ∧
     "h1" ∉ (heap.Heap.read heap.demoMemory.parents
       (heap.shared.parents .OverlayParents)).keys ∧
     "h1" ∉ (heap.Heap.read heap.demoMemory.parents
       (heap.hostGcp.parents .OverlayParents)).keys) ∧
    (heap.returned (heap.UnsafeMerge heap.demoMemory heap.crossOurs heap.crossTheirs) = true ∧
     (∀ p q : ParentsRef, p ≠ q →
       heap.crossOurs.parents p = none ∨ heap.crossOurs.parents p ≠ heap.crossOurs.parents q) ∧
     heap.crossOurs.parents .HostParents = heap.crossTheirs.parents .OverlayParents ∧
     "h1" ∈ (heap.Heap.read (heap.state (heap.UnsafeMerge heap.demoMemory heap.crossOurs
       heap.crossTheirs)).1.parents ((heap.state (heap.UnsafeMerge heap.demoMemory
       heap.crossOurs heap.crossTheirs)).2.parents .OverlayParents)).keys ∧
     "h1" ∉ (heap.Heap.read heap.demoMemory.parents
       (heap.crossOurs.parents .OverlayParents)).keys ∧
     "h1" ∉ (heap.Heap.read heap.demoMemory.parents
       (heap.crossTheirs.parents .OverlayParents)).keys) :=
  ⟨⟨rfl, by decide, by decide⟩, ⟨rfl, by decide, by decide, by decide⟩,
   ⟨rfl, fun p q hne => by revert hne; cases p <;> cases q <;> decide,
    by decide, by decide, by decide, by decide⟩⟩

/-! ## C13: associativity -/

/-- The instant kept of three is the same in both groupings when `Before` orders the three
linearly. -/
theorem earliest_assoc_linear (a b d : Time) (hL : Time.linearlyOrdered [a, b, d]) :
    earliest (earliest a b) d = earliest a (earliest b d) := by
  have ha : a ∈ [a, b, d] := by simp
  have hb : b ∈ [a, b, d] := by simp
  have hd : d ∈ [a, b, d] := by simp
  have eL : [b, d].foldl earliest a = earliest (earliest a b) d := rfl
  obtain ⟨l1, l2⟩ := foldl_earliest_mem [b, d] a
  obtain ⟨l3, l4⟩ := foldl_earliest_least [a, b, d] hL [b, d] a (Or.inr ha)
    (fun t ht => List.mem_cons_of_mem _ ht)
  rw [eL] at l1 l2 l3 l4
  obtain ⟨m1, m2, m3, m4⟩ := earliest_spec b d
  obtain ⟨r1, r2, r3, r4⟩ := earliest_spec a (earliest b d)
  have hM : earliest b d ∈ [a, b, d] := by
    rcases m1 with e | e <;> rw [e]
    · exact hb
    · exact hd
  have hY : earliest a (earliest b d) ∈ [a, b, d] := by
    rcases r1 with e | e <;> rw [e]
    · exact ha
    · exact hM
  have hX : earliest (earliest a b) d ∈ [a, b, d] := by
    rcases l1 with e | e
    · rw [e]
      exact ha
    · exact List.mem_cons_of_mem _ e
  have hMz : ∀ x, x.IsZero = false → (x = b ∨ x = d) → (earliest b d).IsZero = false := by
    intro x hx hxe
    cases hz : (earliest b d).IsZero with
    | false => rfl
    | true =>
      obtain ⟨z1, z2⟩ := m2.mp hz
      rcases hxe with e | e <;> subst e
      · rw [z1] at hx
        cases hx
      · rw [z2] at hx
        cases hx
  have lowY : ∀ x ∈ [a, b, d], x.IsZero = false →
      x.Before (earliest a (earliest b d)) = false := by
    intro x hx hxz
    simp only [List.mem_cons, List.mem_singleton, List.not_mem_nil, or_false] at hx
    rcases hx with e | e | e
    · subst e
      exact r3 hxz
    · subst e
      have hz := hMz x hxz (Or.inl rfl)
      exact Time.not_before_trans _ hL _ _ _ hb hM hY (m3 hxz) (r4 hz)
    · subst e
      have hz := hMz x hxz (Or.inr rfl)
      exact Time.not_before_trans _ hL _ _ _ hd hM hY (m4 hxz) (r4 hz)
  have lowX : ∀ x ∈ [a, b, d], x.IsZero = false →
      x.Before (earliest (earliest a b) d) = false := by
    intro x hx hxz
    rcases List.mem_cons.mp hx with e | e
    · subst e
      exact l3 hxz
    · exact l4 x e hxz
  cases hz : (earliest (earliest a b) d).IsZero with
  | true =>
    obtain ⟨z1, z2⟩ := l2.mp hz
    have zb : b.IsZero = true := z2 b (by simp)
    have zd : d.IsZero = true := z2 d (by simp)
    have zY : (earliest a (earliest b d)).IsZero = true := r2.mpr ⟨z1, m2.mpr ⟨zb, zd⟩⟩
    rw [(Time.isZero_iff _).mp hz, (Time.isZero_iff _).mp zY]
  | false =>
    have zY : (earliest a (earliest b d)).IsZero = false := by
      cases hy : (earliest a (earliest b d)).IsZero with
      | false => rfl
      | true =>
        obtain ⟨y1, y2⟩ := r2.mp hy
        obtain ⟨y3, y4⟩ := m2.mp y2
        have := l2.mpr ⟨y1, fun t ht => by
          simp only [List.mem_cons, List.mem_singleton, List.not_mem_nil, or_false] at ht
          rcases ht with e | e <;> subst e
          · exact y3
          · exact y4⟩
        rw [this] at hz
        cases hz
    exact Time.eq_of_not_before _ hL _ _ hX hY (lowY _ hX hz) (lowX _ hY zY)

/-- Fields whose map values are without repetition hold different map objects. -/
theorem filterMap_nodup_sep {ι : Type} (f : ι → Option Nat) (l : List ι)
    (h : (l.filterMap f).Nodup) :
    ∀ p ∈ l, ∀ q ∈ l, p ≠ q → f p = none ∨ f p ≠ f q := by
  induction l with
  | nil => intro p hp; exact absurd hp (List.not_mem_nil p)
  | cons x l ih =>
    intro p hp q hq hne
    cases hfp : f p with
    | none => exact Or.inl rfl
    | some a =>
      right
      intro e
      have hfq : f q = some a := e.symm
      cases hx : f x with
      | none =>
        rw [List.filterMap_cons_none hx] at h
        rcases List.mem_cons.mp hp with e1 | e1
        · rw [e1, hx] at hfp
          cases hfp
        · rcases List.mem_cons.mp hq with e2 | e2
          · rw [e2, hx] at hfq
            cases hfq
          · rcases ih h p e1 q e2 hne with h3 | h3
            · rw [hfp] at h3
              cases h3
            · exact h3 (hfp.trans hfq.symm)
      | some b =>
        rw [List.filterMap_cons_some hx] at h
        obtain ⟨hb, hn⟩ := List.nodup_cons.mp h
        rcases List.mem_cons.mp hp with e1 | e1
        · rcases List.mem_cons.mp hq with e2 | e2
          · exact hne (e1.trans e2.symm)
          · rw [e1, hx] at hfp
            cases hfp
            exact hb (List.mem_filterMap.mpr ⟨q, e2, hfq⟩)
        · rcases List.mem_cons.mp hq with e2 | e2
          · rw [e2, hx] at hfq
            cases hfq
            exact hb (List.mem_filterMap.mpr ⟨p, e1, hfp⟩)
          · rcases ih hn p e1 q e2 hne with h3 | h3
            · rw [hfp] at h3
              cases h3
            · exact h3 (hfp.trans hfq.symm)

/-- Fields whose map values are disjoint hold no map object in common. -/
theorem filterMap_disjoint_sep {ι : Type} (f g : ι → Option Nat) (l : List ι)
    (hmem : ∀ p, p ∈ l) (h : (l.filterMap f).Disjoint (l.filterMap g)) :
    ∀ p q, f p = none ∨ f p ≠ g q := by
  intro p q
  cases hp : f p with
  | none => exact Or.inl rfl
  | some a =>
    right
    intro e
    exact h (List.mem_filterMap.mpr ⟨p, hmem p, hp⟩) (List.mem_filterMap.mpr ⟨q, hmem q, e.symm⟩)

/-- What the separation of three reports says of the fields of one kind. -/
theorem heap_separate_three {ι : Type} (l : List ι) (hmem : ∀ p, p ∈ l)
    (fA fB fC : ι → Option Nat)
    (h : (l.filterMap fA ++ (l.filterMap fB ++ (l.filterMap fC ++ []))).Nodup) :
    (∀ p q, p ≠ q → fA p = none ∨ fA p ≠ fA q) ∧
    (∀ p q, p ≠ q → fB p = none ∨ fB p ≠ fB q) ∧
    (∀ p q, fA p = none ∨ fA p ≠ fB q) ∧
    (∀ p q, fA p = none ∨ fA p ≠ fC q) ∧
    (∀ p q, fB p = none ∨ fB p ≠ fC q) := by
  rw [List.append_nil] at h
  obtain ⟨nA, nBC, dA⟩ := List.nodup_append.mp h
  obtain ⟨nB, -, dBC⟩ := List.nodup_append.mp nBC
  obtain ⟨dAB, dAC⟩ := List.disjoint_append_right.mp dA
  exact ⟨fun p q hne => filterMap_nodup_sep fA l nA p (hmem p) q (hmem q) hne,
    fun p q hne => filterMap_nodup_sep fB l nB p (hmem p) q (hmem q) hne,
    filterMap_disjoint_sep fA fB l hmem dAB,
    filterMap_disjoint_sep fA fC l hmem dAC,
    filterMap_disjoint_sep fB fC l hmem dBC⟩

/-- The two groupings of the sidecar merges of one kind leave the same lookups in the fields
of the receiver, when the fields of the three reports hold different map objects. -/
theorem heap_assoc {V ι : Type} (l : List ι) (hl : l.Nodup) (hmem : ∀ p, p ∈ l)
    (fA fB fC : ι → Option Nat)
    (sAA : ∀ p q, p ≠ q → fA p = none ∨ fA p ≠ fA q)
    (sBB : ∀ p q, p ≠ q → fB p = none ∨ fB p ≠ fB q)
    (xAB : ∀ p q, fA p = none ∨ fA p ≠ fB q)
    (xAC : ∀ p q, fA p = none ∨ fA p ≠ fC q)
    (xBC : ∀ p q, fB p = none ∨ fB p ≠ fC q)
    (m m1 m2 n1 n2 : heap.Heap V)
    (F1 : l.foldlM (fun h p => heap.Heap.UnsafeMerge h (fA p) (fB p)) m = some m1)
    (F2 : l.foldlM (fun h p => heap.Heap.UnsafeMerge h (fA p) (fC p)) m1 = some m2)
    (F3 : l.foldlM (fun h p => heap.Heap.UnsafeMerge h (fB p) (fC p)) m = some n1)
    (F4 : l.foldlM (fun h p => heap.Heap.UnsafeMerge h (fA p) (fB p)) n1 = some n2)
    (p : ι) (k : String) :
    (heap.Heap.read m2 (fA p)).lookup k = (heap.Heap.read n2 (fA p)).lookup k := by
  have cross : ∀ (f g : ι → Option Nat), (∀ p q, f p = none ∨ f p ≠ g q) →
      ∀ q a, g q = some a → ∀ p ∈ l, f p ≠ some a := by
    intro f g x q a hq p _ hp
    rcases x p q with h | h
    · rw [hp] at h
      cases h
    · exact h (hp.trans hq.symm)
  obtain ⟨w1, fr1⟩ := heap_walk fA fB l hl (fun p _ q _ h => sAA p q h)
    (fun p _ q _ _ => xAB p q) m m1 F1
  obtain ⟨w2, -⟩ := heap_walk fA fC l hl (fun p _ q _ h => sAA p q h)
    (fun p _ q _ _ => xAC p q) m1 m2 F2
  obtain ⟨w3, fr3⟩ := heap_walk fB fC l hl (fun p _ q _ h => sBB p q h)
    (fun p _ q _ _ => xBC p q) m n1 F3
  obtain ⟨w4, -⟩ := heap_walk fA fB l hl (fun p _ q _ h => sAA p q h)
    (fun p _ q _ _ => xAB p q) n1 n2 F4
  have e2 : heap.Heap.read m1 (fC p) = heap.Heap.read m (fC p) :=
    heap_read_congr m m1 (fC p) (fun a ha => fr1 a (cross fA fC xAC p a ha))
  have e4 : heap.Heap.read n1 (fA p) = heap.Heap.read m (fA p) := by
    refine heap_read_congr m n1 (fA p) (fun a ha => fr3 a ?_)
    intro q _ hq
    rcases xAB p q with h | h
    · rw [ha] at h
      cases h
    · exact h (ha.trans hq.symm)
  have v2 := w2 p (hmem p)
  rw [e2] at v2
  have v4 := w4 p (hmem p)
  rw [e4] at v4
  exact assignAll_assoc _ _ _ _ _ _ _ (w1 p (hmem p)) v2 (w3 p (hmem p)) v4 k

/-- C13, as amended. When the four calls of the two groupings `(A.B).C` and `A.(B.C)` return,
started from the same memory: the `Window` of the receiver is the same in both; its timestamp
is the same when `Before` orders the three timestamps linearly (as it does when none carries
a monotonic clock reading); every sidecar of the receiver has the same lookups when no map
object is held by two sidecar fields of the three reports; and, assuming the merges of the
Topology and DNS collaborators associative, every Topology and the DNS are the same. -/
theorem C13_merge_associative {c : Collab} (m m1 m2 n1 n2 : heap.Memory c)
    (A B C AB L BC R : heap.Report c)
    (h1 : heap.UnsafeMerge m A B = .ok (m1, AB))
    (h2 : heap.UnsafeMerge m1 AB C = .ok (m2, L))
    (h3 : heap.UnsafeMerge m B C = .ok (n1, BC))
    (h4 : heap.UnsafeMerge n1 A BC = .ok (n2, R)) :
    L.Window = R.Window ∧
    (Time.linearlyOrdered [A.TS, B.TS, C.TS] → L.TS = R.TS) ∧
    ((∀ t ∈ [A.TS, B.TS, C.TS], ∃ s n, t = Time.wall s n) →
      Time.linearlyOrdered [A.TS, B.TS, C.TS]) ∧
    (heap.separate [A, B, C] →
      (∀ (p : AdjacencyRef) (k : String),
        (heap.Heap.read m2.adjacency (L.adjacencies p)).lookup k
          = (heap.Heap.read n2.adjacency (R.adjacencies p)).lookup k) ∧
      (∀ (p : ParentsRef) (k : String),
        (heap.Heap.read m2.parents (L.parents p)).lookup k
          = (heap.Heap.read n2.parents (R.parents p)).lookup k) ∧
      (∀ (p : SetsRef) (k : String),
        (heap.Heap.read m2.sets (L.sets p)).lookup k
          = (heap.Heap.read n2.sets (R.sets p)).lookup k)) ∧
    ((∀ x y z : c.Topology, c.topologyUnsafeMerge (c.topologyUnsafeMerge x y) z
        = c.topologyUnsafeMerge x (c.topologyUnsafeMerge y z)) →
      ∀ p : TopologyRef, L.topologies p = R.topologies p) ∧
    ((∀ x y z : c.DNSRecords, c.dnsMerge (c.dnsMerge x y) z = c.dnsMerge x (c.dnsMerge y z)) →
      L.DNS = R.DNS) := by
  obtain ⟨⟨a1, a2, a3, -⟩, ⟨a4, a5, a6⟩, a7, a8, a9, a10⟩ := heap_UnsafeMerge_ok _ _ _ _ _ h1
  obtain ⟨⟨b1, b2, b3, -⟩, ⟨b4, b5, b6⟩, b7, b8, b9, b10⟩ := heap_UnsafeMerge_ok _ _ _ _ _ h2
  obtain ⟨⟨c1, c2, c3, -⟩, ⟨c4, c5, c6⟩, c7, c8, c9, c10⟩ := heap_UnsafeMerge_ok _ _ _ _ _ h3
  obtain ⟨⟨d1, d2, d3, -⟩, ⟨d4, d5, d6⟩, d7, d8, d9, d10⟩ := heap_UnsafeMerge_ok _ _ _ _ _ h4
  refine ⟨?_, ?_, Time.linearlyOrdered_of_wall _, ?_, ?_, ?_⟩
  · rw [b2, a2, d2, c2]
    exact wrap64_add_assoc _ _ _
  · intro hL
    rw [b1, a1, d1, c1]
    exact earliest_assoc_linear _ _ _ hL
  · intro hsep
    obtain ⟨sa, sp, ss⟩ := hsep
    rw [a4] at b8
    rw [a5] at b9
    rw [a6] at b10
    rw [c4] at d8
    rw [c5] at d9
    rw [c6] at d10
    rw [b4, a4, d4, b5, a5, d5, b6, a6, d6]
    obtain ⟨x1, x2, x3, x4, x5⟩ := heap_separate_three adjacencyRefs adjacencyRefs_mem
      A.adjacencies B.adjacencies C.adjacencies sa
    obtain ⟨y1, y2, y3, y4, y5⟩ := heap_separate_three parentsRefs parentsRefs_mem
      A.parents B.parents C.parents sp
    obtain ⟨z1, z2, z3, z4, z5⟩ := heap_separate_three setsRefs setsRefs_mem
      A.sets B.sets C.sets ss
    exact ⟨heap_assoc adjacencyRefs adjacencyRefs_nodup adjacencyRefs_mem _ _ _ x1 x2 x3 x4 x5
        _ _ _ _ _ a8 b8 c8 d8,
      heap_assoc parentsRefs parentsRefs_nodup parentsRefs_mem _ _ _ y1 y2 y3 y4 y5
        _ _ _ _ _ a9 b9 c9 d9,
      heap_assoc setsRefs setsRefs_nodup setsRefs_mem _ _ _ z1 z2 z3 z4 z5
        _ _ _ _ _ a10 b10 c10 d10⟩
  · intro hT p
    rw [b7, a7, d7, c7]
    exact hT _ _ _
  · intro hD
    rw [b3, a3, d3, c3]
    exact hD _ _ _

/-- Witness of C13: three reports whose host parents are three map objects, `h1 -> aws`,
`h0 -> aws`, then `h1 -> gcp`, then `h2 -> gcp`. -/
theorem C13_merge_associative_witness :
    heap.returned (heap.UnsafeMerge heap.demoMemory heap.hostAws heap.hostGcp) = true ∧
    heap.returned (heap.UnsafeMerge heap.demoMemory heap.hostGcp heap.hostOther) = true ∧
    Time.linearlyOrdered [heap.hostAws.TS, heap.hostGcp.TS, heap.hostOther.TS] ∧
    heap.separate [heap.hostAws, heap.hostGcp, heap.hostOther] ∧
    (heap.mergeLeft heap.demoMemory heap.hostAws heap.hostGcp heap.hostOther).2.Window
      = (heap.mergeRight heap.demoMemory heap.hostAws heap.hostGcp heap.hostOther).2.Window ∧
    (heap.mergeLeft heap.demoMemory heap.hostAws heap.hostGcp heap.hostOther).2.TS
      = (heap.mergeRight heap.demoMemory heap.hostAws heap.hostGcp heap.hostOther).2.TS ∧
    (∀ (p : ParentsRef) (k : String),
      (heap.Heap.read
          (heap.mergeLeft heap.demoMemory heap.hostAws heap.hostGcp heap.hostOther).1.parents
          ((heap.mergeLeft heap.demoMemory heap.hostAws heap.hostGcp
            heap.hostOther).2.parents p)).lookup k
        = (heap.Heap.read
          (heap.mergeRight heap.demoMemory heap.hostAws heap.hostGcp heap.hostOther).1.parents
          ((heap.mergeRight heap.demoMemory heap.hostAws heap.hostGcp
            heap.hostOther).2.parents p)).lookup k) :=
  have hw := C13_merge_associative heap.demoMemory
    (heap.state (heap.UnsafeMerge heap.demoMemory heap.hostAws heap.hostGcp)).1
    (heap.mergeLeft heap.demoMemory heap.hostAws heap.hostGcp heap.hostOther).1
    (heap.state (heap.UnsafeMerge heap.demoMemory heap.hostGcp heap.hostOther)).1
    (heap.mergeRight heap.demoMemory heap.hostAws heap.hostGcp heap.hostOther).1
    heap.hostAws heap.hostGcp heap.hostOther
    (heap.state (heap.UnsafeMerge heap.demoMemory heap.hostAws heap.hostGcp)).2
    (heap.mergeLeft heap.demoMemory heap.hostAws heap.hostGcp heap.hostOther).2
    (heap.state (heap.UnsafeMerge heap.demoMemory heap.hostGcp heap.hostOther)).2
    (heap.mergeRight heap.demoMemory heap.hostAws heap.hostGcp heap.hostOther).2
    rfl rfl rfl rfl
  ⟨rfl, rfl, by decide, by decide, hw.1, hw.2.1 (by decide), (hw.2.2.2.1 (by decide)).2.1⟩

/-- Counterexample to C13 as stated, in three parts.  First, a nil map: `A` holds an empty
host parents map, `B` is the zero-valued report and `C` holds `h1 -> gcp`; `(A.B).C` returns
and the host parents of `A` map `h1` to `gcp`, while in `A.(B.C)` the call `B.UnsafeMerge(C)`
panics.  Second, the timestamp: with the timestamps `t1`, `t2`, `t3`, two of which carry a
monotonic clock reading, all four calls return, `(A.B).C` leaves `t3` and `A.(B.C)` leaves
`t1`.  Third, a shared map object: `A` and `C` hold one host parents object, `h1 -> aws`,
`h0 -> aws`, and `B` holds `h1 -> gcp`; all four calls return, `(A.B).C` leaves `h1 -> gcp`
in the host parents of `A` and `A.(B.C)` leaves `h1 -> aws`. -/
theorem C13_counterexample :
    (heap.returned (heap.UnsafeMerge heap.demoMemory heap.hostEmpty heap.zeroReport) = true ∧
     heap.returned (heap.UnsafeMerge
       (heap.state (heap.UnsafeMerge heap.demoMemory heap.hostEmpty heap.zeroReport)).1
       (heap.state (heap.UnsafeMerge heap.demoMemory heap.hostEmpty heap.zeroReport)).2
       heap.hostGcp) = true ∧
     (heap.Heap.read
       (heap.mergeLeft heap.demoMemory heap.hostEmpty heap.zeroReport heap.hostGcp).1.parents
       ((heap.mergeLeft heap.demoMemory heap.hostEmpty heap.zeroReport
         heap.hostGcp).2.parents .HostParents)).lookup "h1" = some gcp ∧
     heap.returned (heap.UnsafeMerge heap.demoMemory heap.zeroReport heap.hostGcp) = false ∧
     (heap.Heap.read
       (heap.mergeRight heap.demoMemory heap.hostEmpty heap.zeroReport heap.hostGcp).1.parents
       ((heap.mergeRight heap.demoMemory heap.hostEmpty heap.zeroReport
         heap.hostGcp).2.parents .HostParents)).lookup "h1" = none) ∧
    (heap.returned (heap.UnsafeMerge heap.demoMemory (heap.stamped t1) (heap.stamped t2))
       = true ∧
     heap.returned (heap.UnsafeMerge
       (heap.state (heap.UnsafeMerge heap.demoMemory (heap.stamped t1) (heap.stamped t2))).1
       (heap.state (heap.UnsafeMerge heap.demoMemory (heap.stamped t1) (heap.stamped t2))).2
       (heap.stamped t3)) = true ∧
     heap.returned (heap.UnsafeMerge heap.demoMemory (heap.stamped t2) (heap.stamped t3))
       = true ∧
     heap.returned (heap.UnsafeMerge
       (heap.state (heap.UnsafeMerge heap.demoMemory (heap.stamped t2) (heap.stamped t3))).1
       (heap.stamped t1)
       (heap.state (heap.UnsafeMerge heap.demoMemory (heap.stamped t2) (heap.stamped t3))).2)
       = true ∧
     (heap.mergeLeft heap.demoMemory (heap.stamped t1) (heap.stamped t2)
       (heap.stamped t3)).2.TS = t3 ∧
     (heap.mergeRight heap.demoMemory (heap.stamped t1) (heap.stamped t2)
       (heap.stamped t3)).2.TS = t1 ∧
     t3 ≠ t1 ∧
     t1.Before t2 = true ∧ t2.Before t3 = true ∧ t3.Before t1 = true) ∧
    (heap.returned (heap.UnsafeMerge heap.demoMemory heap.hostAws heap.hostGcp) = true ∧
     heap.returned (heap.UnsafeMerge
       (heap.state (heap.UnsafeMerge heap.demoMemory heap.hostAws heap.hostGcp)).1
       (heap.state (heap.UnsafeMerge heap.demoMemory heap.hostAws heap.hostGcp)).2
       heap.hostAlias) = true ∧
     heap.returned (heap.UnsafeMerge heap.demoMemory heap.hostGcp heap.hostAlias) = true ∧
     heap.returned (heap.UnsafeMerge
       (heap.state (heap.UnsafeMerge heap.demoMemory heap.hostGcp heap.hostAlias)).1
       heap.hostAws
       (heap.state (heap.UnsafeMerge heap.demoMemory heap.hostGcp heap.hostAlias)).2)
       = true ∧
     heap.hostAws.parents .HostParents = heap.hostAlias.parents .HostParents ∧
     (heap.Heap.read
       (heap.mergeLeft heap.demoMemory heap.hostAws heap.hostGcp heap.hostAlias).1.parents
       ((heap.mergeLeft heap.demoMemory heap.hostAws heap.hostGcp
         heap.hostAlias).2.parents .HostParents)).lookup "h1" = some gcp ∧
     (heap.Heap.read
       (heap.mergeRight heap.demoMemory heap.hostAws heap.hostGcp heap.hostAlias).1.parents
       ((heap.mergeRight heap.demoMemory heap.hostAws heap.hostGcp
         heap.hostAlias).2.parents .HostParents)).lookup "h1" = some aws) :=
  ⟨⟨rfl, rfl, by decide, rfl, by decide⟩,
   ⟨rfl, rfl, rfl, rfl, by decide, by decide, by decide, by decide, by decide, by decide⟩,
   ⟨rfl, rfl, rfl, rfl, by decide, by decide, by decide⟩⟩

/-! ## C26: a merge that panics adds no key -/

/-- Counterexample to C26 as stated: the receiver is the zero-valued report, whose host
parents map is nil, and `B` holds the host parent `h1`.  The merge of `B` panics on the
assignment into the nil map, and after the unmerge of `B` the key `h1` of `B` is not in the
host parents of the receiver. -/
theorem C26_counterexample :
    "h1" ∈ (ParentsRef.HostParents.get hostGcpOnly).keys ∧
    UnsafeMerge zeroReport hostGcpOnly = .error zeroReport ∧
    "h1" ∉ (ParentsRef.HostParents.get
      (applyCalls zeroReport [.merge hostGcpOnly, .unmerge hostGcpOnly])).keys :=
  ⟨by decide, rfl, by decide⟩

end report

namespace controls

/-! ## C28, C29: the work budget of `GetKubernetesClusterActions` -/

/-- C28. The diagnostic-log extraction is the first extraction invoked and is given the limit
`maxWork`, whatever `workNumToExtract` is; when `workNumToExtract` is 0 it is the only
extraction invoked, the errors are the one-element list of its error, and the actions are its
actions when its error is nil and none otherwise. -/
theorem C28_diagnostic_logs_outside_budget {σ Action Err : Type} (env : Env σ Action Err)
    (w : σ) (nodeID : String) (workNumToExtract : Int) :
    (GetKubernetesClusterActions env w nodeID workNumToExtract).invoked.head? =
      some (.diagnosticLogs env.maxWork) ∧
    (∀ limit, Extraction.diagnosticLogs limit ∈
        (GetKubernetesClusterActions env w nodeID workNumToExtract).invoked →
      limit = env.maxWork) ∧
    (GetKubernetesClusterActions env w nodeID 0).invoked = [.diagnosticLogs env.maxWork] ∧
    (GetKubernetesClusterActions env w nodeID 0).errors =
      [(env.ExtractAgentDiagnosticLogRequests w nodeID env.maxWork).1.2] ∧
    ((env.ExtractAgentDiagnosticLogRequests w nodeID env.maxWork).1.2 = none →
      (GetKubernetesClusterActions env w nodeID 0).actions =
        (env.ExtractAgentDiagnosticLogRequests w nodeID env.maxWork).1.1) ∧
    ((env.ExtractAgentDiagnosticLogRequests w nodeID env.maxWork).1.2 ≠ none →
      (GetKubernetesClusterActions env w nodeID 0).actions = []) ∧
    (GetKubernetesClusterActions env w nodeID 0).world =
      (env.ExtractAgentDiagnosticLogRequests w nodeID env.maxWork).2 := by
  refine ⟨?_, ?_, rfl, rfl, ?_, ?_, rfl⟩
  · unfold GetKubernetesClusterActions
    by_cases h : workNumToExtract = 0
    · simp only [h, if_true, List.head?_cons]
    · simp only [h, if_false, List.head?_cons]
  · intro limit
    unfold GetKubernetesClusterActions
    by_cases h : workNumToExtract = 0
    · simp only [h, if_true, List.mem_singleton, Extraction.diagnosticLogs.injEq]
      exact fun e => e
    · simp only [h, if_false, List.mem_cons, Extraction.diagnosticLogs.injEq, List.mem_nil_iff,
        or_false, false_or, reduceCtorEq]
      exact fun e => e
  · intro h
    unfold GetKubernetesClusterActions
    simp only [if_true, h, Option.isNone_none]
  · intro h
    unfold GetKubernetesClusterActions
    cases h2 : (env.ExtractAgentDiagnosticLogRequests w nodeID env.maxWork).1.2 with
    | none => exact absurd h2 h
    | some e => simp only [if_true, h2, Option.isNone_some, Bool.false_eq_true, if_false]

/-- C29. For a non-negative `workNumToExtract`, with extractions that return at most as many
actions as their limit: the scan extraction is given `workNumToExtract` minus the number of
upgrade actions extracted, whether or not the upgrade extraction reported an error, and the
returned actions are the diagnostic-log part followed by upgrade and scan actions that are
together at most `workNumToExtract`. -/
theorem C29_work_budget {σ Action Err : Type} (env : Env σ Action Err)
    (w : σ) (nodeID : String) (workNumToExtract : Int)
    (h0 : 0 ≤ workNumToExtract) (h64 : report.isInt64 workNumToExtract)
    (hU : ∀ w2 limit, 0 ≤ limit →
      ((ExtractPendingKubernetesClusterUpgrade env w2 nodeID limit).1.1.length : Int) ≤ limit)
    (hS : ∀ w2 limit, 0 ≤ limit →
      ((ExtractStartingKubernetesClusterScans env w2 nodeID limit).1.1.length : Int) ≤ limit) :
    (workNumToExtract ≠ 0 →
      (GetKubernetesClusterActions env w nodeID workNumToExtract).invoked =
        [.diagnosticLogs env.maxWork, .pendingUpgrade workNumToExtract,
         .startingScans (workNumToExtract -
           ((ExtractPendingKubernetesClusterUpgrade env
             (env.ExtractAgentDiagnosticLogRequests w nodeID env.maxWork).2 nodeID
             workNumToExtract).1.1.length : Int))]) ∧
    ∃ up sc : List Action,
      (GetKubernetesClusterActions env w nodeID workNumToExtract).actions =
        (if (env.ExtractAgentDiagnosticLogRequests w nodeID env.maxWork).1.2.isNone
          then (env.ExtractAgentDiagnosticLogRequests w nodeID env.maxWork).1.1 else [])
        ++ up ++ sc ∧
      ((up.length : Int) + (sc.length : Int) ≤ workNumToExtract) := by
  have hw : ∀ n : Nat, (n : Int) ≤ workNumToExtract →
      report.wrap64 (workNumToExtract - n) = workNumToExtract - n := by
    intro n hn
    apply report.wrap64_of_isInt64
    unfold report.isInt64 at h64 ⊢
    omega
  by_cases h : workNumToExtract = 0
  · refine ⟨fun hne => absurd h hne, [], [], ?_, ?_⟩
    · unfold GetKubernetesClusterActions
      simp only [h, if_true, List.append_nil]
    · simp only [List.length_nil, Int.Nat.cast_ofNat_Int, Int.add_zero]
      exact h0
  · have hu := hU (env.ExtractAgentDiagnosticLogRequests w nodeID env.maxWork).2
      workNumToExtract h0
    have hs := hS (ExtractPendingKubernetesClusterUpgrade env
      (env.ExtractAgentDiagnosticLogRequests w nodeID env.maxWork).2 nodeID
      workNumToExtract).2 (workNumToExtract - ((ExtractPendingKubernetesClusterUpgrade env
        (env.ExtractAgentDiagnosticLogRequests w nodeID env.maxWork).2 nodeID
        workNumToExtract).1.1.length : Int)) (by omega)
    constructor
    · intro _
      unfold GetKubernetesClusterActions
      simp only [h, if_false, hw _ hu]
    · unfold GetKubernetesClusterActions
      simp only [h, if_false, hw _ hu]
      generalize ExtractPendingKubernetesClusterUpgrade env
        (env.ExtractAgentDiagnosticLogRequests w nodeID env.maxWork).2 nodeID
        workNumToExtract = upgrade at hu hs ⊢
      generalize ExtractStartingKubernetesClusterScans env upgrade.2 nodeID
        (workNumToExtract - (upgrade.1.1.length : Int)) = scans at hs ⊢
      cases hue : upgrade.1.2.isNone <;> cases hse : scans.1.2.isNone
      · refine ⟨[], [], ?_, ?_⟩
        · simp only [Bool.false_eq_true, if_false, List.append_nil]
        · simp only [List.length_nil, Int.Nat.cast_ofNat_Int, Int.add_zero]; exact h0
      · refine ⟨[], scans.1.1, ?_, ?_⟩
        · simp only [Bool.false_eq_true, if_false, if_true, List.append_nil]
        · simp only [List.length_nil, Int.Nat.cast_ofNat_Int]; omega
      · refine ⟨upgrade.1.1, [], ?_, ?_⟩
        · simp only [Bool.false_eq_true, if_false, if_true, List.append_nil]
        · simp only [List.length_nil, Int.Nat.cast_ofNat_Int]; omega
      · refine ⟨upgrade.1.1, scans.1.1, ?_, ?_⟩
        · simp only [if_true]
        · omega

/-- Witness of C29: a budget of three, an upgrade extraction that finds one action and a scan
extraction that finds two. -/
theorem C29_work_budget_witness :
    (((3 : Int) ≠ 0 →
      (GetKubernetesClusterActions demoEnv 0 "node-1" 3).invoked =
        [.diagnosticLogs demoEnv.maxWork, .pendingUpgrade 3,
         .startingScans (3 - ((ExtractPendingKubernetesClusterUpgrade demoEnv
           (demoEnv.ExtractAgentDiagnosticLogRequests 0 "node-1" demoEnv.maxWork).2 "node-1"
           3).1.1.length : Int))]) ∧
    ∃ up sc : List String,
      (GetKubernetesClusterActions demoEnv 0 "node-1" 3).actions =
        (if (demoEnv.ExtractAgentDiagnosticLogRequests 0 "node-1" demoEnv.maxWork).1.2.isNone
          then (demoEnv.ExtractAgentDiagnosticLogRequests 0 "node-1" demoEnv.maxWork).1.1
          else [])
        ++ up ++ sc ∧
      ((up.length : Int) + (sc.length : Int) ≤ 3)) ∧
    (GetKubernetesClusterActions demoEnv 0 "node-1" 3).invoked =
      [.diagnosticLogs 5, .pendingUpgrade 3, .startingScans 2] ∧
    (GetKubernetesClusterActions demoEnv 0 "node-1" 3).actions = ["upgrade", "scan", "scan"] :=
  ⟨C29_work_budget demoEnv 0 "node-1" 3 (by decide) (by decide)
    (fun w2 limit h => by
      show ((List.replicate (min limit.toNat 1) "upgrade").length : Int) ≤ limit
      rw [List.length_replicate]
      omega)
    (fun w2 limit h => by
      show ((List.replicate (min limit.toNat 2) "scan").length : Int) ≤ limit
      rw [List.length_replicate]
      omega), by decide, by decide⟩

/-! ## C32: the guard on the node identifier -/

/-- C32. Called with an empty node identifier, `ExtractStartingKubernetesClusterScans` and
`ExtractPendingKubernetesClusterUpgrade` return no actions and the error `ErrMissingNodeID`,
for every limit; the world is returned as it was given, and the result does not depend on
what the client, the session, the transaction or the query would do. -/
theorem C32_empty_nodeID_guard {σ Action Err : Type} (env : Env σ Action Err) (w : σ)
    (maxWork : Int) :
    ExtractStartingKubernetesClusterScans env w "" maxWork =
      (([], some env.ErrMissingNodeID), w) ∧
    ExtractPendingKubernetesClusterUpgrade env w "" maxWork =
      (([], some env.ErrMissingNodeID), w) ∧
    (∀ nodeID : String, nodeID.length = 0 →
      ExtractStartingKubernetesClusterScans env w nodeID maxWork =
        (([], some env.ErrMissingNodeID), w) ∧
      ExtractPendingKubernetesClusterUpgrade env w nodeID maxWork =
        (([], some env.ErrMissingNodeID), w)) ∧
    (∀ env2 : Env σ Action Err, env2.ErrMissingNodeID = env.ErrMissingNodeID →
      ExtractStartingKubernetesClusterScans env2 w "" maxWork =
        ExtractStartingKubernetesClusterScans env w "" maxWork ∧
      ExtractPendingKubernetesClusterUpgrade env2 w "" maxWork =
        ExtractPendingKubernetesClusterUpgrade env w "" maxWork) := by
  refine ⟨rfl, rfl, fun nodeID h => ?_, fun env2 h => ?_⟩
  · unfold ExtractStartingKubernetesClusterScans ExtractPendingKubernetesClusterUpgrade
    rw [if_pos h, if_pos h]
    exact ⟨rfl, rfl⟩
  · have e : ("" : String).length = 0 := rfl
    unfold ExtractStartingKubernetesClusterScans ExtractPendingKubernetesClusterUpgrade
    rw [if_pos e, if_pos e, if_pos e, if_pos e, h]
    exact ⟨rfl, rfl⟩

end controls
